import Mathlib

/-!
Blockchain-Simulator: embedding of the miner network and the monitor pair.

Shallow embedding of `Proyect/minero.h`, `Proyect/minero.c`, `Proyect/monitor.h`,
`Proyect/comprobador.c` and `Proyect/monitor.c`.

Conventions of the embedding.

* C `int`, `long` and `pid_t` values are mathematical integers (`Int`).  The
  arithmetic on them is `++` on counters (at most one increment per slot or per
  round) and the split of the search space (`POW_LIMIT / N_THREADS`, `j * range`),
  whose results lie between 0 and `POW_LIMIT`; no computation of the model leaves
  the range of the C types unless a counter has been incremented 2^31 times; signed
  overflow is undefined in C and is outside the model.  The loop variable of
  `miner_thread` is an `int` that receives a `long` and is compared with a `long`:
  there the conversion is `a_int` and the overflow of `i++` is a result of its own.
* An array `T a[MAX_MINERS]` is a function `Fin MAX_MINERS → T`; a `for` loop
  `for (i = 0; i < N; i++)` is `para_cada N body`, which runs `body 0`, ...,
  `body (N-1)` in this order.  A loop with the extra exit condition `!terminado`
  (or with `break`) carries the flag in its loop state.
* A POSIX semaphore is its counter (`Nat`).  `sem_wait` on a zero counter blocks:
  the atomic block that starts with it is then not enabled and the embedding
  returns `none`.  `safe_sem_wait` and `safe_sem_post` are modelled where they return
  `true`; the return on an interrupted wait during shutdown is outside the model.
* The code between two blocking calls of one process is one atomic step of the
  transition systems; the states between steps are the quiescent states.  The
  registration loop of `minero` does not hold `semaforos.mutex`, the lock of the other
  sections that write the roster, and after `entry_gate` it holds no lock: it is also
  given one access to the region at a time (`registro_paso`), and so is the loop of
  `salir` it races with (`salir_paso`).
* `pow_hash` and `POW_LIMIT` live in `pow.h` / `pow.c`, which are not part of the
  sources; every definition that uses them takes them as parameters
  (`pow_hash : Int → Int`, `POW_LIMIT : Int`).
* `getpid()` is the parameter `me`.
* A signal handler only sets its flag (`minero.c`, lines 47-61).  Where one process
  is followed on its own, the values it reads from the flags are inputs of the
  run; in the network of processes, `kill` sets the flag of its target within the
  step of the sender, before the target takes its next step.
* The wait of `ganador` (lines 406-409) reads `bloque_actual.total_votos` without
  holding `mutex`; every read is an input of the loop.
-/

namespace Blockchain

/-! ## Constants (`minero.h`, `monitor.h`) -/

abbrev MAX_MINERS : Nat := 50

abbrev MAX_THREADS : Nat := 100

abbrev MAX_BLOQUES : Nat := 6

abbrev COD_SALIDA : Int := 10000000

/-! ## Records (`minero.h`) -/

/-- Record `Voto`: a peer id and its vote (1 approve, 0 reject, -1 absent). -/
structure Voto where
  pid : Int
  voto : Int
deriving DecidableEq, Repr

/-- Record `Monedas`: a peer id and its number of coins. -/
structure Monedas where
  pid : Int
  monedas : Int
deriving DecidableEq, Repr

/-- Record `Bloque`. -/
structure Bloque where
  id : Int
  objetivo : Int
  solucion : Int
  ganador : Int
  monedas_mineros : Fin MAX_MINERS → Monedas
  total_votos : Int
  votos_positivos : Int
  correcto : Bool

/-- The value of `Bloque envio = {0}`. -/
def Bloque.cero : Bloque :=
  { id := 0, objetivo := 0, solucion := 0, ganador := 0,
    monedas_mineros := fun _ => { pid := 0, monedas := 0 },
    total_votos := 0, votos_positivos := 0, correcto := false }

/-- Record `Semaforo` of the miner region: the counters of the three semaphores. -/
structure Semaforo where
  mutex : Nat
  mutex_ronda : Nat
  ganador : Nat
deriving DecidableEq, Repr

/-- Record `SharedMemMiner`. -/
structure SharedMemMiner where
  pid : Fin MAX_MINERS → Int
  votos_mineros : Fin MAX_MINERS → Voto
  monedas_mineros : Fin MAX_MINERS → Monedas
  bloque_anterior : Bloque
  bloque_actual : Bloque
  semaforos : Semaforo
  entry_mutex : Nat
  entry_gate : Nat
  waiters_count : Int
  can_enter : Bool

/-! ## Records (`monitor.h`) -/

/-- Record `Semaforo_monitor`: the counters of the three semaphores of the ring. -/
structure Semaforo_monitor where
  mutex : Nat
  sem_empty : Nat
  sem_fill : Nat
deriving DecidableEq, Repr

/-- Record `SharedMem`.  The indices `in` and `out` are only ever assigned `0` and
`(x + 1) % MAX_BLOQUES`, so they are kept as `Fin MAX_BLOQUES`. -/
structure SharedMem where
  bloques : Fin MAX_BLOQUES → Bloque
  semaforos : Semaforo_monitor
  out : Fin MAX_BLOQUES
  in_ : Fin MAX_BLOQUES

/-! ## Loops and semaphores -/

/-- The first `n` iterations of `for (i = 0; i < N; i++) body`. -/
def forLoop {σ : Type} (N : Nat) (body : Fin N → σ → σ) : (n : Nat) → n ≤ N → σ → σ
  | 0, _, s => s
  | n + 1, h, s => body ⟨n, h⟩ (forLoop N body n (Nat.le_of_succ_le h) s)

/-- The loop `for (i = 0; i < N; i++) body`. -/
def para_cada {σ : Type} (N : Nat) (body : Fin N → σ → σ) (s : σ) : σ :=
  forLoop N body N (Nat.le_refl N) s

/-- A `sem_wait` that returns: the counter is positive and is decremented.  On a zero
counter the caller blocks (`none`). -/
def sem_wait (c : Nat) : Option Nat :=
  if c = 0 then none else some (c - 1)

/-- The call `sem_post`. -/
def sem_post (c : Nat) : Nat := c + 1

/-- The index `(i + 1) % MAX_BLOQUES`. -/
def siguiente (i : Fin MAX_BLOQUES) : Fin MAX_BLOQUES :=
  ⟨(i.val + 1) % MAX_BLOQUES, Nat.mod_lt _ (by decide)⟩

/-! ## The Checker (`comprobador.c`) -/

/-- `setup_comprobador`, lines 19-42: the indices and the three semaphores. -/
def setup_comprobador (segmento : SharedMem) : SharedMem :=
  { segmento with
    in_ := 0
    out := 0
    semaforos := { mutex := 1, sem_fill := 0, sem_empty := MAX_BLOQUES } }

/-- One iteration of the loop of `comprobador`, lines 66-94, for the block `recibido`
that `mq_receive` delivered: the verdict, then the insertion into the ring.  `none`
when `sem_empty` or `mutex` would block. -/
def comprobador_insertar (pow_hash : Int → Int) (recibido : Bloque)
    (segmento : SharedMem) : Option SharedMem := do
  let objetivo := recibido.objetivo
  let solucion := recibido.solucion
  let correcto := if pow_hash solucion = objetivo then true else false
  let empty ← sem_wait segmento.semaforos.sem_empty
  let mutex ← sem_wait segmento.semaforos.mutex
  let i := segmento.in_
  let b := segmento.bloques i
  let b := { b with id := recibido.id }
  let b := { b with objetivo := objetivo }
  let b := { b with solucion := solucion }
  let b := { b with ganador := recibido.ganador }
  let b := para_cada MAX_MINERS (fun j (b : Bloque) =>
    { b with
      monedas_mineros := Function.update b.monedas_mineros j
        { pid := (recibido.monedas_mineros j).pid,
          monedas := (recibido.monedas_mineros j).monedas } }) b
  let b := { b with total_votos := recibido.total_votos }
  let b := { b with votos_positivos := recibido.votos_positivos }
  let b := { b with correcto := correcto }
  pure { segmento with
    bloques := Function.update segmento.bloques i b
    in_ := siguiente i
    semaforos := { mutex := sem_post mutex, sem_empty := empty,
                   sem_fill := sem_post segmento.semaforos.sem_fill } }

/-! ## The Printer (`monitor.c`) -/

/-- One iteration of the loop of `monitor`, lines 49-65: the block at `out` is copied
field by field into the locals (returned as a `Bloque`) and `out` advances.  `none`
when `sem_fill` or `mutex` would block. -/
def monitor_extraer (segmento : SharedMem) : Option (SharedMem × Bloque) := do
  let fill ← sem_wait segmento.semaforos.sem_fill
  let mutex ← sem_wait segmento.semaforos.mutex
  let out := segmento.out
  let l := Bloque.cero
  let l := { l with id := (segmento.bloques out).id }
  let l := { l with objetivo := (segmento.bloques out).objetivo }
  let l := { l with solucion := (segmento.bloques out).solucion }
  let l := { l with ganador := (segmento.bloques out).ganador }
  let l := para_cada MAX_MINERS (fun i (l : Bloque) =>
    { l with
      monedas_mineros := Function.update l.monedas_mineros i
        { pid := ((segmento.bloques out).monedas_mineros i).pid,
          monedas := ((segmento.bloques out).monedas_mineros i).monedas } }) l
  let l := { l with total_votos := (segmento.bloques out).total_votos }
  let l := { l with votos_positivos := (segmento.bloques out).votos_positivos }
  let l := { l with correcto := (segmento.bloques out).correcto }
  pure ({ segmento with
    out := siguiente out
    semaforos := { mutex := sem_post mutex, sem_fill := fill,
                   sem_empty := sem_post segmento.semaforos.sem_empty } }, l)

/-! ## The miner (`minero.c`) -/

/-- `primer_minero`, lines 254-312: the semaphores, the admission gate, the tables and
the two block records of a new region.  The two waits (`mutex`, line 286, and
`mutex_ronda`, line 312) find the counter at 1 and return at once. -/
def primer_minero (segmento : SharedMemMiner) : SharedMemMiner :=
  let s := { segmento with semaforos := { mutex := 1, mutex_ronda := 1, ganador := 1 } }
  let s := { s with waiters_count := 0 }
  let s := { s with can_enter := true }
  let s := { s with entry_mutex := 1 }
  let s := { s with entry_gate := 0 }
  let s := { s with semaforos := { s.semaforos with mutex := s.semaforos.mutex - 1 } }
  let s := para_cada MAX_MINERS (fun i (s : SharedMemMiner) =>
    { s with
      pid := Function.update s.pid i (-1)
      votos_mineros := Function.update s.votos_mineros i { pid := -1, voto := -1 }
      monedas_mineros := Function.update s.monedas_mineros i { pid := -1, monedas := -1 } }) s
  let s := { s with
    bloque_anterior := { s.bloque_anterior with
      id := -1, objetivo := 0, solucion := 0, ganador := -1,
      total_votos := -1, votos_positivos := -1 } }
  let s := { s with
    bloque_actual := { s.bloque_actual with
      id := 1, objetivo := 0, solucion := 0, ganador := -1,
      total_votos := -1, votos_positivos := -1 } }
  let s := { s with semaforos := { s.semaforos with mutex := sem_post s.semaforos.mutex } }
  { s with semaforos := { s.semaforos with mutex_ronda := s.semaforos.mutex_ronda - 1 } }

/-- The loop `for (i = 0; i < MAX_MINERS && !terminado; i++)` of `ganador` (lines
388-393) and of `perdedor` (lines 522-527 with `v = 1`, lines 532-537 with `v = 0`):
the first vote slot whose `pid` is `getpid()` receives the vote `v`. -/
def marcar_voto (me v : Int) (segmento : SharedMemMiner) : SharedMemMiner :=
  (para_cada MAX_MINERS (fun i (r : SharedMemMiner × Bool) =>
    if r.2 then r
    else if (r.1.votos_mineros i).pid = me then
      ({ r.1 with
          votos_mineros := Function.update r.1.votos_mineros i
            { (r.1.votos_mineros i) with voto := v } }, true)
    else r) (segmento, false)).1

/-- Body of the loop of `ganador`, lines 383-385. -/
def limpiar_voto (i : Fin MAX_MINERS) (s : SharedMemMiner) : SharedMemMiner :=
  { s with
    votos_mineros := Function.update s.votos_mineros i
      { (s.votos_mineros i) with voto := 0 } }

/-- The loop of `ganador`, lines 383-385: every vote is set to 0. -/
def limpiar_votos (segmento : SharedMemMiner) : SharedMemMiner :=
  para_cada MAX_MINERS limpiar_voto segmento

/-- `ganador`, lines 381-394, the first critical section: every vote is set to 0, the
solution and the winner are written into the current block, the winner approves. -/
def ganador_anunciar (me solucion : Int) (segmento : SharedMemMiner) :
    Option SharedMemMiner := do
  let mutex ← sem_wait segmento.semaforos.mutex
  let s := { segmento with semaforos := { segmento.semaforos with mutex := mutex } }
  let s := limpiar_votos s
  let s := { s with bloque_actual := { s.bloque_actual with solucion := solucion } }
  let s := { s with bloque_actual := { s.bloque_actual with ganador := me } }
  let s := marcar_voto me 1 s
  pure { s with semaforos := { s.semaforos with mutex := sem_post s.semaforos.mutex } }

/-- The counting loop of `ganador`, lines 398-402, and of `salir`, lines 89-93: the
number of slots of `pid[]` that are not -1. -/
def contar_mineros (segmento : SharedMemMiner) : Int :=
  para_cada MAX_MINERS (fun i (mineros : Int) =>
    if segmento.pid i ≠ -1 then mineros + 1 else mineros) 0

/-- `ganador`, lines 398-404: the registered peers are counted and the election latch
is posted.  Returns the region and the local `mineros`. -/
def ganador_contar (segmento : SharedMemMiner) : SharedMemMiner × Int :=
  let mineros := contar_mineros segmento
  ({ segmento with
      semaforos := { segmento.semaforos with
        ganador := sem_post segmento.semaforos.ganador } }, mineros)

/-- Body of the loop of `ganador`, lines 415-422. -/
def contar_voto (i : Fin MAX_MINERS) (s : SharedMemMiner) : SharedMemMiner :=
  let s := if (s.votos_mineros i).voto = 1 then
      { s with
        bloque_actual := { s.bloque_actual with
          votos_positivos := s.bloque_actual.votos_positivos + 1 } }
    else s
  if (s.votos_mineros i).pid ≠ -1 ∧ (s.votos_mineros i).voto ≠ -1 then
    { s with
      bloque_actual := { s.bloque_actual with
        total_votos := s.bloque_actual.total_votos + 1 } }
  else s

/-- The loop of `ganador`, lines 415-422: a slot whose vote is 1 adds one approval; a
slot whose `pid` is not -1 and whose vote is not -1 adds one cast vote. -/
def contar_votos (segmento : SharedMemMiner) : SharedMemMiner :=
  para_cada MAX_MINERS contar_voto segmento

/-- Body of the loop of `ganador`, lines 426-431, on the region and the local
`wallet`. -/
def premiar_paso (me : Int) (i : Fin MAX_MINERS) (r : SharedMemMiner × Int) :
    SharedMemMiner × Int :=
  if (r.1.monedas_mineros i).pid = me then
    ({ r.1 with
        monedas_mineros := Function.update r.1.monedas_mineros i
          { (r.1.monedas_mineros i) with
            monedas := (r.1.monedas_mineros i).monedas + 1 } }, r.2 + 1)
  else r

/-- The loop of `ganador`, lines 426-431: every wallet slot whose `pid` is `getpid()`
gains a coin, and so does the local `wallet`, once per such slot. -/
def premiar (me : Int) (segmento : SharedMemMiner) (wallet : Int) : SharedMemMiner × Int :=
  para_cada MAX_MINERS (premiar_paso me) (segmento, wallet)

/-- Body of the loop of `ganador`, lines 437-440. -/
def copiar_moneda (i : Fin MAX_MINERS) (s : SharedMemMiner) : SharedMemMiner :=
  { s with
    bloque_actual := { s.bloque_actual with
      monedas_mineros := Function.update s.bloque_actual.monedas_mineros i
        { pid := (s.monedas_mineros i).pid,
          monedas := (s.monedas_mineros i).monedas } } }

/-- The loop of `ganador`, lines 437-440: the wallets are copied into the current
block. -/
def copiar_monedas (segmento : SharedMemMiner) : SharedMemMiner :=
  para_cada MAX_MINERS copiar_moneda segmento

/-- `ganador`, lines 413-440, the tally: approvals and cast votes are recounted, the
approved winner gains a coin in the shared table and in its local `wallet`, the
verdict is written and the wallets are copied into the current block.  Returns the
region and the local `wallet`. -/
def ganador_recuento (me mineros : Int) (segmento : SharedMemMiner) (wallet : Int) :
    SharedMemMiner × Int :=
  let s := { segmento with
    bloque_actual := { segmento.bloque_actual with votos_positivos := 0 } }
  let s := { s with bloque_actual := { s.bloque_actual with total_votos := 0 } }
  let s := contar_votos s
  let r := if s.bloque_actual.votos_positivos > Int.tdiv mineros 2 then
      let r := premiar me s wallet
      ({ r.1 with bloque_actual := { r.1.bloque_actual with correcto := true } }, r.2)
    else
      ({ s with bloque_actual := { s.bloque_actual with correcto := false } }, wallet)
  (copiar_monedas r.1, r.2)

/-- Body of the loop of `ganador`, lines 447-452. -/
def envio_moneda (segmento : SharedMemMiner) (i : Fin MAX_MINERS) (envio : Bloque) : Bloque :=
  if (segmento.votos_mineros i).voto ≠ -1 then
    { envio with
      monedas_mineros := Function.update envio.monedas_mineros i
        { pid := (segmento.monedas_mineros i).pid,
          monedas := (segmento.monedas_mineros i).monedas } }
  else envio

/-- `ganador`, lines 377 and 443-454: the message `envio`, zeroed and then filled from
the current block; `correcto` is not assigned, and the coins of a slot are copied
only when its vote is not -1. -/
def ganador_envio (segmento : SharedMemMiner) : Bloque :=
  let envio := Bloque.cero
  let envio := { envio with id := segmento.bloque_actual.id }
  let envio := { envio with objetivo := segmento.bloque_actual.objetivo }
  let envio := { envio with solucion := segmento.bloque_actual.solucion }
  let envio := { envio with ganador := segmento.bloque_actual.ganador }
  let envio := para_cada MAX_MINERS (envio_moneda segmento) envio
  let envio := { envio with total_votos := segmento.bloque_actual.total_votos }
  { envio with votos_positivos := segmento.bloque_actual.votos_positivos }

/-- Body of the loop of `ganador`, lines 472-476. -/
def reiniciar_voto (i : Fin MAX_MINERS) (s : SharedMemMiner) : SharedMemMiner :=
  if (s.votos_mineros i).pid ≠ -1 then
    { s with
      votos_mineros := Function.update s.votos_mineros i
        { (s.votos_mineros i) with voto := 0 } }
  else s

/-- The loop of `ganador`, lines 472-476: the vote of every slot whose `pid` is not -1
is set to 0. -/
def reiniciar_votos (segmento : SharedMemMiner) : SharedMemMiner :=
  para_cada MAX_MINERS reiniciar_voto segmento

/-- `ganador`, lines 464-476, the rotation: the current block becomes the previous
one and the next block is prepared. -/
def ganador_rotar (pow_hash : Int → Int) (me : Int) (segmento : SharedMemMiner) :
    SharedMemMiner :=
  let s := { segmento with bloque_anterior := segmento.bloque_actual }
  let s := { s with bloque_actual := { s.bloque_actual with id := s.bloque_actual.id + 1 } }
  let s := { s with
    bloque_actual := { s.bloque_actual with objetivo := s.bloque_anterior.solucion } }
  let s := { s with
    bloque_actual := { s.bloque_actual with solucion := pow_hash s.bloque_actual.solucion } }
  let s := { s with bloque_actual := { s.bloque_actual with ganador := me } }
  let s := { s with bloque_actual := { s.bloque_actual with correcto := false } }
  let s := { s with bloque_actual := { s.bloque_actual with total_votos := 0 } }
  let s := { s with bloque_actual := { s.bloque_actual with votos_positivos := 0 } }
  reiniciar_votos s

/-- What the second critical section of `ganador` leaves: the region, the local
`wallet`, the block handed to `mq_send` and the value `ganador` returns. -/
structure Cierre where
  segmento : SharedMemMiner
  wallet : Int
  envio : Bloque
  retorno : Bool

/-- `ganador`, lines 412-477, the second critical section: tally, message, `mq_send`
(whose success is the parameter `mq_send_ok`), rotation.  When `mq_send` fails the
function returns `false` at line 459, before the rotation and before the post on
`mutex`.  `none` when `mutex` would block. -/
def ganador_cerrar (pow_hash : Int → Int) (me mineros wallet : Int) (mq_send_ok : Bool)
    (segmento : SharedMemMiner) : Option Cierre := do
  let mutex ← sem_wait segmento.semaforos.mutex
  let s := { segmento with semaforos := { segmento.semaforos with mutex := mutex } }
  let r := ganador_recuento me mineros s wallet
  let envio := ganador_envio r.1
  if mq_send_ok then
    let s := ganador_rotar pow_hash me r.1
    let s := { s with semaforos := { s.semaforos with mutex := sem_post s.semaforos.mutex } }
    pure { segmento := s, wallet := r.2, envio := envio, retorno := true }
  else
    pure { segmento := r.1, wallet := r.2, envio := envio, retorno := false }

/-- `ganador`, lines 374-484, run without any other process stepping in between its
two critical sections.  The polling loop of lines 406-409 only reads the region. -/
def ganador (pow_hash : Int → Int) (me solucion wallet : Int) (mq_send_ok : Bool)
    (segmento : SharedMemMiner) : Option Cierre := do
  let s ← ganador_anunciar me solucion segmento
  let r := ganador_contar s
  ganador_cerrar pow_hash me r.2 wallet mq_send_ok r.1

/-- `perdedor`, lines 519-539, the critical section of a voter: the solution of the
current block is hashed again and the verdict goes into the voter's own slot. -/
def perdedor_votar (pow_hash : Int → Int) (me : Int) (segmento : SharedMemMiner) :
    Option SharedMemMiner := do
  let mutex ← sem_wait segmento.semaforos.mutex
  let s := { segmento with semaforos := { segmento.semaforos with mutex := mutex } }
  let s := if s.bloque_actual.objetivo = pow_hash s.bloque_actual.solucion then
      marcar_voto me 1 s
    else
      marcar_voto me 0 s
  pure { s with semaforos := { s.semaforos with mutex := sem_post s.semaforos.mutex } }

/-- `perdedor`, lines 496-542, once the wait of lines 507-509 is over (SIGUSR2 or a
shutdown signal has arrived): returns the region and the value `perdedor` returns. -/
def perdedor (pow_hash : Int → Int) (me : Int) (got_signal_SIGINT got_signal_SIGALARM : Bool)
    (segmento : SharedMemMiner) : Option (SharedMemMiner × Bool) :=
  if got_signal_SIGINT || got_signal_SIGALARM then some (segmento, false)
  else (perdedor_votar pow_hash me segmento).map (fun s => (s, true))

/-- The loop of `salir`, lines 78-87: the first slot of `pid[]` that holds `getpid()`
is freed in the three tables (`break` after it). -/
def salir_borrar (me : Int) (segmento : SharedMemMiner) : SharedMemMiner :=
  (para_cada MAX_MINERS (fun i (r : SharedMemMiner × Bool) =>
    if r.2 then r
    else if r.1.pid i = me then
      ({ r.1 with
          pid := Function.update r.1.pid i (-1)
          votos_mineros := Function.update r.1.votos_mineros i { pid := -1, voto := -1 }
          monedas_mineros := Function.update r.1.monedas_mineros i
            { monedas := -1, pid := -1 } }, true)
    else r) (segmento, false)).1

/-- `salir`, lines 71-109: the miner leaves the three tables, the registered peers are
counted, and when none is left the terminator is handed to `mq_send`.  Returns the
region and the message handed to `mq_send`, if any.  `none` when `mutex` would
block. -/
def salir (me : Int) (segmento : SharedMemMiner) : Option (SharedMemMiner × Option Bloque) := do
  let envio := Bloque.cero
  let mutex ← sem_wait segmento.semaforos.mutex
  let s := { segmento with semaforos := { segmento.semaforos with mutex := mutex } }
  let s := salir_borrar me s
  let contador := contar_mineros s
  let s := { s with semaforos := { s.semaforos with mutex := sem_post s.semaforos.mutex } }
  if contador = 0 then
    let envio := { envio with solucion := COD_SALIDA }
    pure (s, some envio)
  else
    pure (s, none)

/-- `minero`, lines 608-612: is `getpid()` in `pid[]`? -/
def esta_registrado (me : Int) (segmento : SharedMemMiner) : Bool :=
  para_cada MAX_MINERS (fun i (registrado : Bool) =>
    if segmento.pid i = me then true else registrado) false

/-- The loop of `minero`, lines 618-627 and again lines 635-644: the first free slot
of `pid[]` is claimed in the three tables (`break` after it). -/
def ocupar_hueco (me wallet : Int) (segmento : SharedMemMiner) : SharedMemMiner :=
  (para_cada MAX_MINERS (fun i (r : SharedMemMiner × Bool) =>
    if r.2 then r
    else if r.1.pid i = -1 then
      ({ r.1 with
          pid := Function.update r.1.pid i me
          votos_mineros := Function.update r.1.votos_mineros i { pid := me, voto := -1 }
          monedas_mineros := Function.update r.1.monedas_mineros i
            { pid := me, monedas := wallet } }, true)
    else r) (segmento, false)).1

/-- `minero`, lines 607-632: the registration up to the point where the miner either
is registered or has to wait on `entry_gate`.  Returns the region and whether the
miner now waits on `entry_gate`.  `none` when `entry_mutex` would block. -/
def minero_registro (me wallet : Int) (segmento : SharedMemMiner) :
    Option (SharedMemMiner × Bool) :=
  if esta_registrado me segmento then some (segmento, false)
  else do
    let entry_mutex ← sem_wait segmento.entry_mutex
    let s := { segmento with entry_mutex := entry_mutex }
    if s.can_enter then
      let s := ocupar_hueco me wallet s
      pure ({ s with entry_mutex := sem_post s.entry_mutex }, false)
    else
      let s := { s with waiters_count := s.waiters_count + 1 }
      pure ({ s with entry_mutex := sem_post s.entry_mutex }, true)

/-- `minero`, lines 633-644: the miner passes `entry_gate` and claims a slot.  `none`
while `entry_gate` is closed. -/
def minero_despertar (me wallet : Int) (segmento : SharedMemMiner) :
    Option SharedMemMiner := do
  let entry_gate ← sem_wait segmento.entry_gate
  let s := { segmento with entry_gate := entry_gate }
  pure (ocupar_hueco me wallet s)

/-- `minero`, lines 665-667: the gate is closed just before mining. -/
def minero_cerrar_entrada (segmento : SharedMemMiner) : Option SharedMemMiner := do
  let entry_mutex ← sem_wait segmento.entry_mutex
  let s := { segmento with entry_mutex := entry_mutex }
  let s := { s with can_enter := false }
  pure { s with entry_mutex := sem_post s.entry_mutex }

/-- `minero`, lines 767-773: the gate is opened, `entry_gate` is posted
`waiters_count` times and `waiters_count` is reset. -/
def minero_abrir_entrada (segmento : SharedMemMiner) : Option SharedMemMiner := do
  let entry_mutex ← sem_wait segmento.entry_mutex
  let s := { segmento with entry_mutex := entry_mutex }
  let s := { s with can_enter := true }
  let s := { s with
    entry_gate := para_cada s.waiters_count.toNat (fun _ (g : Nat) => sem_post g) s.entry_gate }
  let s := { s with waiters_count := 0 }
  pure { s with entry_mutex := sem_post s.entry_mutex }

/-- `minero`, line 730: the wait on the election latch. -/
def tomar_ganador (segmento : SharedMemMiner) : Option SharedMemMiner := do
  let g ← sem_wait segmento.semaforos.ganador
  pure { segmento with semaforos := { segmento.semaforos with ganador := g } }

/-- `minero`, lines 733, 745 and 749: a post on the election latch. -/
def soltar_ganador (segmento : SharedMemMiner) : SharedMemMiner :=
  { segmento with
    semaforos := { segmento.semaforos with ganador := sem_post segmento.semaforos.ganador } }

/-! ## Registration and exit, statement by statement -/

/-- The five assignments of the registration loop (`minero`, lines 620-624 and
637-641) in the order of the code. -/
inductive Asignacion where
  | pid
  | voto_pid
  | voto
  | moneda_pid
  | monedas
  deriving DecidableEq

/-- One assignment of the registration loop on slot `i`, by the miner `me` whose local
wallet is `wallet`. -/
def registro_asignar (me wallet : Int) (i : Fin MAX_MINERS) (a : Asignacion)
    (s : SharedMemMiner) : SharedMemMiner :=
  match a with
  | Asignacion.pid => { s with pid := Function.update s.pid i me }
  | Asignacion.voto_pid =>
    { s with
      votos_mineros := Function.update s.votos_mineros i { (s.votos_mineros i) with pid := me } }
  | Asignacion.voto =>
    { s with
      votos_mineros := Function.update s.votos_mineros i { (s.votos_mineros i) with voto := -1 } }
  | Asignacion.moneda_pid =>
    { s with
      monedas_mineros := Function.update s.monedas_mineros i
        { (s.monedas_mineros i) with pid := me } }
  | Asignacion.monedas =>
    { s with
      monedas_mineros := Function.update s.monedas_mineros i
        { (s.monedas_mineros i) with monedas := wallet } }

/-- Where a miner stands inside the registration loop: about to test slot `i` (lines
618-619, 635-636), about to run an assignment on the slot it found free, or past the
loop. -/
inductive PuntoRegistro where
  | comparar (i : Nat)
  | asignar (i : Fin MAX_MINERS) (a : Asignacion)
  | fin
  deriving DecidableEq

/-- One access to the region by the registration loop of `minero` (lines 618-627 and
635-644): the test of a slot, or one assignment; `break` follows the last one. -/
def registro_paso (me wallet : Int) (p : PuntoRegistro) (s : SharedMemMiner) :
    PuntoRegistro × SharedMemMiner :=
  match p with
  | PuntoRegistro.comparar i =>
    if h : i < MAX_MINERS then
      if s.pid ⟨i, h⟩ = -1 then (PuntoRegistro.asignar ⟨i, h⟩ Asignacion.pid, s)
      else (PuntoRegistro.comparar (i + 1), s)
    else (PuntoRegistro.fin, s)
  | PuntoRegistro.asignar i Asignacion.pid =>
    (PuntoRegistro.asignar i Asignacion.voto_pid, registro_asignar me wallet i Asignacion.pid s)
  | PuntoRegistro.asignar i Asignacion.voto_pid =>
    (PuntoRegistro.asignar i Asignacion.voto, registro_asignar me wallet i Asignacion.voto_pid s)
  | PuntoRegistro.asignar i Asignacion.voto =>
    (PuntoRegistro.asignar i Asignacion.moneda_pid,
      registro_asignar me wallet i Asignacion.voto s)
  | PuntoRegistro.asignar i Asignacion.moneda_pid =>
    (PuntoRegistro.asignar i Asignacion.monedas,
      registro_asignar me wallet i Asignacion.moneda_pid s)
  | PuntoRegistro.asignar i Asignacion.monedas =>
    (PuntoRegistro.fin, registro_asignar me wallet i Asignacion.monedas s)
  | PuntoRegistro.fin => (PuntoRegistro.fin, s)

/-- The registration loop run on its own for `n` accesses. -/
def registro_correr (me wallet : Int) : Nat → PuntoRegistro → SharedMemMiner →
    PuntoRegistro × SharedMemMiner
  | 0, p, s => (p, s)
  | n + 1, p, s =>
    registro_correr me wallet n (registro_paso me wallet p s).1 (registro_paso me wallet p s).2

/-- `minero`, line 633 alone: the wait on `entry_gate`.  `none` while it is closed. -/
def minero_pasar_puerta (segmento : SharedMemMiner) : Option SharedMemMiner := do
  let entry_gate ← sem_wait segmento.entry_gate
  pure { segmento with entry_gate := entry_gate }

/-- The five assignments of the loop of `salir` (lines 80-84) in the order of the
code. -/
inductive Borrado where
  | pid
  | voto_pid
  | voto
  | monedas
  | moneda_pid
  deriving DecidableEq

/-- One assignment of the loop of `salir` on slot `i`. -/
def salir_asignar (i : Fin MAX_MINERS) (a : Borrado) (s : SharedMemMiner) : SharedMemMiner :=
  match a with
  | Borrado.pid => { s with pid := Function.update s.pid i (-1) }
  | Borrado.voto_pid =>
    { s with
      votos_mineros := Function.update s.votos_mineros i { (s.votos_mineros i) with pid := -1 } }
  | Borrado.voto =>
    { s with
      votos_mineros := Function.update s.votos_mineros i { (s.votos_mineros i) with voto := -1 } }
  | Borrado.monedas =>
    { s with
      monedas_mineros := Function.update s.monedas_mineros i
        { (s.monedas_mineros i) with monedas := -1 } }
  | Borrado.moneda_pid =>
    { s with
      monedas_mineros := Function.update s.monedas_mineros i
        { (s.monedas_mineros i) with pid := -1 } }

/-- Where a miner stands inside the first loop of `salir` (lines 78-87). -/
inductive PuntoSalir where
  | comparar (i : Nat)
  | asignar (i : Fin MAX_MINERS) (a : Borrado)
  | fin
  deriving DecidableEq

/-- One access to the region by the first loop of `salir` (lines 78-87), which runs
with `semaforos.mutex` held: the test of a slot, or one assignment; `break` follows
the last one. -/
def salir_paso (me : Int) (p : PuntoSalir) (s : SharedMemMiner) :
    PuntoSalir × SharedMemMiner :=
  match p with
  | PuntoSalir.comparar i =>
    if h : i < MAX_MINERS then
      if s.pid ⟨i, h⟩ = me then (PuntoSalir.asignar ⟨i, h⟩ Borrado.pid, s)
      else (PuntoSalir.comparar (i + 1), s)
    else (PuntoSalir.fin, s)
  | PuntoSalir.asignar i Borrado.pid =>
    (PuntoSalir.asignar i Borrado.voto_pid, salir_asignar i Borrado.pid s)
  | PuntoSalir.asignar i Borrado.voto_pid =>
    (PuntoSalir.asignar i Borrado.voto, salir_asignar i Borrado.voto_pid s)
  | PuntoSalir.asignar i Borrado.voto =>
    (PuntoSalir.asignar i Borrado.monedas, salir_asignar i Borrado.voto s)
  | PuntoSalir.asignar i Borrado.monedas =>
    (PuntoSalir.asignar i Borrado.moneda_pid, salir_asignar i Borrado.monedas s)
  | PuntoSalir.asignar i Borrado.moneda_pid =>
    (PuntoSalir.fin, salir_asignar i Borrado.moneda_pid s)
  | PuntoSalir.fin => (PuntoSalir.fin, s)

/-- The first loop of `salir` run on its own for `n` accesses. -/
def salir_correr (me : Int) : Nat → PuntoSalir → SharedMemMiner → PuntoSalir × SharedMemMiner
  | 0, p, s => (p, s)
  | n + 1, p, s => salir_correr me n (salir_paso me p s).1 (salir_paso me p s).2

/-- Two miners inside the registration loop at once, and a miner inside the first
loop of `salir`: the region and where each of the three stands.  The two registrations
hold no common lock when both have passed `entry_gate` (lines 633-644), and a
registration never holds `semaforos.mutex`, the lock of `salir`. -/
structure Carrera where
  segmento : SharedMemMiner
  primero : PuntoRegistro
  segundo : PuntoRegistro
  saliente : PuntoSalir

/-- Who makes the next access of a race. -/
inductive Corredor where
  | primero
  | segundo
  | saliente
  deriving DecidableEq

/-- One access of a race: the registration of `me1`, the registration of `me2` or the
exit of `me3` makes its next access to the region. -/
def carrera_paso (me1 wallet1 me2 wallet2 me3 : Int) (q : Corredor) (c : Carrera) : Carrera :=
  match q with
  | Corredor.primero =>
    { c with
      primero := (registro_paso me1 wallet1 c.primero c.segmento).1
      segmento := (registro_paso me1 wallet1 c.primero c.segmento).2 }
  | Corredor.segundo =>
    { c with
      segundo := (registro_paso me2 wallet2 c.segundo c.segmento).1
      segmento := (registro_paso me2 wallet2 c.segundo c.segmento).2 }
  | Corredor.saliente =>
    { c with
      saliente := (salir_paso me3 c.saliente c.segmento).1
      segmento := (salir_paso me3 c.saliente c.segmento).2 }

/-- The accesses of a race in the order of the list. -/
def carrera (me1 wallet1 me2 wallet2 me3 : Int) : List Corredor → Carrera → Carrera
  | [], c => c
  | q :: qs, c =>
    carrera me1 wallet1 me2 wallet2 me3 qs (carrera_paso me1 wallet1 me2 wallet2 me3 q c)

/-! ## The miner network as a transition system -/

/-- The states a miner region goes through and the blocks that the runs of `ganador`
have sent so far, oldest first.  The sections under `semaforos.mutex` exclude each
other and so do the sections under `entry_mutex`: each is one step.  The locals of the
miner that takes the step (`getpid()`, `solution`, `mineros`, `wallet`) and the
outcome of `mq_send` are arguments of the step.  The registration loop runs without
`semaforos.mutex`, and after `entry_gate` without any lock (lines 635-644), so its
assignments fall one by one at any moment: the step `escribir` is one such assignment,
on a slot the miner found free at an earlier moment (the slot may have changed since,
so the step is enabled in every state); the steps `registro` and `despertar` are the
registrations that nothing interrupts.  A section under `semaforos.mutex` is kept as
one step: an assignment of a registration that falls inside it is taken before or
after it.  Both block records are written only inside such sections. -/
inductive Alcanzable (pow_hash : Int → Int) : SharedMemMiner → List Bloque → Prop where
  | inicio (s0 : SharedMemMiner) : Alcanzable pow_hash (primer_minero s0) []
  | registro (s s2 : SharedMemMiner) (l : List Bloque) (me wallet : Int) (espera : Bool) :
      Alcanzable pow_hash s l → minero_registro me wallet s = some (s2, espera) →
      Alcanzable pow_hash s2 l
  | despertar (s s2 : SharedMemMiner) (l : List Bloque) (me wallet : Int) :
      Alcanzable pow_hash s l → minero_despertar me wallet s = some s2 →
      Alcanzable pow_hash s2 l
  | escribir (s : SharedMemMiner) (l : List Bloque) (me wallet : Int) (i : Fin MAX_MINERS)
      (a : Asignacion) :
      Alcanzable pow_hash s l → Alcanzable pow_hash (registro_asignar me wallet i a s) l
  | cerrar_entrada (s s2 : SharedMemMiner) (l : List Bloque) :
      Alcanzable pow_hash s l → minero_cerrar_entrada s = some s2 →
      Alcanzable pow_hash s2 l
  | abrir_entrada (s s2 : SharedMemMiner) (l : List Bloque) :
      Alcanzable pow_hash s l → minero_abrir_entrada s = some s2 →
      Alcanzable pow_hash s2 l
  | tomar (s s2 : SharedMemMiner) (l : List Bloque) :
      Alcanzable pow_hash s l → tomar_ganador s = some s2 →
      Alcanzable pow_hash s2 l
  | soltar (s : SharedMemMiner) (l : List Bloque) :
      Alcanzable pow_hash s l → Alcanzable pow_hash (soltar_ganador s) l
  | anunciar (s s2 : SharedMemMiner) (l : List Bloque) (me solucion : Int) :
      Alcanzable pow_hash s l → ganador_anunciar me solucion s = some s2 →
      Alcanzable pow_hash s2 l
  | contar (s : SharedMemMiner) (l : List Bloque) :
      Alcanzable pow_hash s l → Alcanzable pow_hash (ganador_contar s).1 l
  | cerrar (s : SharedMemMiner) (l : List Bloque) (me mineros wallet : Int) (c : Cierre) :
      Alcanzable pow_hash s l → ganador_cerrar pow_hash me mineros wallet true s = some c →
      Alcanzable pow_hash c.segmento (l ++ [c.envio])
  | cerrar_fallo (s : SharedMemMiner) (l : List Bloque) (me mineros wallet : Int)
      (c : Cierre) :
      Alcanzable pow_hash s l → ganador_cerrar pow_hash me mineros wallet false s = some c →
      Alcanzable pow_hash c.segmento l
  | votar (s s2 : SharedMemMiner) (l : List Bloque) (me : Int) :
      Alcanzable pow_hash s l → perdedor_votar pow_hash me s = some s2 →
      Alcanzable pow_hash s2 l
  | salida (s s2 : SharedMemMiner) (l : List Bloque) (me : Int) (m : Option Bloque) :
      Alcanzable pow_hash s l → salir me s = some (s2, m) →
      Alcanzable pow_hash s2 l

/-! ## The monitor pair as a transition system -/

/-- The block the Checker stores for a received block: every field of the message
except the verdict, which is recomputed.  Used to state what `comprobador_insertar`
writes. -/
def verificado (pow_hash : Int → Int) (recibido : Bloque) : Bloque :=
  { recibido with correcto := decide (pow_hash recibido.solucion = recibido.objetivo) }

/-- A step on the ring: an insertion by the Checker or a removal by the Printer. -/
inductive Accion where
  | insertar (recibido : Bloque)
  | extraer

/-- The ring together with the history of what was written into it and of what was
copied out of it. -/
structure Anillo where
  segmento : SharedMem
  insertados : List Bloque
  extraidos : List Bloque

/-- One step on the ring; `none` when the step is not enabled. -/
def paso_anillo (pow_hash : Int → Int) : Accion → Anillo → Option Anillo
  | Accion.insertar recibido, c => do
      let s ← comprobador_insertar pow_hash recibido c.segmento
      pure { segmento := s,
             insertados := c.insertados ++ [s.bloques c.segmento.in_],
             extraidos := c.extraidos }
  | Accion.extraer, c => do
      let r ← monitor_extraer c.segmento
      pure { segmento := r.1,
             insertados := c.insertados,
             extraidos := c.extraidos ++ [r.2] }

/-- A sequence of steps on the ring; `none` when one of them is not enabled. -/
def ejecutar_anillo (pow_hash : Int → Int) : List Accion → Anillo → Option Anillo
  | [], c => some c
  | a :: resto, c => (paso_anillo pow_hash a c).bind (ejecutar_anillo pow_hash resto)

/-- The messages that the insertions of a sequence of steps receive, in order. -/
def recibidos : List Accion → List Bloque
  | [] => []
  | Accion.insertar recibido :: resto => recibido :: recibidos resto
  | Accion.extraer :: resto => recibidos resto

/-- The ring right after `setup_comprobador`, with empty histories. -/
def anillo_inicial (segmento : SharedMem) : Anillo :=
  { segmento := setup_comprobador segmento, insertados := [], extraidos := [] }

/-- The blocks stored in the ring and not yet read: positions `out`, `out + 1`, ...,
as many as the value of `sem_fill`. -/
def pendientes (segmento : SharedMem) : List Bloque :=
  (List.range segmento.semaforos.sem_fill).map (fun k =>
    segmento.bloques ⟨(segmento.out.val + k) % MAX_BLOQUES, Nat.mod_lt _ (by decide)⟩)

/-- The Checker and the Printer with the message queue: the messages still in the
queue, the ring, whether each process has left its loop, the history of what the
Checker wrote into the ring, and what the Printer printed. -/
structure Monitores where
  cola : List Bloque
  segmento : SharedMem
  comprobador_fin : Bool
  monitor_fin : Bool
  insertados : List Bloque
  impresos : List Bloque

/-- One iteration of the `do ... while (solucion != COD_SALIDA)` loop of
`comprobador`, lines 64-95.  `none` when the Checker has left the loop, when
`mq_receive` blocks on an empty queue, or when the ring is full. -/
def comprobador_iteracion (pow_hash : Int → Int) (m : Monitores) : Option Monitores :=
  if m.comprobador_fin then none
  else
    match m.cola with
    | [] => none
    | recibido :: resto => do
        let s ← comprobador_insertar pow_hash recibido m.segmento
        pure { m with
          cola := resto
          segmento := s
          insertados := m.insertados ++ [s.bloques m.segmento.in_]
          comprobador_fin := decide (recibido.solucion = COD_SALIDA) }

/-- One iteration of the loop of `monitor`, lines 48-94: the copy, then `break` on
the terminator, else the stanza is printed.  `none` when the Printer has left the
loop or when the ring is empty. -/
def monitor_iteracion (m : Monitores) : Option Monitores :=
  if m.monitor_fin then none
  else do
    let r ← monitor_extraer m.segmento
    if r.2.solucion = COD_SALIDA then
      pure { m with segmento := r.1, monitor_fin := true }
    else
      pure { m with segmento := r.1, impresos := m.impresos ++ [r.2] }

/-- Which of the two processes takes the next step. -/
inductive Proceso where
  | comprobador
  | monitor

/-- One step of the pair. -/
def paso_monitores (pow_hash : Int → Int) : Proceso → Monitores → Option Monitores
  | Proceso.comprobador, m => comprobador_iteracion pow_hash m
  | Proceso.monitor, m => monitor_iteracion m

/-- A schedule of the pair; `none` when a scheduled step is not enabled. -/
def ejecutar_monitores (pow_hash : Int → Int) : List Proceso → Monitores → Option Monitores
  | [], m => some m
  | p :: resto, m => (paso_monitores pow_hash p m).bind (ejecutar_monitores pow_hash resto)

/-- The pair right after `setup_comprobador`, with the messages `cola` to deliver. -/
def monitores_inicial (segmento : SharedMem) (cola : List Bloque) : Monitores :=
  { cola := cola, segmento := setup_comprobador segmento,
    comprobador_fin := false, monitor_fin := false, insertados := [], impresos := [] }

/-! ## Invariants of the ring -/

/-- Invariant of the ring at the points where no insertion or removal is in
progress: `mutex` is free, `sem_empty + sem_fill = MAX_BLOQUES`, and `in` is
`sem_fill` positions ahead of `out`. -/
def AnilloInv (segmento : SharedMem) : Prop :=
  segmento.semaforos.mutex = 1 ∧
  segmento.semaforos.sem_empty + segmento.semaforos.sem_fill = MAX_BLOQUES ∧
  segmento.in_.val = (segmento.out.val + segmento.semaforos.sem_fill) % MAX_BLOQUES

/-- The messages of a queue that precede its first terminator. -/
def antes_del_terminador : List Bloque → List Bloque
  | [] => []
  | b :: resto => if b.solucion = COD_SALIDA then [] else b :: antes_del_terminador resto

/-- The messages of a queue up to and including its first terminator. -/
def hasta_el_terminador : List Bloque → List Bloque
  | [] => []
  | b :: resto => if b.solucion = COD_SALIDA then [b] else b :: hasta_el_terminador resto

/-- The messages of a queue that follow its first terminator. -/
def tras_el_terminador : List Bloque → List Bloque
  | [] => []
  | b :: resto => if b.solucion = COD_SALIDA then resto else tras_el_terminador resto

/-- Invariant of the monitor pair on the messages `l ++ post`, where `l` ends with the
first terminator: the Checker has inserted the first `i` messages, the Printer has
copied out the first `j` of them. -/
def MonitoresInv (pow_hash : Int → Int) (l post : List Bloque) (m : Monitores)
    (i j : Nat) : Prop :=
  j ≤ i ∧ i ≤ l.length ∧ AnilloInv m.segmento ∧
  m.cola = l.drop i ++ post ∧
  m.comprobador_fin = decide (i = l.length) ∧
  m.monitor_fin = decide (j = l.length) ∧
  m.insertados = (l.map (verificado pow_hash)).take i ∧
  pendientes m.segmento = ((l.map (verificado pow_hash)).take i).drop j ∧
  m.impresos = (l.dropLast.map (verificado pow_hash)).take j

/-- A shared segment as `ftruncate` delivers it: every byte zero. -/
def SharedMem.cero : SharedMem :=
  { bloques := fun _ => Bloque.cero,
    semaforos := { mutex := 0, sem_empty := 0, sem_fill := 0 },
    out := 0, in_ := 0 }

/-- Invariant of the ring with its histories: the ring invariant, and what was
inserted is what was extracted followed by what is still pending. -/
def HistoriaInv (c : Anillo) : Prop :=
  AnilloInv c.segmento ∧ c.insertados = c.extraidos ++ pendientes c.segmento

/-! ## The miner: arguments, search ranges and worker threads -/

/-- `main`, lines 787-807: the check of the arguments, on `argc` and on the two
values `atoi` returns.  `true` when `main` calls `exit(EXIT_FAILURE)` here, `false`
when it goes on to line 809. -/
def main_argumentos (argc n_seconds n_hilos : Int) : Bool :=
  if argc ≠ 3 then true
  else if n_seconds ≤ 0 then true
  else if n_hilos ≤ 0 ∧ n_hilos > MAX_THREADS then true
  else false

/-- `minero`, lines 674-682: the check of `N_THREADS` made in every round, after the
registration, the wait for the start signal and the closing of the gate.  `true`
when `minero` returns 1 here. -/
def minero_hilos (N_THREADS : Int) : Bool :=
  if N_THREADS < 1 then true
  else if N_THREADS > MAX_THREADS then true
  else false

/-- The fields `start`, `end` and `target` of `ThreadData` (`minero.h`, lines 86-93);
the pointers `solution` and `found` are the values a worker returns. -/
structure ThreadData where
  start : Int
  end_ : Int
  target : Int

/-- `minero`, lines 705-711: the data of worker `j`.  `POW_LIMIT` comes from `pow.h`
and is a parameter; `/` on C integers truncates. -/
def thread_data (POW_LIMIT N_THREADS target j : Int) : ThreadData :=
  let range := Int.tdiv POW_LIMIT N_THREADS
  { start := j * range
    end_ := if j = N_THREADS - 1 then POW_LIMIT else (j + 1) * range
    target := target }

/-- The values of the signal flags a miner reads between the end of its search and the
end of `minero`: `got_signal_SIGINT || got_signal_SIGALARM` at lines 722 and 752 and
inside the two calls of `perdedor` (line 512), `got_signal_SIGUSR2` at lines 731 and
758.  The handlers write the flags at any time, so every read is an input. -/
structure Lecturas where
  apagado_722 : Bool
  usr2_731 : Bool
  apagado_734 : Bool
  apagado_752 : Bool
  usr2_758 : Bool
  apagado_760 : Bool

/-- What a run of `minero` leaves: the region, the local `wallet`, the block handed
to `mq_send` (if `ganador` ran) and the value `minero` returns. -/
structure Final where
  segmento : SharedMemMiner
  wallet : Int
  envio : Option Bloque
  retorno : Int

/-- `minero`, lines 752-778: the second call of `perdedor` and the opening of the
gate.  `none` when a semaphore would block. -/
def minero_cola (pow_hash : Int → Int) (me : Int) (l : Lecturas) (wallet : Int)
    (envio : Option Bloque) (segmento : SharedMemMiner) : Option Final :=
  if l.apagado_752 then
    some { segmento := segmento, wallet := wallet, envio := envio, retorno := 0 }
  else if l.usr2_758 then
    match perdedor pow_hash me l.apagado_760 false segmento with
    | none => none
    | some (s, false) => some { segmento := s, wallet := wallet, envio := envio, retorno := 1 }
    | some (s, true) =>
      (minero_abrir_entrada s).map
        (fun s => { segmento := s, wallet := wallet, envio := envio, retorno := 0 })
  else
    (minero_abrir_entrada segmento).map
      (fun s => { segmento := s, wallet := wallet, envio := envio, retorno := 0 })

/-- `minero`, lines 722-778, run by one miner without any other process stepping in:
from the end of the search (`found`, `solution`) to the return.  `none` when a
semaphore would block. -/
def minero_final (pow_hash : Int → Int) (me found solution wallet : Int) (mq_send_ok : Bool)
    (l : Lecturas) (segmento : SharedMemMiner) : Option Final :=
  if l.apagado_722 then
    some { segmento := segmento, wallet := wallet, envio := none, retorno := 0 }
  else if found ≠ 0 then
    match tomar_ganador segmento with
    | none => none
    | some s =>
      if l.usr2_731 then
        match perdedor pow_hash me l.apagado_734 false (soltar_ganador s) with
        | none => none
        | some (s, false) =>
          some { segmento := s, wallet := wallet, envio := none, retorno := 1 }
        | some (s, true) =>
          minero_cola pow_hash me l wallet none (soltar_ganador s)
      else
        match ganador pow_hash me solution wallet mq_send_ok s with
        | none => none
        | some c =>
          if c.retorno then
            minero_cola pow_hash me l c.wallet (some c.envio) (soltar_ganador c.segmento)
          else
            some { segmento := soltar_ganador c.segmento, wallet := c.wallet,
                   envio := some c.envio, retorno := 1 }
  else
    minero_cola pow_hash me l wallet none segmento

/-! ## The wait for the votes (`ganador`, lines 406-409) and the steps of the voters -/

/-- The loop `while (bloque_actual.total_votos < mineros && espera_maxima < 500)` of
`ganador`, lines 406-409, with `n` tests of the condition left.  `leido k` is the
value of `bloque_actual.total_votos` read when `espera_maxima` is `k`: the region is
read without `mutex`, so each read is an input.  Returns `espera_maxima` at the exit
of the loop. -/
def ganador_esperar (mineros : Int) (leido : Int → Int) : Nat → Int → Int
  | 0, espera_maxima => espera_maxima
  | n + 1, espera_maxima =>
    if leido espera_maxima < mineros ∧ espera_maxima < 500 then
      ganador_esperar mineros leido n (espera_maxima + 1)
    else espera_maxima

/-- `ganador`, lines 376 and 406-409: `espera_maxima` starts at 0 and the body runs at
most 500 times, so the condition is tested at most 501 times. -/
def ganador_espera (mineros : Int) (leido : Int → Int) : Int :=
  ganador_esperar mineros leido 501 0

/-- The critical sections of `perdedor` (lines 519-539) of the voters `votantes`, one
after the other.  `none` when `mutex` would block. -/
def votaciones (pow_hash : Int → Int) : List Int → SharedMemMiner → Option SharedMemMiner
  | [], s => some s
  | me :: votantes, s => (perdedor_votar pow_hash me s).bind (votaciones pow_hash votantes)

/-! ## The miners as processes -/

/-- The two signals miners send each other. -/
inductive Senal where
  | SIGUSR1
  | SIGUSR2
  deriving DecidableEq

/-- `enviar_señal`, `minero.c` lines 187-206: the pids `kill` is called on, in slot
order: every slot of `pid[]` that is neither -1 nor `no_enviar`. -/
def enviar_senal (segmento : SharedMemMiner) (no_enviar : Int) : List Int :=
  para_cada MAX_MINERS (fun i (destinos : List Int) =>
    if segmento.pid i ≠ -1 ∧ segmento.pid i ≠ no_enviar then destinos ++ [segmento.pid i]
    else destinos) []

/-- Where a miner process stands: the blocking call or the wait it is about to make. -/
inductive Punto where
  /-- `primer_minero`, line 313: the initialiser is about to send the start signal. -/
  | senal_inicio
  /-- `minero`, line 607: entry of `minero`. -/
  | registro
  /-- `minero`, line 633: waiting on `entry_gate`. -/
  | puerta
  /-- `minero`, line 657: waiting for SIGUSR1. -/
  | espera_inicio
  /-- `minero`, line 665: about to close the gate and start the workers. -/
  | cerrar_entrada
  /-- `minero`, lines 715-720: the workers search. -/
  | minando
  /-- `minero`, line 730: about to wait on the election latch. -/
  | eleccion
  /-- `ganador`, line 381: about to enter the first critical section. -/
  | ganador_1
  /-- `ganador`, line 412: about to enter the second critical section. -/
  | ganador_2
  /-- `perdedor` called at line 734. -/
  | perdedor_a
  /-- `perdedor` called at line 760. -/
  | perdedor_b
  /-- `minero`, line 767: about to open the gate. -/
  | abrir_entrada
  deriving DecidableEq

/-- A miner process: its pid, where it stands, its two round flags and the locals of
`minero` and `ganador`.  The shutdown flags stay at 0 in this model, `N_THREADS` is
valid and `mq_send` succeeds. -/
structure Minero where
  pid : Int
  punto : Punto
  got_signal_SIGUSR1 : Bool
  got_signal_SIGUSR2 : Bool
  target : Int
  found : Int
  solution : Int
  wallet : Int
  mineros : Int

/-- What a step of a miner leaves: the miner, the region, the block handed to
`mq_send` and the signal sent to the other registered miners. -/
structure Efecto where
  minero : Minero
  segmento : SharedMemMiner
  envio : Option Bloque
  senal : Option Senal

/-- `minero`, lines 752-758, with no shutdown flag: where the miner goes after the
election. -/
def tras_eleccion (got_signal_SIGUSR2 : Bool) : Punto :=
  if got_signal_SIGUSR2 then Punto.perdedor_b else Punto.abrir_entrada

/-- One step of a miner process: the code from the point where it stands up to its
next blocking call or wait.  `none` when the step is not enabled (a semaphore at 0, a
signal that has not arrived, a search that has not ended).  `hallazgo` is the
candidate a worker has found when the search ends with a solution. -/
def paso_minero (pow_hash : Int → Int) (hallazgo : Option Int) (m : Minero)
    (s : SharedMemMiner) : Option Efecto :=
  match m.punto with
  | Punto.senal_inicio =>
    -- primer_minero, lines 313-314
    some { minero := { m with got_signal_SIGUSR1 := true, punto := Punto.registro },
           segmento := s, envio := none, senal := some Senal.SIGUSR1 }
  | Punto.registro =>
    -- minero, lines 607-632
    (minero_registro m.pid m.wallet s).map (fun r =>
      { minero := { m with punto := if r.2 then Punto.puerta else Punto.espera_inicio },
        segmento := r.1, envio := none, senal := none })
  | Punto.puerta =>
    -- minero, lines 633-645
    (minero_despertar m.pid m.wallet s).map (fun s2 =>
      { minero := { m with punto := Punto.espera_inicio },
        segmento := s2, envio := none, senal := none })
  | Punto.espera_inicio =>
    -- minero, lines 657-662
    if m.got_signal_SIGUSR1 then
      some { minero := { m with got_signal_SIGUSR1 := false, punto := Punto.cerrar_entrada },
             segmento := s, envio := none, senal := none }
    else none
  | Punto.cerrar_entrada =>
    -- minero, lines 665-716
    (minero_cerrar_entrada s).map (fun s2 =>
      { minero := { m with found := 0, solution := -1, target := s2.bloque_actual.objetivo,
                           punto := Punto.minando },
        segmento := s2, envio := none, senal := none })
  | Punto.minando =>
    -- miner_thread and minero, lines 718-729
    match hallazgo with
    | some i =>
      if pow_hash i = m.target then
        some { minero := { m with found := 1, solution := i, punto := Punto.eleccion },
               segmento := s, envio := none, senal := none }
      else none
    | none =>
      if m.got_signal_SIGUSR2 then
        some { minero := { m with found := -1, solution := -1, punto := Punto.eleccion },
               segmento := s, envio := none, senal := none }
      else none
  | Punto.eleccion =>
    -- minero, lines 729-733
    if m.found ≠ 0 then
      (tomar_ganador s).map (fun s2 =>
        if m.got_signal_SIGUSR2 then
          { minero := { m with punto := Punto.perdedor_a },
            segmento := soltar_ganador s2, envio := none, senal := none }
        else
          { minero := { m with punto := Punto.ganador_1 },
            segmento := s2, envio := none, senal := none })
    else
      some { minero := { m with punto := tras_eleccion m.got_signal_SIGUSR2 },
             segmento := s, envio := none, senal := none }
  | Punto.ganador_1 =>
    -- ganador, lines 381-404
    (ganador_anunciar m.pid m.solution s).map (fun s2 =>
      { minero := { m with mineros := (ganador_contar s2).2, punto := Punto.ganador_2 },
        segmento := (ganador_contar s2).1, envio := none, senal := some Senal.SIGUSR2 })
  | Punto.ganador_2 =>
    -- ganador, lines 406-483, and minero, lines 749-758
    (ganador_cerrar pow_hash m.pid m.mineros m.wallet true s).map (fun c =>
      { minero := { m with wallet := c.wallet, got_signal_SIGUSR1 := true,
                           punto := tras_eleccion m.got_signal_SIGUSR2 },
        segmento := soltar_ganador c.segmento, envio := some c.envio,
        senal := some Senal.SIGUSR1 })
  | Punto.perdedor_a =>
    -- perdedor, lines 507-541, and minero, lines 749-758
    if m.got_signal_SIGUSR2 then
      (perdedor_votar pow_hash m.pid s).map (fun s2 =>
        { minero := { m with got_signal_SIGUSR2 := false, punto := tras_eleccion false },
          segmento := soltar_ganador s2, envio := none, senal := none })
    else none
  | Punto.perdedor_b =>
    -- perdedor, lines 507-541
    if m.got_signal_SIGUSR2 then
      (perdedor_votar pow_hash m.pid s).map (fun s2 =>
        { minero := { m with got_signal_SIGUSR2 := false, punto := Punto.abrir_entrada },
          segmento := s2, envio := none, senal := none })
    else none
  | Punto.abrir_entrada =>
    -- minero, lines 767-778, and main, line 856
    (minero_abrir_entrada s).map (fun s2 =>
      { minero := { m with punto := Punto.registro },
        segmento := s2, envio := none, senal := none })

/-- The handler of a signal sets its flag in every process `kill` was called on. -/
def entregar (senal : Option Senal) (destinos : List Int) (m : Minero) : Minero :=
  match senal with
  | none => m
  | some Senal.SIGUSR1 =>
    if m.pid ∈ destinos then { m with got_signal_SIGUSR1 := true } else m
  | some Senal.SIGUSR2 =>
    if m.pid ∈ destinos then { m with got_signal_SIGUSR2 := true } else m

/-- The miner network: the region, the processes and the blocks handed to `mq_send`
so far, each with the pid of its sender. -/
structure Red where
  segmento : SharedMemMiner
  mineros : List Minero
  enviados : List (Int × Bloque)

/-- A turn of the scheduler: the process that steps and, when its search ends with a
solution, the candidate found. -/
structure Turno where
  quien : Nat
  hallazgo : Option Int

/-- One step of the network: the process `quien` takes its step; the signal it sends
reaches the other processes of the roster. -/
def paso_red (pow_hash : Int → Int) (t : Turno) (r : Red) : Option Red :=
  match r.mineros.get? t.quien with
  | none => none
  | some m =>
    match paso_minero pow_hash t.hallazgo m r.segmento with
    | none => none
    | some e =>
      some { segmento := e.segmento
             mineros := (r.mineros.set t.quien e.minero).map
               (entregar e.senal (enviar_senal e.segmento m.pid))
             enviados := match e.envio with
               | none => r.enviados
               | some b => r.enviados ++ [(m.pid, b)] }

/-- A schedule run from a state of the network; `none` when some turn is not
enabled. -/
def ejecutar_red (pow_hash : Int → Int) : List Turno → Red → Option Red
  | [], r => some r
  | t :: turnos, r => (paso_red pow_hash t r).bind (ejecutar_red pow_hash turnos)

/-- A process that has not taken any step. -/
def minero_nuevo (pid : Int) (punto : Punto) : Minero :=
  { pid := pid, punto := punto, got_signal_SIGUSR1 := false, got_signal_SIGUSR2 := false,
    target := 0, found := 0, solution := -1, wallet := 0, mineros := 0 }

/-- The network when `primer_minero` has initialised the region (line 306): the
initialiser is about to send the start signal, the other processes are about to
enter `minero`. -/
def red_inicial (segmento : SharedMemMiner) (primero : Int) (otros : List Int) : Red :=
  { segmento := primer_minero segmento
    mineros := minero_nuevo primero Punto.senal_inicio ::
      otros.map (fun pid => minero_nuevo pid Punto.registro)
    enviados := [] }

/-- The turn of process `quien` outside the end of a search. -/
def turno (quien : Nat) : Turno := { quien := quien, hallazgo := none }

/-- The turn in which the workers of process `quien` find candidate `i`. -/
def halla (quien : Nat) (i : Int) : Turno := { quien := quien, hallazgo := some i }

/-! ## Notions used to state the properties of the miner network -/

/-- The number of vote slots that hold 1. -/
def aprobaciones (s : SharedMemMiner) : Nat :=
  (Finset.univ.filter (fun i => (s.votos_mineros i).voto = 1)).card

/-- The number of vote slots whose `pid` is not -1 and whose vote is not -1. -/
def votos_emitidos (s : SharedMemMiner) : Nat :=
  (Finset.univ.filter (fun i =>
    (s.votos_mineros i).pid ≠ -1 ∧ (s.votos_mineros i).voto ≠ -1)).card

/-- The number of slots of `pid[]` that are not -1. -/
def registrados (s : SharedMemMiner) : Nat :=
  (Finset.univ.filter (fun i => s.pid i ≠ -1)).card

/-- The miner `me` is registered in slot `i` and in no other slot: slot `i` carries
its pid in the three tables and no other slot does. -/
def RegistradoEn (s : SharedMemMiner) (me : Int) (i : Fin MAX_MINERS) : Prop :=
  s.pid i = me ∧ (s.votos_mineros i).pid = me ∧ (s.monedas_mineros i).pid = me ∧
  ∀ j, j ≠ i → s.pid j ≠ me ∧ (s.votos_mineros j).pid ≠ me ∧ (s.monedas_mineros j).pid ≠ me

/-- Invariant 2 of the roster: every slot carries in `votos_mineros` and in
`monedas_mineros` the pid it carries in `pid[]`. -/
def RosterConsistente (s : SharedMemMiner) : Prop :=
  ∀ i, (s.votos_mineros i).pid = s.pid i ∧ (s.monedas_mineros i).pid = s.pid i

/-- Two consecutive blocks of the chain: the target of the second is the solution of
the first and its id is the next one. -/
def Enlace (a b : Bloque) : Prop :=
  b.objetivo = a.solucion ∧ b.id = a.id + 1

/-- The message agrees with the block record on id, target, solution, winner, cast
votes and approvals. -/
def MismoContenido (registro mensaje : Bloque) : Prop :=
  registro.id = mensaje.id ∧ registro.objetivo = mensaje.objetivo ∧
  registro.solucion = mensaje.solucion ∧ registro.ganador = mensaje.ganador ∧
  registro.total_votos = mensaje.total_votos ∧
  registro.votos_positivos = mensaje.votos_positivos

/-- Invariant of the chain: the blocks sent so far are linked and start at id 1; before
the first block is sent the current block has id 1; afterwards the previous block
agrees with the last block sent and the current block continues it. -/
def Encadenado (s : SharedMemMiner) (l : List Bloque) : Prop :=
  List.Chain' Enlace l ∧
  (∀ b, l.head? = some b → b.id = 1) ∧
  (l = [] → s.bloque_actual.id = 1) ∧
  (∀ b, l.getLast? = some b →
    MismoContenido s.bloque_anterior b ∧
    s.bloque_actual.id = s.bloque_anterior.id + 1 ∧
    s.bloque_actual.objetivo = s.bloque_anterior.solucion)

/-- A step that leaves the id and the target of the current block and the whole
previous block as they were. -/
def MismaCadena (s s2 : SharedMemMiner) : Prop :=
  s2.bloque_actual.id = s.bloque_actual.id ∧
  s2.bloque_actual.objetivo = s.bloque_actual.objetivo ∧
  s2.bloque_anterior = s.bloque_anterior

/-- The three tables name the same processes in `s2` as in `s`: what a step satisfies
when it neither claims nor frees a slot. -/
def MismoRoster (s s2 : SharedMemMiner) : Prop :=
  s2.pid = s.pid ∧
  (∀ i, (s2.votos_mineros i).pid = (s.votos_mineros i).pid) ∧
  (∀ i, (s2.monedas_mineros i).pid = (s.monedas_mineros i).pid)

/-- The admission gate is in `s2` as it is in `s`: what a step satisfies when it does
not touch `entry_mutex`, `entry_gate`, `waiters_count` and `can_enter`. -/
def MismaPuerta (s s2 : SharedMemMiner) : Prop :=
  s2.entry_mutex = s.entry_mutex ∧ s2.entry_gate = s.entry_gate ∧
  s2.waiters_count = s.waiters_count ∧ s2.can_enter = s.can_enter

/-- A stand-in for `pow_hash` in worked instances: an affine map modulo a prime. -/
def pow_ejemplo (x : Int) : Int := (x * 3 + 1) % 7

/-- A message with the given target and solution, otherwise zero. -/
def bloque_ejemplo (id objetivo solucion : Int) (correcto : Bool) : Bloque :=
  { Bloque.cero with id := id, objetivo := objetivo, solucion := solucion, correcto := correcto }

/-- Nine steps on the ring: two insertions, a removal, five insertions that fill the
ring (the last of them reuses slot 0), a removal. -/
def acciones_ejemplo : List Accion :=
  [Accion.insertar (bloque_ejemplo 1 0 2 false), Accion.insertar (bloque_ejemplo 2 2 5 true),
   Accion.extraer,
   Accion.insertar (bloque_ejemplo 3 5 3 false), Accion.insertar (bloque_ejemplo 4 3 0 false),
   Accion.insertar (bloque_ejemplo 5 0 2 false), Accion.insertar (bloque_ejemplo 6 2 4 false),
   Accion.insertar (bloque_ejemplo 7 4 1 false), Accion.extraer]

/-- A queue with two round blocks, the terminator and a block after it. -/
def cola_ejemplo : List Bloque :=
  [bloque_ejemplo 1 0 2 false, bloque_ejemplo 2 2 5 false,
   { Bloque.cero with solucion := COD_SALIDA }, bloque_ejemplo 3 5 3 false]

/-- A schedule of six steps for `cola_ejemplo`. -/
def turnos_ejemplo : List Proceso :=
  [Proceso.comprobador, Proceso.comprobador, Proceso.monitor, Proceso.comprobador,
   Proceso.monitor, Proceso.monitor]

/-- A region as `ftruncate` delivers it: every byte zero. -/
def SharedMemMiner.cero : SharedMemMiner :=
  { pid := fun _ => 0,
    votos_mineros := fun _ => { pid := 0, voto := 0 },
    monedas_mineros := fun _ => { pid := 0, monedas := 0 },
    bloque_anterior := Bloque.cero, bloque_actual := Bloque.cero,
    semaforos := { mutex := 0, mutex_ronda := 0, ganador := 0 },
    entry_mutex := 0, entry_gate := 0, waiters_count := 0, can_enter := false }

/-- A region with the given roster: slot `k` is held by the `k`-th peer of the list
with the `k`-th vote and the `k`-th number of coins, the other slots are free; the
semaphores and the gate are as `primer_minero` leaves them. -/
def region_ejemplo (peers votos monedas : List Int) : SharedMemMiner :=
  { primer_minero SharedMemMiner.cero with
    pid := fun i => peers.getD i.val (-1)
    votos_mineros := fun i => { pid := peers.getD i.val (-1), voto := votos.getD i.val (-1) }
    monedas_mineros := fun i =>
      { pid := peers.getD i.val (-1), monedas := monedas.getD i.val (-1) } }

/-- Reads of a round that no signal disturbs. -/
def lecturas_tranquilas : Lecturas :=
  { apagado_722 := false, usr2_731 := false, apagado_734 := false, apagado_752 := false,
    usr2_758 := false, apagado_760 := false }

/-- Reads of a miner that SIGUSR2 reaches before it takes the election latch. -/
def lecturas_votante : Lecturas :=
  { apagado_722 := false, usr2_731 := true, apagado_734 := false, apagado_752 := false,
    usr2_758 := false, apagado_760 := false }

/-- Two miners, both registered before the start signal.  Round 1: both find
candidate 2, process 0 takes the latch and announces, process 1 takes the latch after
the post of line 404, finds SIGUSR2 set and votes; process 0 tallies and rotates.
Round 2: both start, both find candidate 5, and both pass line 730-731 before either
has announced. -/
def turnos_dos_ganadores : List Turno :=
  [turno 1, turno 0, turno 0, turno 0, turno 0, turno 1, turno 1, halla 0 2, halla 1 2,
   turno 0, turno 0, turno 1, turno 1, turno 1, turno 1, turno 0, turno 0, turno 0,
   turno 0, turno 0, turno 1, turno 1, halla 0 5, halla 1 5, turno 0, turno 1]

/-- The rest of round 2 of `turnos_dos_ganadores`: the two processes run the first
critical section of `ganador`, then the second. -/
def turnos_dos_cierres : List Turno :=
  [turno 0, turno 1, turno 0, turno 1]

/-- Process 1 registers while process 0 sleeps before closing the gate of round 1, so
it misses the start signal of round 1 and receives SIGUSR2 while it waits for
SIGUSR1.  Process 0 wins round 1 alone and starts round 2; process 1 starts round 2
with `got_signal_SIGUSR2` still set, its workers stop at once, it votes and runs the
end of `minero` while process 0 is searching. -/
def turnos_puerta_abierta : List Turno :=
  [turno 0, turno 0, turno 1, turno 0, turno 0, halla 0 2, turno 0, turno 0, turno 0,
   turno 0, turno 0, turno 0, turno 0, turno 1, turno 1, turno 1, turno 1, turno 1,
   turno 1]

/-- One miner registered and searching with the gate closed, then two arrivals: the
initialiser 101 registers, starts round 1 and closes the gate; 103 and 104 arrive and
wait on `entry_gate`; 101 finds candidate 2, wins the round alone and opens the gate
with two posts. -/
def turnos_dos_esperas : List Turno :=
  [turno 0, turno 0, turno 0, turno 0, turno 1, turno 2, halla 0 2, turno 0, turno 0,
   turno 0, turno 0]

/-- Both arrivals find slot 1 free before either has written it; then their
assignments alternate. -/
def carrera_dos_registros : List Corredor :=
  [Corredor.primero, Corredor.primero, Corredor.segundo, Corredor.segundo,
   Corredor.primero, Corredor.segundo, Corredor.segundo, Corredor.primero,
   Corredor.primero, Corredor.primero, Corredor.primero, Corredor.segundo,
   Corredor.segundo, Corredor.segundo]

/-- The exit of the holder of slot 0 frees `pid[0]`, a registration claims the slot
with its five assignments, and the exit goes on with its four other assignments. -/
def carrera_salida_registro : List Corredor :=
  [Corredor.saliente, Corredor.saliente, Corredor.primero, Corredor.primero,
   Corredor.primero, Corredor.primero, Corredor.primero, Corredor.primero,
   Corredor.saliente, Corredor.saliente, Corredor.saliente, Corredor.saliente]

/-- Four processes: 101 (the initialiser), 102 and 103 play round 1, which 101 wins
and which leaves the election latch at 4; in round 2 both 101 and 102 find candidate 5
and pass lines 730-731 before either has announced; 101 announces and counts three
peers; 103 votes and opens the gate (lines 767-773); 104 registers; 102 announces and
sets every vote to 0.  The next step of 101 is its tally. -/
def turnos_cuatro_votos : List Turno :=
  [turno 1, turno 2, turno 0, turno 0, turno 0, turno 0, turno 1, turno 1, turno 2,
   turno 2, halla 0 2, turno 0, turno 0, turno 1, turno 1, turno 1, turno 1, turno 2,
   turno 2, turno 2, turno 2, turno 0, turno 0,
   turno 0, turno 0, turno 0, turno 1, turno 1, turno 1, turno 2, turno 2, turno 2,
   halla 0 5, halla 1 5, turno 0, turno 1, turno 0, turno 2, turno 2, turno 2, turno 2,
   turno 3, turno 1]

theorem forLoop_inv {σ : Type} (N : Nat) (body : Fin N → σ → σ) (P : Nat → σ → Prop)
    (s : σ) (h0 : P 0 s)
    (hs : ∀ (n : Nat) (h : n < N) (t : σ), P n t → P (n + 1) (body ⟨n, h⟩ t)) :
    ∀ (n : Nat) (h : n ≤ N), P n (forLoop N body n h s) := by
  intro n
  induction n with
  | zero => intro _; exact h0
  | succ k ih =>
    intro h
    exact hs k h _ (ih (Nat.le_of_succ_le h))

theorem para_cada_inv {σ : Type} (N : Nat) (body : Fin N → σ → σ) (P : Nat → σ → Prop)
    (s : σ) (h0 : P 0 s)
    (hs : ∀ (n : Nat) (h : n < N) (t : σ), P n t → P (n + 1) (body ⟨n, h⟩ t)) :
    P N (para_cada N body s) :=
  forLoop_inv N body P s h0 hs N (Nat.le_refl N)

/-- A loop whose body leaves a projection of the state alone leaves it alone. -/
theorem para_cada_conserva {σ α : Type} (N : Nat) (body : Fin N → σ → σ) (f : σ → α)
    (s : σ) (hb : ∀ i t, f (body i t) = f t) : f (para_cada N body s) = f s :=
  para_cada_inv N body (fun _ t => f t = f s) s rfl
    (fun n h t ht => (hb ⟨n, h⟩ t).trans ht)

/-- Updating position `n` of an array that already agrees with `g` below `n`. -/
theorem update_hasta {α : Type} {N : Nat} (f g : Fin N → α) (n : Nat) (h : n < N) (v : α)
    (hv : v = g ⟨n, h⟩) :
    Function.update (fun i : Fin N => if i.val < n then g i else f i) ⟨n, h⟩ v
      = fun i : Fin N => if i.val < n + 1 then g i else f i := by
  funext i
  by_cases hi : i = ⟨n, h⟩
  · subst hi
    simp [hv]
  · have hne : i.val ≠ n := fun hc => hi (Fin.ext hc)
    rw [Function.update_noteq hi]
    by_cases hlt : i.val < n
    · simp [hlt, Nat.lt_succ_of_lt hlt]
    · have : ¬ i.val < n + 1 := by omega
      simp [hlt, this]

theorem hasta_todo {α : Type} {N : Nat} (f g : Fin N → α) :
    (fun i : Fin N => if i.val < N then g i else f i) = g := by
  funext i
  simp [i.isLt]

theorem hasta_nada {α : Type} {N : Nat} (f g : Fin N → α) :
    (fun i : Fin N => if i.val < 0 then g i else f i) = f := by
  funext i
  simp

/-- The copy loop of the Checker and of the Printer copies the whole coin table. -/
theorem copia_monedas (origen : Fin MAX_MINERS → Monedas) (b : Bloque) :
    para_cada MAX_MINERS (fun j (b : Bloque) =>
      { b with
        monedas_mineros := Function.update b.monedas_mineros j
          { pid := (origen j).pid, monedas := (origen j).monedas } }) b
      = { b with monedas_mineros := origen } := by
  have key := para_cada_inv MAX_MINERS (fun j (b : Bloque) =>
      { b with
        monedas_mineros := Function.update b.monedas_mineros j
          { pid := (origen j).pid, monedas := (origen j).monedas } })
    (fun n t => t = { b with
      monedas_mineros := fun i => if i.val < n then origen i else b.monedas_mineros i }) b
    (by simp) (by
      intro n h t ht
      subst ht
      simp only
      rw [update_hasta b.monedas_mineros origen n h _ rfl])
  rw [key, hasta_todo]

/-! ## What one step of the Checker and of the Printer does -/

theorem sem_wait_pos (c : Nat) (h : c ≠ 0) : sem_wait c = some (c - 1) := by
  simp [sem_wait, h]

theorem sem_wait_cero : sem_wait 0 = none := by
  simp [sem_wait]

/-- Closed form of an enabled insertion. -/
theorem comprobador_insertar_some (pow_hash : Int → Int) (recibido : Bloque)
    (segmento : SharedMem) (he : segmento.semaforos.sem_empty ≠ 0)
    (hm : segmento.semaforos.mutex ≠ 0) :
    comprobador_insertar pow_hash recibido segmento
      = some { segmento with
          bloques := Function.update segmento.bloques segmento.in_
            (verificado pow_hash recibido)
          in_ := siguiente segmento.in_
          semaforos := { mutex := segmento.semaforos.mutex - 1 + 1,
                         sem_empty := segmento.semaforos.sem_empty - 1,
                         sem_fill := segmento.semaforos.sem_fill + 1 } } := by
  unfold comprobador_insertar
  simp only [sem_wait_pos _ he, sem_wait_pos _ hm, copia_monedas, sem_post, verificado]
  cases recibido
  simp

/-- An insertion is enabled exactly when neither semaphore would block. -/
theorem comprobador_insertar_none (pow_hash : Int → Int) (recibido : Bloque)
    (segmento : SharedMem)
    (h : segmento.semaforos.sem_empty = 0 ∨ segmento.semaforos.mutex = 0) :
    comprobador_insertar pow_hash recibido segmento = none := by
  unfold comprobador_insertar
  rcases h with h | h
  · simp [h, sem_wait]
  · simp [h, sem_wait]

/-- Closed form of an enabled removal. -/
theorem monitor_extraer_some (segmento : SharedMem)
    (hf : segmento.semaforos.sem_fill ≠ 0) (hm : segmento.semaforos.mutex ≠ 0) :
    monitor_extraer segmento
      = some ({ segmento with
          out := siguiente segmento.out
          semaforos := { mutex := segmento.semaforos.mutex - 1 + 1,
                         sem_fill := segmento.semaforos.sem_fill - 1,
                         sem_empty := segmento.semaforos.sem_empty + 1 } },
          segmento.bloques segmento.out) := by
  unfold monitor_extraer
  simp only [sem_wait_pos _ hf, sem_wait_pos _ hm, copia_monedas, sem_post, Bloque.cero]
  cases hb : segmento.bloques segmento.out
  simp

theorem monitor_extraer_none (segmento : SharedMem)
    (h : segmento.semaforos.sem_fill = 0 ∨ segmento.semaforos.mutex = 0) :
    monitor_extraer segmento = none := by
  unfold monitor_extraer
  rcases h with h | h
  · simp [h, sem_wait]
  · simp [h, sem_wait]

/-! ## The ring invariant -/

theorem anilloInv_setup (segmento : SharedMem) : AnilloInv (setup_comprobador segmento) := by
  simp [AnilloInv, setup_comprobador]

theorem pendientes_setup (segmento : SharedMem) :
    pendientes (setup_comprobador segmento) = [] := by
  simp [pendientes, setup_comprobador]

/-- An insertion from an invariant state: it is enabled exactly when `sem_empty` is
positive, keeps the invariant and appends the verified block to the pending ones. -/
theorem insertar_inv (pow_hash : Int → Int) (recibido : Bloque) (segmento : SharedMem)
    (hinv : AnilloInv segmento) (he : segmento.semaforos.sem_empty ≠ 0) :
    ∃ s, comprobador_insertar pow_hash recibido segmento = some s ∧
      AnilloInv s ∧
      s.bloques segmento.in_ = verificado pow_hash recibido ∧
      s.semaforos.sem_fill = segmento.semaforos.sem_fill + 1 ∧
      s.out = segmento.out ∧
      pendientes s = pendientes segmento ++ [verificado pow_hash recibido] := by
  obtain ⟨hm, hsum, hin⟩ := hinv
  have hm0 : segmento.semaforos.mutex ≠ 0 := by omega
  refine ⟨_, comprobador_insertar_some pow_hash recibido segmento he hm0, ?_, ?_, ?_, ?_, ?_⟩
  · refine ⟨by simp [hm], by simp; omega, ?_⟩
    simp only [siguiente, hin, MAX_BLOQUES] at *
    omega
  · simp
  · simp
  · simp
  · simp only [pendientes, List.range_succ, List.map_append, List.map_cons, List.map_nil]
    congr 1
    · apply List.map_congr_left
      intro k hk
      have hk2 : k < segmento.semaforos.sem_fill := List.mem_range.mp hk
      have hne : (⟨(segmento.out.val + k) % MAX_BLOQUES, Nat.mod_lt _ (by decide)⟩
          : Fin MAX_BLOQUES) ≠ segmento.in_ := by
        intro hc
        have hv := congrArg Fin.val hc
        have := segmento.out.isLt
        simp only [hin, MAX_BLOQUES] at *
        omega
      rw [Function.update_noteq hne]
    · have heq : (⟨(segmento.out.val + segmento.semaforos.sem_fill) % MAX_BLOQUES,
          Nat.mod_lt _ (by decide)⟩ : Fin MAX_BLOQUES) = segmento.in_ :=
        Fin.ext hin.symm
      rw [heq, Function.update_same]

/-- A removal from an invariant state with a positive `sem_fill`: it is enabled,
keeps the invariant and returns the oldest pending block. -/
theorem extraer_inv (segmento : SharedMem) (hinv : AnilloInv segmento)
    (hf : segmento.semaforos.sem_fill ≠ 0) :
    ∃ s b, monitor_extraer segmento = some (s, b) ∧
      AnilloInv s ∧
      s.semaforos.sem_fill + 1 = segmento.semaforos.sem_fill ∧
      pendientes segmento = b :: pendientes s := by
  obtain ⟨hm, hsum, hin⟩ := hinv
  have hm0 : segmento.semaforos.mutex ≠ 0 := by omega
  refine ⟨_, _, monitor_extraer_some segmento hf hm0, ?_, ?_, ?_⟩
  · refine ⟨by simp [hm], by simp; omega, ?_⟩
    have := segmento.out.isLt
    simp only [siguiente, hin, MAX_BLOQUES] at *
    omega
  · simp; omega
  · obtain ⟨n, hn⟩ := Nat.exists_eq_succ_of_ne_zero hf
    simp only [pendientes, hn, List.range_succ_eq_map, List.map_cons, List.map_map,
      Nat.succ_sub_one]
    congr 1
    · congr 1
      apply Fin.ext
      simp only [Nat.add_zero]
      exact Nat.mod_eq_of_lt segmento.out.isLt
    · apply List.map_congr_left
      intro k _
      simp only [Function.comp, siguiente]
      congr 1
      apply Fin.ext
      simp only [MAX_BLOQUES]
      omega

theorem historiaInv_inicial (segmento : SharedMem) : HistoriaInv (anillo_inicial segmento) := by
  refine ⟨anilloInv_setup segmento, ?_⟩
  simp [anillo_inicial, pendientes_setup]

theorem paso_anillo_inv (pow_hash : Int → Int) (a : Accion) (c c2 : Anillo)
    (hinv : HistoriaInv c) (h : paso_anillo pow_hash a c = some c2) : HistoriaInv c2 := by
  obtain ⟨hring, hhist⟩ := hinv
  cases a with
  | insertar recibido =>
    by_cases he : c.segmento.semaforos.sem_empty = 0
    · simp [paso_anillo, comprobador_insertar_none pow_hash recibido c.segmento (Or.inl he)] at h
    · obtain ⟨s, hs, hinv2, hslot, _, _, hpend⟩ :=
        insertar_inv pow_hash recibido c.segmento hring he
      simp only [paso_anillo, hs, Option.bind_eq_bind, Option.some_bind, Option.pure_def,
        Option.some.injEq] at h
      subst h
      refine ⟨hinv2, ?_⟩
      simp only [hslot, hpend, hhist, List.append_assoc]
  | extraer =>
    by_cases hf : c.segmento.semaforos.sem_fill = 0
    · simp [paso_anillo, monitor_extraer_none c.segmento (Or.inl hf)] at h
    · obtain ⟨s, b, hs, hinv2, _, hpend⟩ := extraer_inv c.segmento hring hf
      simp only [paso_anillo, hs, Option.bind_eq_bind, Option.some_bind, Option.pure_def,
        Option.some.injEq] at h
      subst h
      refine ⟨hinv2, ?_⟩
      simp only [hhist, hpend, List.append_assoc, List.singleton_append]

/-- Induction along a sequence of steps on the ring. -/
theorem ejecutar_anillo_induccion (pow_hash : Int → Int) (P : Anillo → Prop)
    (hpaso : ∀ (a : Accion) (c c2 : Anillo), P c → paso_anillo pow_hash a c = some c2 → P c2)
    (acciones : List Accion) :
    ∀ (c c2 : Anillo), P c → ejecutar_anillo pow_hash acciones c = some c2 → P c2 := by
  induction acciones with
  | nil =>
    intro c c2 hinv h
    simp only [ejecutar_anillo, Option.some.injEq] at h
    exact h ▸ hinv
  | cons a resto ih =>
    intro c c2 hinv h
    simp only [ejecutar_anillo] at h
    cases hp : paso_anillo pow_hash a c with
    | none => simp [hp] at h
    | some c1 =>
      rw [hp] at h
      exact ih c1 c2 (hpaso a c c1 hinv hp) h

theorem ejecutar_anillo_inv (pow_hash : Int → Int) (segmento : SharedMem)
    (acciones : List Accion) (c : Anillo)
    (h : ejecutar_anillo pow_hash acciones (anillo_inicial segmento) = some c) :
    HistoriaInv c :=
  ejecutar_anillo_induccion pow_hash HistoriaInv (paso_anillo_inv pow_hash) acciones _ _
    (historiaInv_inicial segmento) h

/-- An insertion that takes place writes the verified message at `in`. -/
theorem comprobador_insertar_escribe (pow_hash : Int → Int) (recibido : Bloque)
    (segmento s : SharedMem) (h : comprobador_insertar pow_hash recibido segmento = some s) :
    s.bloques segmento.in_ = verificado pow_hash recibido := by
  by_cases he : segmento.semaforos.sem_empty = 0
  · simp [comprobador_insertar_none pow_hash recibido segmento (Or.inl he)] at h
  · by_cases hm : segmento.semaforos.mutex = 0
    · simp [comprobador_insertar_none pow_hash recibido segmento (Or.inr hm)] at h
    · rw [comprobador_insertar_some pow_hash recibido segmento he hm] at h
      simp only [Option.some.injEq] at h
      subst h
      simp

/-- What a sequence of steps adds to the insertion history: the verified messages
of its insertions, in order. -/
theorem ejecutar_anillo_insertados (pow_hash : Int → Int) (acciones : List Accion) :
    ∀ (c c2 : Anillo), ejecutar_anillo pow_hash acciones c = some c2 →
      c2.insertados = c.insertados ++ (recibidos acciones).map (verificado pow_hash) := by
  induction acciones with
  | nil =>
    intro c c2 h
    simp only [ejecutar_anillo, Option.some.injEq] at h
    simp [h, recibidos]
  | cons a resto ih =>
    intro c c2 h
    simp only [ejecutar_anillo] at h
    cases hp : paso_anillo pow_hash a c with
    | none => simp [hp] at h
    | some c1 =>
      rw [hp] at h
      have h2 := ih c1 c2 h
      cases a with
      | insertar recibido =>
        cases hs : comprobador_insertar pow_hash recibido c.segmento with
        | none => simp [paso_anillo, hs] at hp
        | some s =>
          simp only [paso_anillo, hs, Option.bind_eq_bind, Option.some_bind, Option.pure_def,
            Option.some.injEq] at hp
          subst hp
          rw [h2]
          simp [recibidos, comprobador_insertar_escribe pow_hash recibido c.segmento s hs]
      | extraer =>
        cases hs : monitor_extraer c.segmento with
        | none => simp [paso_anillo, hs] at hp
        | some r =>
          simp only [paso_anillo, hs, Option.bind_eq_bind, Option.some_bind, Option.pure_def,
            Option.some.injEq] at hp
          subst hp
          rw [h2]
          simp [recibidos]

/-! ## The monitor pair with the terminator -/

theorem pendientes_length (segmento : SharedMem) :
    (pendientes segmento).length = segmento.semaforos.sem_fill := by
  simp [pendientes]

/-- A Checker iteration keeps the invariant and advances `i`. -/
theorem comprobador_iteracion_inv (pow_hash : Int → Int) (l post : List Bloque)
    (hl : ∀ (k : Nat) (h : k < l.length), (l[k].solucion = COD_SALIDA ↔ k + 1 = l.length))
    (m m2 : Monitores) (i j : Nat) (hinv : MonitoresInv pow_hash l post m i j)
    (h : comprobador_iteracion pow_hash m = some m2) :
    MonitoresInv pow_hash l post m2 (i + 1) j := by
  obtain ⟨hji, hil, hring, hcola, hcf, hmf, hins, hpend, himp⟩ := hinv
  unfold comprobador_iteracion at h
  by_cases hfin : m.comprobador_fin = true
  · simp [hfin] at h
  · have hi : i < l.length := by
      rw [hcf] at hfin
      simp only [decide_eq_true_eq] at hfin
      omega
    have hdrop : l.drop i = l[i] :: l.drop (i + 1) := List.drop_eq_getElem_cons hi
    rw [hcola, hdrop] at h
    simp only [hfin, Bool.false_eq_true, if_false, List.cons_append] at h
    by_cases he : m.segmento.semaforos.sem_empty = 0
    · simp [comprobador_insertar_none pow_hash l[i] m.segmento (Or.inl he)] at h
    · obtain ⟨s, hs, hinv2, hslot, hfill, hout, hpend2⟩ :=
        insertar_inv pow_hash l[i] m.segmento hring he
      simp only [hs, Option.bind_eq_bind, Option.some_bind, Option.pure_def,
        Option.some.injEq] at h
      subst h
      have htake : (l.map (verificado pow_hash)).take (i + 1)
          = (l.map (verificado pow_hash)).take i ++ [verificado pow_hash l[i]] := by
        rw [List.take_succ]
        simp [hi]
      refine ⟨by omega, by omega, hinv2, rfl, ?_, hmf, ?_, ?_, himp⟩
      · simp only
        have := hl i hi
        by_cases hc : l[i].solucion = COD_SALIDA
        · simp [hc, this.mp hc]
        · have hne : ¬ i + 1 = l.length := fun hh => hc (this.mpr hh)
          simp [hc, hne]
      · simp only [hslot, hins, htake]
      · simp only [hpend2, hpend, htake]
        rw [List.drop_append_of_le_length]
        simp [List.length_take, hi.le]
        omega

/-- A Printer iteration keeps the invariant and advances `j`. -/
theorem monitor_iteracion_inv (pow_hash : Int → Int) (l post : List Bloque)
    (hl : ∀ (k : Nat) (h : k < l.length), (l[k].solucion = COD_SALIDA ↔ k + 1 = l.length))
    (m m2 : Monitores) (i j : Nat) (hinv : MonitoresInv pow_hash l post m i j)
    (h : monitor_iteracion m = some m2) :
    MonitoresInv pow_hash l post m2 i (j + 1) := by
  obtain ⟨hji, hil, hring, hcola, hcf, hmf, hins, hpend, himp⟩ := hinv
  unfold monitor_iteracion at h
  by_cases hfin : m.monitor_fin = true
  · simp [hfin] at h
  · have hj : j < l.length := by
      rw [hmf] at hfin
      simp only [decide_eq_true_eq] at hfin
      omega
    simp only [hfin, Bool.false_eq_true, if_false] at h
    by_cases hf : m.segmento.semaforos.sem_fill = 0
    · simp [monitor_extraer_none m.segmento (Or.inl hf)] at h
    · obtain ⟨s, b, hs, hinv2, hfill, hpend2⟩ := extraer_inv m.segmento hring hf
      have hlen := pendientes_length m.segmento
      rw [hpend] at hlen
      simp only [List.length_drop, List.length_take, List.length_map] at hlen
      have hjlt : j < i := by omega
      have hjX : j < ((l.map (verificado pow_hash)).take i).length := by
        simp only [List.length_take, List.length_map]
        omega
      have hdrop := List.drop_eq_getElem_cons hjX
      rw [← hpend, hpend2] at hdrop
      simp only [List.cons.injEq] at hdrop
      obtain ⟨hb, hrest⟩ := hdrop
      have hb2 : b = verificado pow_hash l[j] := by
        rw [hb, List.getElem_take]
        simp
      have hsol : b.solucion = l[j].solucion := by
        rw [hb2]
        rfl
      simp only [hs, Option.bind_eq_bind, Option.some_bind, Option.pure_def] at h
      have hlj := hl j hj
      by_cases hc : l[j].solucion = COD_SALIDA
      · have hlast : j + 1 = l.length := hlj.mp hc
        simp only [hsol, hc, if_true, Option.some.injEq] at h
        subst h
        refine ⟨by omega, hil, hinv2, hcola, hcf, ?_, hins, hrest, ?_⟩
        · simp [hlast]
        · simp only [himp]
          rw [List.take_of_length_le, List.take_of_length_le]
          · simp only [List.length_map, List.length_dropLast]
            omega
          · simp only [List.length_map, List.length_dropLast]
            omega
      · have hnl : ¬ j + 1 = l.length := fun hh => hc (hlj.mpr hh)
        simp only [hsol, hc, if_false, Option.some.injEq] at h
        subst h
        refine ⟨by omega, hil, hinv2, hcola, hcf, ?_, hins, hrest, ?_⟩
        · simp [hmf, hnl]
        · simp only [himp]
          have hjd : j < l.dropLast.length := by
            simp only [List.length_dropLast]
            omega
          have hget : (l.dropLast.map (verificado pow_hash))[j]?
              = some (verificado pow_hash l[j]) := by
            rw [List.getElem?_map, List.getElem?_eq_getElem hjd, List.getElem_dropLast]
            rfl
          rw [List.take_succ, hget, hb2]
          rfl

/-- Along a schedule the invariant is kept and every step advances `i` or `j`. -/
theorem ejecutar_monitores_inv (pow_hash : Int → Int) (l post : List Bloque)
    (hl : ∀ (k : Nat) (h : k < l.length), (l[k].solucion = COD_SALIDA ↔ k + 1 = l.length))
    (ps : List Proceso) :
    ∀ (m m2 : Monitores) (i j : Nat), MonitoresInv pow_hash l post m i j →
      ejecutar_monitores pow_hash ps m = some m2 →
      ∃ i2 j2, MonitoresInv pow_hash l post m2 i2 j2 ∧ i2 + j2 = i + j + ps.length := by
  induction ps with
  | nil =>
    intro m m2 i j hinv h
    simp only [ejecutar_monitores, Option.some.injEq] at h
    exact ⟨i, j, h ▸ hinv, rfl⟩
  | cons p resto ih =>
    intro m m2 i j hinv h
    simp only [ejecutar_monitores] at h
    cases hp : paso_monitores pow_hash p m with
    | none => simp [hp] at h
    | some m1 =>
      rw [hp] at h
      cases p with
      | comprobador =>
        obtain ⟨i2, j2, hinv2, hsum⟩ := ih m1 m2 (i + 1) j
          (comprobador_iteracion_inv pow_hash l post hl m m1 i j hinv hp) h
        exact ⟨i2, j2, hinv2, by simp only [List.length_cons]; omega⟩
      | monitor =>
        obtain ⟨i2, j2, hinv2, hsum⟩ := ih m1 m2 i (j + 1)
          (monitor_iteracion_inv pow_hash l post hl m m1 i j hinv hp) h
        exact ⟨i2, j2, hinv2, by simp only [List.length_cons]; omega⟩

theorem monitoresInv_inicial (pow_hash : Int → Int) (l post : List Bloque)
    (hne : l ≠ []) (segmento : SharedMem) :
    MonitoresInv pow_hash l post (monitores_inicial segmento (l ++ post)) 0 0 := by
  have hpos : 0 < l.length := List.length_pos.mpr hne
  refine ⟨le_refl _, Nat.zero_le _, anilloInv_setup segmento, by simp [monitores_inicial],
    ?_, ?_, by simp [monitores_inicial], ?_, by simp [monitores_inicial]⟩
  · simp [monitores_inicial]
    omega
  · simp [monitores_inicial]
    omega
  · simp [monitores_inicial, pendientes_setup]

/-- In a state of the invariant where neither process can step, both have left
their loops and everything up to the terminator has been inserted and copied out. -/
theorem monitores_bloqueo (pow_hash : Int → Int) (l post : List Bloque)
    (m : Monitores) (i j : Nat) (hinv : MonitoresInv pow_hash l post m i j)
    (hc : comprobador_iteracion pow_hash m = none) (hm : monitor_iteracion m = none) :
    i = l.length ∧ j = l.length := by
  obtain ⟨hji, hil, hring, hcola, hcf, hmf, hins, hpend, himp⟩ := hinv
  have hlen := pendientes_length m.segmento
  rw [hpend] at hlen
  simp only [List.length_drop, List.length_take, List.length_map] at hlen
  have hmon : j = l.length ∨ m.segmento.semaforos.sem_fill = 0 := by
    by_cases hfin : m.monitor_fin = true
    · rw [hmf] at hfin
      exact Or.inl (by simpa using hfin)
    · right
      by_contra hf
      obtain ⟨s, b, hs, _⟩ := extraer_inv m.segmento hring hf
      unfold monitor_iteracion at hm
      simp only [hfin, Bool.false_eq_true, if_false, hs, Option.bind_eq_bind,
        Option.some_bind, Option.pure_def] at hm
      split at hm <;> simp at hm
  have hchk : i = l.length ∨ m.segmento.semaforos.sem_empty = 0 := by
    by_cases hfin : m.comprobador_fin = true
    · rw [hcf] at hfin
      exact Or.inl (by simpa using hfin)
    · right
      by_contra he
      have hi : i < l.length := by
        rw [hcf] at hfin
        simp only [decide_eq_true_eq] at hfin
        omega
      have hdrop : l.drop i = l[i] :: l.drop (i + 1) := List.drop_eq_getElem_cons hi
      obtain ⟨s, hs, _⟩ := insertar_inv pow_hash l[i] m.segmento hring he
      unfold comprobador_iteracion at hc
      rw [hcola, hdrop] at hc
      simp only [hfin, Bool.false_eq_true, if_false, List.cons_append, hs,
        Option.bind_eq_bind, Option.some_bind, Option.pure_def] at hc
      exact Option.noConfusion hc
  obtain ⟨_, hsum, _⟩ := hring
  simp only [MAX_BLOQUES] at hsum
  omega

/-- A queue that holds a terminator splits at its first terminator. -/
theorem partir_cola (cola : List Bloque) (hex : ∃ b ∈ cola, b.solucion = COD_SALIDA) :
    cola = hasta_el_terminador cola ++ tras_el_terminador cola ∧
    hasta_el_terminador cola ≠ [] ∧
    (hasta_el_terminador cola).dropLast = antes_del_terminador cola ∧
    (hasta_el_terminador cola).length = (antes_del_terminador cola).length + 1 ∧
    (∀ (k : Nat) (h : k < (hasta_el_terminador cola).length),
      ((hasta_el_terminador cola)[k].solucion = COD_SALIDA ↔
        k + 1 = (hasta_el_terminador cola).length)) := by
  induction cola with
  | nil => simp at hex
  | cons b resto ih =>
    by_cases hb : b.solucion = COD_SALIDA
    · simp only [hasta_el_terminador, tras_el_terminador, antes_del_terminador, hb, if_true]
      refine ⟨by simp, by simp, by simp, by simp, ?_⟩
      intro k h
      simp only [List.length_singleton] at h
      have hk : k = 0 := by omega
      subst hk
      simp [hb]
    · have hex2 : ∃ b ∈ resto, b.solucion = COD_SALIDA := by
        obtain ⟨x, hx, hxs⟩ := hex
        rcases List.mem_cons.mp hx with hx | hx
        · exact absurd (hx ▸ hxs) hb
        · exact ⟨x, hx, hxs⟩
      obtain ⟨h1, h2, h3, h4, h5⟩ := ih hex2
      simp only [hasta_el_terminador, tras_el_terminador, antes_del_terminador, hb, if_false]
      refine ⟨by simp only [List.cons_append]; rw [← h1], by simp, ?_, by simp [h4], ?_⟩
      · rw [List.dropLast_cons_of_ne_nil h2, h3]
      · intro k h
        cases k with
        | zero =>
          simp only [List.getElem_cons_zero, List.length_cons]
          constructor
          · intro hc; exact absurd hc hb
          · intro hc
            have : 0 < (hasta_el_terminador resto).length := List.length_pos.mpr h2
            omega
        | succ n =>
          simp only [List.length_cons] at h
          simp only [List.getElem_cons_succ, List.length_cons]
          rw [h5 n (by omega)]
          omega

/-! ## Generic loops of the miner -/

/-- A loop that rewrites one array of its state position by position, each new value
depending on the old value at that position only. -/
theorem para_cada_puntual {σ α : Type} (N : Nat) (poner : (Fin N → α) → σ)
    (g : Fin N → α → α) (body : Fin N → σ → σ)
    (hbody : ∀ (i : Fin N) (a : Fin N → α),
      body i (poner a) = poner (Function.update a i (g i (a i))))
    (a0 : Fin N → α) (s : σ) (hs : s = poner a0) :
    para_cada N body s = poner (fun i => g i (a0 i)) := by
  subst hs
  have key := para_cada_inv N body
    (fun n t => t = poner (fun i => if i.val < n then g i (a0 i) else a0 i)) (poner a0)
    (by simp) (by
      intro n h t ht
      subst ht
      rw [hbody]
      congr 1
      apply update_hasta a0 (fun i => g i (a0 i)) n h
      simp)
  rw [key, hasta_todo]

/-- A loop with `break` (or with a flag in its condition) acts at the first position
that meets the test, and nowhere when no position does. -/
theorem para_cada_primero {σ : Type} (N : Nat) (c : Fin N → Prop) [DecidablePred c]
    (f : σ → Fin N → σ) (body : Fin N → σ × Bool → σ × Bool) (s : σ)
    (hbody : ∀ (i : Fin N), body i (s, false) = if c i then (f s i, true) else (s, false))
    (hfin : ∀ (i : Fin N) (t : σ), body i (t, true) = (t, true)) :
    ((∀ i, ¬ c i) ∧ para_cada N body (s, false) = (s, false)) ∨
    (∃ i, c i ∧ (∀ k, k < i → ¬ c k) ∧ para_cada N body (s, false) = (f s i, true)) := by
  have key := para_cada_inv N body
    (fun n r => ((∀ i : Fin N, i.val < n → ¬ c i) ∧ r = (s, false)) ∨
      (∃ i : Fin N, i.val < n ∧ c i ∧ (∀ k, k < i → ¬ c k) ∧ r = (f s i, true)))
    (s, false) (Or.inl ⟨fun i hi => absurd hi (Nat.not_lt_zero _), rfl⟩) (by
      intro n h t ht
      rcases ht with ⟨hno, ht⟩ | ⟨i, hi, hci, hmin, ht⟩
      · subst ht
        rw [hbody]
        by_cases hc : c ⟨n, h⟩
        · right
          refine ⟨⟨n, h⟩, Nat.lt_succ_self n, hc, ?_, by simp [hc]⟩
          intro k hk
          exact hno k hk
        · left
          refine ⟨?_, by simp [hc]⟩
          intro i hi
          by_cases hin : i.val = n
          · have : i = ⟨n, h⟩ := Fin.ext hin
            rw [this]; exact hc
          · exact hno i (by omega)
      · right
        subst ht
        exact ⟨i, Nat.lt_succ_of_lt hi, hci, hmin, hfin _ _⟩)
  rcases key with ⟨hno, hr⟩ | ⟨i, _, hci, hmin, hr⟩
  · exact Or.inl ⟨fun i => hno i i.isLt, hr⟩
  · exact Or.inr ⟨i, hci, hmin, hr⟩

/-- The number of positions below `n` that meet a test. -/
theorem cuenta_succ {N : Nat} (p : Fin N → Prop) [DecidablePred p] (n : Nat) (h : n < N) :
    (Finset.univ.filter (fun i : Fin N => i.val < n + 1 ∧ p i)).card
      = (Finset.univ.filter (fun i : Fin N => i.val < n ∧ p i)).card
        + (if p ⟨n, h⟩ then 1 else 0) := by
  by_cases hp : p ⟨n, h⟩
  · have hset : Finset.univ.filter (fun i : Fin N => i.val < n + 1 ∧ p i)
        = insert ⟨n, h⟩ (Finset.univ.filter (fun i : Fin N => i.val < n ∧ p i)) := by
      ext i
      simp only [Finset.mem_filter, Finset.mem_univ, true_and, Finset.mem_insert]
      constructor
      · rintro ⟨hi, hpi⟩
        by_cases hin : i.val = n
        · exact Or.inl (Fin.ext hin)
        · exact Or.inr ⟨by omega, hpi⟩
      · rintro (hi | ⟨hi, hpi⟩)
        · subst hi
          exact ⟨Nat.lt_succ_self n, hp⟩
        · exact ⟨by omega, hpi⟩
    rw [hset, Finset.card_insert_of_not_mem]
    · simp [hp]
    · simp
  · have hset : Finset.univ.filter (fun i : Fin N => i.val < n + 1 ∧ p i)
        = Finset.univ.filter (fun i : Fin N => i.val < n ∧ p i) := by
      ext i
      simp only [Finset.mem_filter, Finset.mem_univ, true_and]
      constructor
      · rintro ⟨hi, hpi⟩
        refine ⟨?_, hpi⟩
        by_contra hlt
        have hin : i.val = n := by omega
        have : i = ⟨n, h⟩ := Fin.ext hin
        exact hp (this ▸ hpi)
      · rintro ⟨hi, hpi⟩
        exact ⟨by omega, hpi⟩
    rw [hset]
    simp [hp]

theorem cuenta_cero {N : Nat} (p : Fin N → Prop) [DecidablePred p] :
    (Finset.univ.filter (fun i : Fin N => i.val < 0 ∧ p i)).card = 0 := by
  simp

theorem cuenta_todo {N : Nat} (p : Fin N → Prop) [DecidablePred p] :
    (Finset.univ.filter (fun i : Fin N => i.val < N ∧ p i)).card
      = (Finset.univ.filter p).card := by
  congr 1
  ext i
  simp [i.isLt]

/-- A counting loop counts the positions that meet its test. -/
theorem para_cada_cuenta {N : Nat} (p : Fin N → Prop) [DecidablePred p] (c0 : Int) :
    para_cada N (fun i (c : Int) => if p i then c + 1 else c) c0
      = c0 + ((Finset.univ.filter p).card : Int) := by
  have key := para_cada_inv N (fun i (c : Int) => if p i then c + 1 else c)
    (fun n c => c = c0 + ((Finset.univ.filter (fun i : Fin N => i.val < n ∧ p i)).card : Int))
    c0 (by simp) (by
      intro n h t ht
      subst ht
      rw [cuenta_succ p n h]
      by_cases hp : p ⟨n, h⟩
      · simp [hp]; ring
      · simp [hp])
  rw [key, cuenta_todo]

/-! ## Closed forms of the loops of the miner -/

theorem contar_mineros_eq (s : SharedMemMiner) :
    contar_mineros s = ((Finset.univ.filter (fun i => s.pid i ≠ -1)).card : Int) := by
  unfold contar_mineros
  rw [para_cada_cuenta (fun i => s.pid i ≠ -1) 0]
  simp

/-- The vote `v` goes to the first slot of the voter, and nowhere when it has none. -/
theorem marcar_voto_casos (me v : Int) (s : SharedMemMiner) :
    ((∀ i, (s.votos_mineros i).pid ≠ me) ∧ marcar_voto me v s = s) ∨
    (∃ i, (s.votos_mineros i).pid = me ∧ (∀ k, k < i → (s.votos_mineros k).pid ≠ me) ∧
      marcar_voto me v s = { s with
        votos_mineros := Function.update s.votos_mineros i
          { (s.votos_mineros i) with voto := v } }) := by
  unfold marcar_voto
  rcases para_cada_primero MAX_MINERS (fun i => (s.votos_mineros i).pid = me)
    (fun (t : SharedMemMiner) i => { t with
        votos_mineros := Function.update t.votos_mineros i
          { (t.votos_mineros i) with voto := v } })
    (fun i (r : SharedMemMiner × Bool) =>
      if r.2 then r
      else if (r.1.votos_mineros i).pid = me then
        ({ r.1 with
            votos_mineros := Function.update r.1.votos_mineros i
              { (r.1.votos_mineros i) with voto := v } }, true)
      else r) s (by intro i; simp) (by intro i t; simp) with ⟨hno, hr⟩ | ⟨i, hc, hmin, hr⟩
  · exact Or.inl ⟨hno, by rw [hr]⟩
  · exact Or.inr ⟨i, hc, hmin, by rw [hr]⟩

/-- The first free slot is claimed, and none when the roster is full. -/
theorem ocupar_hueco_casos (me wallet : Int) (s : SharedMemMiner) :
    ((∀ i, s.pid i ≠ -1) ∧ ocupar_hueco me wallet s = s) ∨
    (∃ i, s.pid i = -1 ∧ (∀ k, k < i → s.pid k ≠ -1) ∧
      ocupar_hueco me wallet s = { s with
        pid := Function.update s.pid i me
        votos_mineros := Function.update s.votos_mineros i { pid := me, voto := -1 }
        monedas_mineros := Function.update s.monedas_mineros i
          { pid := me, monedas := wallet } }) := by
  unfold ocupar_hueco
  rcases para_cada_primero MAX_MINERS (fun i => s.pid i = -1)
    (fun (t : SharedMemMiner) i => { t with
        pid := Function.update t.pid i me
        votos_mineros := Function.update t.votos_mineros i { pid := me, voto := -1 }
        monedas_mineros := Function.update t.monedas_mineros i
          { pid := me, monedas := wallet } })
    (fun i (r : SharedMemMiner × Bool) =>
      if r.2 then r
      else if r.1.pid i = -1 then
        ({ r.1 with
            pid := Function.update r.1.pid i me
            votos_mineros := Function.update r.1.votos_mineros i { pid := me, voto := -1 }
            monedas_mineros := Function.update r.1.monedas_mineros i
              { pid := me, monedas := wallet } }, true)
      else r) s (by intro i; simp) (by intro i t; simp) with ⟨hno, hr⟩ | ⟨i, hc, hmin, hr⟩
  · exact Or.inl ⟨hno, by rw [hr]⟩
  · exact Or.inr ⟨i, hc, hmin, by rw [hr]⟩

/-- The loop of `salir`, lines 78-87. -/
theorem salir_borrar_casos (me : Int) (s : SharedMemMiner) :
    ((∀ i, s.pid i ≠ me) ∧ salir_borrar me s = s) ∨
    (∃ i, s.pid i = me ∧ (∀ k, k < i → s.pid k ≠ me) ∧
      salir_borrar me s = { s with
          pid := Function.update s.pid i (-1)
          votos_mineros := Function.update s.votos_mineros i { pid := -1, voto := -1 }
          monedas_mineros := Function.update s.monedas_mineros i
            { monedas := -1, pid := -1 } }) := by
  unfold salir_borrar
  rcases para_cada_primero MAX_MINERS (fun i => s.pid i = me)
    (fun (t : SharedMemMiner) i => { t with
        pid := Function.update t.pid i (-1)
        votos_mineros := Function.update t.votos_mineros i { pid := -1, voto := -1 }
        monedas_mineros := Function.update t.monedas_mineros i
          { monedas := -1, pid := -1 } })
    (fun i (r : SharedMemMiner × Bool) =>
      if r.2 then r
      else if r.1.pid i = me then
        ({ r.1 with
            pid := Function.update r.1.pid i (-1)
            votos_mineros := Function.update r.1.votos_mineros i { pid := -1, voto := -1 }
            monedas_mineros := Function.update r.1.monedas_mineros i
              { monedas := -1, pid := -1 } }, true)
      else r) s (by intro i; simp) (by intro i t; simp) with ⟨hno, hr⟩ | ⟨i, hc, hmin, hr⟩
  · exact Or.inl ⟨hno, by rw [hr]⟩
  · exact Or.inr ⟨i, hc, hmin, by rw [hr]⟩

theorem esta_registrado_iff (me : Int) (s : SharedMemMiner) :
    esta_registrado me s = true ↔ ∃ i, s.pid i = me := by
  unfold esta_registrado
  have key := para_cada_inv MAX_MINERS
    (fun i (registrado : Bool) => if s.pid i = me then true else registrado)
    (fun n r => (r = true ↔ ∃ i : Fin MAX_MINERS, i.val < n ∧ s.pid i = me)) false
    (by simp) (by
      intro n h t ht
      by_cases hc : s.pid ⟨n, h⟩ = me
      · simp only [hc, if_true, true_iff]
        exact ⟨⟨n, h⟩, Nat.lt_succ_self n, hc⟩
      · simp only [hc, if_false, ht]
        constructor
        · rintro ⟨i, hi, hp⟩
          exact ⟨i, Nat.lt_succ_of_lt hi, hp⟩
        · rintro ⟨i, hi, hp⟩
          refine ⟨i, ?_, hp⟩
          by_contra hlt
          have hin : i.val = n := by omega
          have : i = ⟨n, h⟩ := Fin.ext hin
          exact hc (this ▸ hp))
  simp only at key
  rw [key]
  constructor
  · rintro ⟨i, _, hp⟩
    exact ⟨i, hp⟩
  · rintro ⟨i, hp⟩
    exact ⟨i, i.isLt, hp⟩

theorem contar_mineros_cero (s : SharedMemMiner) :
    contar_mineros s = 0 ↔ ∀ i, s.pid i = -1 := by
  rw [contar_mineros_eq]
  simp only [Nat.cast_eq_zero, Finset.card_eq_zero, Finset.filter_eq_empty_iff,
    Finset.mem_univ, true_implies, not_not]

/-- Closed form of `salir` when `mutex` is free. -/
theorem salir_some (me : Int) (s : SharedMemMiner) (hm : s.semaforos.mutex ≠ 0) :
    salir me s = some
      ({ (salir_borrar me { s with
            semaforos := { s.semaforos with mutex := s.semaforos.mutex - 1 } }) with
          semaforos := { (salir_borrar me { s with
              semaforos := { s.semaforos with mutex := s.semaforos.mutex - 1 } }).semaforos with
            mutex := (salir_borrar me { s with
              semaforos := { s.semaforos with mutex := s.semaforos.mutex - 1 } }).semaforos.mutex
                + 1 } },
        if contar_mineros (salir_borrar me { s with
            semaforos := { s.semaforos with mutex := s.semaforos.mutex - 1 } }) = 0
        then some { Bloque.cero with solucion := COD_SALIDA } else none) := by
  unfold salir
  simp only [sem_wait_pos _ hm, sem_post, Option.bind_eq_bind, Option.some_bind,
    Option.pure_def]
  split <;> rfl

/-- Closed form of the registration of a miner that is not in `pid[]`. -/
theorem minero_registro_some (me wallet : Int) (s : SharedMemMiner)
    (hno : ∀ i, s.pid i ≠ me) (hm : s.entry_mutex ≠ 0) :
    minero_registro me wallet s = some
      (if s.can_enter = true then
        ({ (ocupar_hueco me wallet { s with entry_mutex := s.entry_mutex - 1 }) with
            entry_mutex :=
              (ocupar_hueco me wallet { s with entry_mutex := s.entry_mutex - 1 }).entry_mutex
                + 1 }, false)
      else
        ({ s with waiters_count := s.waiters_count + 1,
                  entry_mutex := s.entry_mutex - 1 + 1 }, true)) := by
  have hreg : esta_registrado me s = false := by
    cases h : esta_registrado me s with
    | false => rfl
    | true =>
      obtain ⟨i, hi⟩ := (esta_registrado_iff me s).mp h
      exact absurd hi (hno i)
  unfold minero_registro
  simp only [hreg, Bool.false_eq_true, if_false, sem_wait_pos _ hm, sem_post,
    Option.bind_eq_bind, Option.some_bind, Option.pure_def]
  split <;> rfl

theorem minero_registro_presente (me wallet : Int) (s : SharedMemMiner)
    (h : ∃ i, s.pid i = me) : minero_registro me wallet s = some (s, false) := by
  unfold minero_registro
  simp [(esta_registrado_iff me s).mpr h]

/-! ## Closed forms of the loops of `ganador` -/

theorem limpiar_votos_eq (s : SharedMemMiner) :
    limpiar_votos s = { s with
      votos_mineros := fun i => { (s.votos_mineros i) with voto := 0 } } := by
  unfold limpiar_votos
  have hb : ∀ (i : Fin MAX_MINERS) (a : Fin MAX_MINERS → Voto),
      limpiar_voto i { s with votos_mineros := a }
        = { s with votos_mineros := Function.update a i { (a i) with voto := 0 } } := by
    intro i a
    rfl
  exact para_cada_puntual MAX_MINERS (fun a => { s with votos_mineros := a })
    (fun _ (v : Voto) => { v with voto := 0 }) limpiar_voto hb s.votos_mineros s rfl

theorem reiniciar_votos_eq (s : SharedMemMiner) :
    reiniciar_votos s = { s with
      votos_mineros := fun i =>
        if (s.votos_mineros i).pid ≠ -1 then { (s.votos_mineros i) with voto := 0 }
        else s.votos_mineros i } := by
  unfold reiniciar_votos
  have hb : ∀ (i : Fin MAX_MINERS) (a : Fin MAX_MINERS → Voto),
      reiniciar_voto i { s with votos_mineros := a }
        = { s with
            votos_mineros := Function.update a i
              (if (a i).pid ≠ -1 then { (a i) with voto := 0 } else a i) } := by
    intro i a
    by_cases h : (a i).pid = -1
    · simp [reiniciar_voto, h]
    · simp [reiniciar_voto, h]
  exact para_cada_puntual MAX_MINERS (fun a => { s with votos_mineros := a })
    (fun _ (v : Voto) => if v.pid ≠ -1 then { v with voto := 0 } else v) reiniciar_voto hb
    s.votos_mineros s rfl

theorem copiar_monedas_eq (s : SharedMemMiner) :
    copiar_monedas s = { s with
      bloque_actual := { s.bloque_actual with monedas_mineros := s.monedas_mineros } } := by
  unfold copiar_monedas
  have hb : ∀ (i : Fin MAX_MINERS) (a : Fin MAX_MINERS → Monedas),
      copiar_moneda i { s with bloque_actual := { s.bloque_actual with monedas_mineros := a } }
        = { s with bloque_actual := { s.bloque_actual with
              monedas_mineros := Function.update a i (s.monedas_mineros i) } } := by
    intro i a
    rfl
  exact para_cada_puntual MAX_MINERS
    (fun a => { s with bloque_actual := { s.bloque_actual with monedas_mineros := a } })
    (fun i _ => s.monedas_mineros i) copiar_moneda hb s.bloque_actual.monedas_mineros s rfl

theorem ganador_envio_eq (s : SharedMemMiner) :
    ganador_envio s =
      { id := s.bloque_actual.id, objetivo := s.bloque_actual.objetivo,
        solucion := s.bloque_actual.solucion, ganador := s.bloque_actual.ganador,
        monedas_mineros := fun i =>
          if (s.votos_mineros i).voto ≠ -1 then s.monedas_mineros i
          else { pid := 0, monedas := 0 },
        total_votos := s.bloque_actual.total_votos,
        votos_positivos := s.bloque_actual.votos_positivos, correcto := false } := by
  have hb : ∀ (i : Fin MAX_MINERS) (a : Fin MAX_MINERS → Monedas),
      envio_moneda s i (Bloque.mk s.bloque_actual.id s.bloque_actual.objetivo
          s.bloque_actual.solucion s.bloque_actual.ganador a 0 0 false)
        = Bloque.mk s.bloque_actual.id s.bloque_actual.objetivo
          s.bloque_actual.solucion s.bloque_actual.ganador
          (Function.update a i
            (if (s.votos_mineros i).voto ≠ -1 then s.monedas_mineros i else a i)) 0 0 false := by
    intro i a
    by_cases h : (s.votos_mineros i).voto = -1
    · simp [envio_moneda, h]
    · simp [envio_moneda, h]
  have key := para_cada_puntual MAX_MINERS
    (fun a => Bloque.mk s.bloque_actual.id s.bloque_actual.objetivo s.bloque_actual.solucion
      s.bloque_actual.ganador a 0 0 false)
    (fun i (m : Monedas) => if (s.votos_mineros i).voto ≠ -1 then s.monedas_mineros i else m)
    (envio_moneda s) hb (fun _ => { pid := 0, monedas := 0 })
    (Bloque.mk s.bloque_actual.id s.bloque_actual.objetivo s.bloque_actual.solucion
      s.bloque_actual.ganador (fun _ => { pid := 0, monedas := 0 }) 0 0 false) rfl
  unfold ganador_envio
  simp only [Bloque.cero]
  rw [key]

/-- The tally loop counts the approvals and the cast votes. -/
theorem contar_votos_eq (s : SharedMemMiner) :
    contar_votos s = { s with
      bloque_actual := { s.bloque_actual with
        votos_positivos := s.bloque_actual.votos_positivos
          + ((Finset.univ.filter (fun i => (s.votos_mineros i).voto = 1)).card : Int)
        total_votos := s.bloque_actual.total_votos
          + ((Finset.univ.filter (fun i =>
              (s.votos_mineros i).pid ≠ -1 ∧ (s.votos_mineros i).voto ≠ -1)).card : Int) } } := by
  have key := para_cada_inv MAX_MINERS contar_voto
      (fun n (t : SharedMemMiner) => t = { s with
        bloque_actual := { s.bloque_actual with
          votos_positivos := s.bloque_actual.votos_positivos
            + ((Finset.univ.filter (fun i : Fin MAX_MINERS =>
                i.val < n ∧ (s.votos_mineros i).voto = 1)).card : Int)
          total_votos := s.bloque_actual.total_votos
            + ((Finset.univ.filter (fun i : Fin MAX_MINERS =>
                i.val < n ∧ ((s.votos_mineros i).pid ≠ -1 ∧
                  (s.votos_mineros i).voto ≠ -1))).card : Int) } })
      s (by simp) (by
        intro n h t ht
        subst ht
        rw [cuenta_succ (fun i => (s.votos_mineros i).voto = 1) n h,
          cuenta_succ (fun i => (s.votos_mineros i).pid ≠ -1 ∧ (s.votos_mineros i).voto ≠ -1)
            n h]
        by_cases h1 : (s.votos_mineros ⟨n, h⟩).voto = 1
        · by_cases h2 : (s.votos_mineros ⟨n, h⟩).pid = -1
          · simp [contar_voto, h1, h2, add_assoc]
          · simp [contar_voto, h1, h2, add_assoc]
        · by_cases h2 : (s.votos_mineros ⟨n, h⟩).pid = -1
          · simp [contar_voto, h1, h2]
          · by_cases h3 : (s.votos_mineros ⟨n, h⟩).voto = -1
            · simp [contar_voto, h1, h2, h3]
            · simp [contar_voto, h1, h2, h3, add_assoc])
  simp only at key
  unfold contar_votos
  rw [key, cuenta_todo, cuenta_todo]

/-- The reward loop adds a coin to every wallet slot of the winner. -/
theorem premiar_eq (me : Int) (s : SharedMemMiner) (wallet : Int) :
    premiar me s wallet =
      ({ s with
          monedas_mineros := fun i =>
            if (s.monedas_mineros i).pid = me then
              { (s.monedas_mineros i) with monedas := (s.monedas_mineros i).monedas + 1 }
            else s.monedas_mineros i },
        wallet + ((Finset.univ.filter (fun i => (s.monedas_mineros i).pid = me)).card : Int)) := by
  have key := para_cada_inv MAX_MINERS (premiar_paso me)
      (fun n (r : SharedMemMiner × Int) => r =
        ({ s with
            monedas_mineros := fun i =>
              if i.val < n then
                (if (s.monedas_mineros i).pid = me then
                  { (s.monedas_mineros i) with monedas := (s.monedas_mineros i).monedas + 1 }
                else s.monedas_mineros i)
              else s.monedas_mineros i },
          wallet + ((Finset.univ.filter (fun i : Fin MAX_MINERS =>
            i.val < n ∧ (s.monedas_mineros i).pid = me)).card : Int)))
      (s, wallet) (by simp) (by
        intro n h t ht
        subst ht
        rw [cuenta_succ (fun i => (s.monedas_mineros i).pid = me) n h]
        by_cases hp : (s.monedas_mineros ⟨n, h⟩).pid = me
        · simp only [premiar_paso, lt_self_iff_false, if_false, hp, if_true, Nat.cast_add,
            Nat.cast_one, Prod.mk.injEq]
          refine ⟨?_, by ring⟩
          congr 1
          exact update_hasta s.monedas_mineros _ n h _ (by simp [hp])
        · simp only [premiar_paso, lt_self_iff_false, if_false, hp, Nat.cast_add,
            Nat.cast_zero, add_zero, Prod.mk.injEq, and_true]
          congr 1
          funext i
          by_cases hin : i.val = n
          · have : i = ⟨n, h⟩ := Fin.ext hin
            subst this
            simp [hp]
          · by_cases hlt : i.val < n
            · simp [hlt, Nat.lt_succ_of_lt hlt]
            · have : ¬ i.val < n + 1 := by omega
              simp [hlt, this])
  simp only at key
  unfold premiar
  rw [key, cuenta_todo, hasta_todo]
/-! ## Closed forms of the steps of the miner -/

theorem sem_wait_eq_some (c m : Nat) : sem_wait c = some m ↔ c ≠ 0 ∧ m = c - 1 := by
  unfold sem_wait
  by_cases h : c = 0
  · simp [h]
  · simp only [h, if_false, Option.some.injEq, ne_eq, not_false_eq_true, true_and]
    exact eq_comm

set_option maxRecDepth 20000 in
/-- Closed form of the tally. -/
theorem ganador_recuento_eq (me mineros : Int) (s : SharedMemMiner) (wallet : Int) :
    ganador_recuento me mineros s wallet =
      if (aprobaciones s : Int) > Int.tdiv mineros 2 then
        ({ s with
            monedas_mineros := fun i =>
              if (s.monedas_mineros i).pid = me then
                { (s.monedas_mineros i) with monedas := (s.monedas_mineros i).monedas + 1 }
              else s.monedas_mineros i
            bloque_actual := { s.bloque_actual with
              votos_positivos := (aprobaciones s : Int)
              total_votos := (votos_emitidos s : Int)
              correcto := true
              monedas_mineros := fun i =>
                if (s.monedas_mineros i).pid = me then
                  { (s.monedas_mineros i) with monedas := (s.monedas_mineros i).monedas + 1 }
                else s.monedas_mineros i } },
          wallet + ((Finset.univ.filter (fun i => (s.monedas_mineros i).pid = me)).card : Int))
      else
        ({ s with
            bloque_actual := { s.bloque_actual with
              votos_positivos := (aprobaciones s : Int)
              total_votos := (votos_emitidos s : Int)
              correcto := false
              monedas_mineros := s.monedas_mineros } }, wallet) := by
  unfold ganador_recuento
  simp only [contar_votos_eq, zero_add]
  by_cases h : (aprobaciones s : Int) > Int.tdiv mineros 2
  · have h2 : ((Finset.univ.filter (fun i => (s.votos_mineros i).voto = 1)).card : Int)
        > Int.tdiv mineros 2 := h
    simp only [h2, if_true, premiar_eq, copiar_monedas_eq, h]
    rfl
  · have h2 : ¬ ((Finset.univ.filter (fun i => (s.votos_mineros i).voto = 1)).card : Int)
        > Int.tdiv mineros 2 := h
    simp only [h2, if_false, copiar_monedas_eq, h]
    rfl

set_option maxRecDepth 20000 in
/-- Closed form of the rotation. -/
theorem ganador_rotar_eq (pow_hash : Int → Int) (me : Int) (s : SharedMemMiner) :
    ganador_rotar pow_hash me s = { s with
      bloque_anterior := s.bloque_actual
      bloque_actual := { s.bloque_actual with
        id := s.bloque_actual.id + 1
        objetivo := s.bloque_actual.solucion
        solucion := pow_hash s.bloque_actual.solucion
        ganador := me
        correcto := false
        total_votos := 0
        votos_positivos := 0 }
      votos_mineros := fun i =>
        if (s.votos_mineros i).pid ≠ -1 then { (s.votos_mineros i) with voto := 0 }
        else s.votos_mineros i } := by
  unfold ganador_rotar
  simp only [reiniciar_votos_eq]

set_option maxRecDepth 20000 in
/-- Closed form of the second critical section of `ganador` when `mutex` is free. -/
theorem ganador_cerrar_some (pow_hash : Int → Int) (me mineros wallet : Int)
    (mq_send_ok : Bool) (s : SharedMemMiner) (hm : s.semaforos.mutex ≠ 0) :
    ganador_cerrar pow_hash me mineros wallet mq_send_ok s = some
      (if mq_send_ok = true then
        { segmento :=
            { (ganador_rotar pow_hash me (ganador_recuento me mineros
                { s with semaforos := { s.semaforos with mutex := s.semaforos.mutex - 1 } }
                wallet).1) with
              semaforos := { s.semaforos with mutex := s.semaforos.mutex - 1 + 1 } },
          wallet := (ganador_recuento me mineros
            { s with semaforos := { s.semaforos with mutex := s.semaforos.mutex - 1 } }
            wallet).2,
          envio := ganador_envio (ganador_recuento me mineros
            { s with semaforos := { s.semaforos with mutex := s.semaforos.mutex - 1 } }
            wallet).1,
          retorno := true }
      else
        { segmento := (ganador_recuento me mineros
            { s with semaforos := { s.semaforos with mutex := s.semaforos.mutex - 1 } }
            wallet).1,
          wallet := (ganador_recuento me mineros
            { s with semaforos := { s.semaforos with mutex := s.semaforos.mutex - 1 } }
            wallet).2,
          envio := ganador_envio (ganador_recuento me mineros
            { s with semaforos := { s.semaforos with mutex := s.semaforos.mutex - 1 } }
            wallet).1,
          retorno := false }) := by
  unfold ganador_cerrar
  simp only [sem_wait_pos _ hm, sem_post, Option.bind_eq_bind, Option.some_bind,
    Option.pure_def]
  cases mq_send_ok
  · simp
  · simp only [if_true, Option.some.injEq]
    congr 1
    rw [ganador_rotar_eq, ganador_recuento_eq]
    split <;> rfl

theorem ganador_cerrar_none (pow_hash : Int → Int) (me mineros wallet : Int)
    (mq_send_ok : Bool) (s : SharedMemMiner) (hm : s.semaforos.mutex = 0) :
    ganador_cerrar pow_hash me mineros wallet mq_send_ok s = none := by
  unfold ganador_cerrar
  have h0 : sem_wait s.semaforos.mutex = none := by rw [hm]; rfl
  rw [h0]
  rfl

/-- What the tally leaves in the region, field by field. -/
theorem ganador_recuento_campos (me mineros : Int) (s : SharedMemMiner) (wallet : Int) :
    (ganador_recuento me mineros s wallet).1.bloque_actual.votos_positivos
      = (aprobaciones s : Int) ∧
    (ganador_recuento me mineros s wallet).1.bloque_actual.total_votos
      = (votos_emitidos s : Int) ∧
    (ganador_recuento me mineros s wallet).1.bloque_actual.correcto
      = decide ((aprobaciones s : Int) > Int.tdiv mineros 2) ∧
    (ganador_recuento me mineros s wallet).1.bloque_actual.id = s.bloque_actual.id ∧
    (ganador_recuento me mineros s wallet).1.bloque_actual.objetivo
      = s.bloque_actual.objetivo ∧
    (ganador_recuento me mineros s wallet).1.bloque_actual.solucion
      = s.bloque_actual.solucion ∧
    (ganador_recuento me mineros s wallet).1.bloque_actual.ganador = s.bloque_actual.ganador ∧
    (ganador_recuento me mineros s wallet).1.bloque_actual.monedas_mineros
      = (ganador_recuento me mineros s wallet).1.monedas_mineros ∧
    (ganador_recuento me mineros s wallet).1.bloque_anterior = s.bloque_anterior ∧
    (ganador_recuento me mineros s wallet).1.pid = s.pid ∧
    (ganador_recuento me mineros s wallet).1.votos_mineros = s.votos_mineros ∧
    (ganador_recuento me mineros s wallet).1.semaforos = s.semaforos ∧
    (ganador_recuento me mineros s wallet).1.entry_mutex = s.entry_mutex ∧
    (ganador_recuento me mineros s wallet).1.entry_gate = s.entry_gate ∧
    (ganador_recuento me mineros s wallet).1.waiters_count = s.waiters_count ∧
    (ganador_recuento me mineros s wallet).1.can_enter = s.can_enter := by
  rw [ganador_recuento_eq]
  by_cases h : (aprobaciones s : Int) > Int.tdiv mineros 2
  · rw [if_pos h]
    exact ⟨rfl, rfl, (decide_eq_true h).symm, rfl, rfl, rfl, rfl, rfl, rfl, rfl, rfl, rfl,
      rfl, rfl, rfl, rfl⟩
  · rw [if_neg h]
    exact ⟨rfl, rfl, (decide_eq_false h).symm, rfl, rfl, rfl, rfl, rfl, rfl, rfl, rfl, rfl,
      rfl, rfl, rfl, rfl⟩

/-- The wallets after the tally. -/
theorem ganador_recuento_monedas (me mineros : Int) (s : SharedMemMiner) (wallet : Int) :
    (ganador_recuento me mineros s wallet).1.monedas_mineros
      = (if (aprobaciones s : Int) > Int.tdiv mineros 2 then
          (fun i =>
            if (s.monedas_mineros i).pid = me then
              { (s.monedas_mineros i) with monedas := (s.monedas_mineros i).monedas + 1 }
            else s.monedas_mineros i)
        else s.monedas_mineros) ∧
    (ganador_recuento me mineros s wallet).2
      = (if (aprobaciones s : Int) > Int.tdiv mineros 2 then
          wallet + ((Finset.univ.filter (fun i => (s.monedas_mineros i).pid = me)).card : Int)
        else wallet) := by
  rw [ganador_recuento_eq]
  by_cases h : (aprobaciones s : Int) > Int.tdiv mineros 2
  · rw [if_pos h, if_pos h, if_pos h]
    exact ⟨rfl, rfl⟩
  · rw [if_neg h, if_neg h, if_neg h]
    exact ⟨rfl, rfl⟩

/-- The number of wallet slots of a miner registered in exactly one slot. -/
theorem registradoEn_card (s : SharedMemMiner) (me : Int) (i : Fin MAX_MINERS)
    (h : RegistradoEn s me i) :
    (Finset.univ.filter (fun j => (s.monedas_mineros j).pid = me)).card = 1 := by
  have hset : Finset.univ.filter (fun j => (s.monedas_mineros j).pid = me) = {i} := by
    ext j
    simp only [Finset.mem_filter, Finset.mem_univ, true_and, Finset.mem_singleton]
    constructor
    · intro hj
      by_contra hne
      exact (h.2.2.2 j hne).2.2 hj
    · intro hj
      rw [hj]
      exact h.2.2.1
  rw [hset, Finset.card_singleton]

/-- What the message carries. -/
theorem ganador_envio_campos (s : SharedMemMiner) :
    (ganador_envio s).id = s.bloque_actual.id ∧
    (ganador_envio s).objetivo = s.bloque_actual.objetivo ∧
    (ganador_envio s).solucion = s.bloque_actual.solucion ∧
    (ganador_envio s).ganador = s.bloque_actual.ganador ∧
    (ganador_envio s).total_votos = s.bloque_actual.total_votos ∧
    (ganador_envio s).votos_positivos = s.bloque_actual.votos_positivos ∧
    (ganador_envio s).correcto = false ∧
    (∀ i, (ganador_envio s).monedas_mineros i
      = if (s.votos_mineros i).voto ≠ -1 then s.monedas_mineros i
        else { pid := 0, monedas := 0 }) := by
  rw [ganador_envio_eq]
  exact ⟨rfl, rfl, rfl, rfl, rfl, rfl, rfl, fun _ => rfl⟩

/-- What the rotation leaves. -/
theorem ganador_rotar_campos (pow_hash : Int → Int) (me : Int) (s : SharedMemMiner) :
    (ganador_rotar pow_hash me s).bloque_anterior = s.bloque_actual ∧
    (ganador_rotar pow_hash me s).bloque_actual.id = s.bloque_actual.id + 1 ∧
    (ganador_rotar pow_hash me s).bloque_actual.objetivo = s.bloque_actual.solucion ∧
    (ganador_rotar pow_hash me s).bloque_actual.solucion
      = pow_hash s.bloque_actual.solucion ∧
    (ganador_rotar pow_hash me s).monedas_mineros = s.monedas_mineros ∧
    (ganador_rotar pow_hash me s).pid = s.pid ∧
    (ganador_rotar pow_hash me s).semaforos = s.semaforos := by
  rw [ganador_rotar_eq]
  exact ⟨rfl, rfl, rfl, rfl, rfl, rfl, rfl⟩
/-! ## Steps that leave the chain alone -/

theorem mismaCadena_refl (s : SharedMemMiner) : MismaCadena s s := ⟨rfl, rfl, rfl⟩

theorem marcar_voto_actual (me v : Int) (s : SharedMemMiner) :
    (marcar_voto me v s).bloque_actual = s.bloque_actual := by
  rcases marcar_voto_casos me v s with ⟨_, hr⟩ | ⟨i, _, _, hr⟩
  · rw [hr]
  · rw [hr]

theorem marcar_voto_anterior (me v : Int) (s : SharedMemMiner) :
    (marcar_voto me v s).bloque_anterior = s.bloque_anterior := by
  rcases marcar_voto_casos me v s with ⟨_, hr⟩ | ⟨i, _, _, hr⟩
  · rw [hr]
  · rw [hr]

theorem ocupar_hueco_actual (me wallet : Int) (s : SharedMemMiner) :
    (ocupar_hueco me wallet s).bloque_actual = s.bloque_actual := by
  rcases ocupar_hueco_casos me wallet s with ⟨_, hr⟩ | ⟨i, _, _, hr⟩
  · rw [hr]
  · rw [hr]

theorem ocupar_hueco_anterior (me wallet : Int) (s : SharedMemMiner) :
    (ocupar_hueco me wallet s).bloque_anterior = s.bloque_anterior := by
  rcases ocupar_hueco_casos me wallet s with ⟨_, hr⟩ | ⟨i, _, _, hr⟩
  · rw [hr]
  · rw [hr]

theorem salir_borrar_actual (me : Int) (s : SharedMemMiner) :
    (salir_borrar me s).bloque_actual = s.bloque_actual := by
  rcases salir_borrar_casos me s with ⟨_, hr⟩ | ⟨i, _, _, hr⟩
  · rw [hr]
  · rw [hr]

theorem salir_borrar_anterior (me : Int) (s : SharedMemMiner) :
    (salir_borrar me s).bloque_anterior = s.bloque_anterior := by
  rcases salir_borrar_casos me s with ⟨_, hr⟩ | ⟨i, _, _, hr⟩
  · rw [hr]
  · rw [hr]

theorem limpiar_votos_actual (s : SharedMemMiner) :
    (limpiar_votos s).bloque_actual = s.bloque_actual := by
  rw [limpiar_votos_eq]

theorem limpiar_votos_anterior (s : SharedMemMiner) :
    (limpiar_votos s).bloque_anterior = s.bloque_anterior := by
  rw [limpiar_votos_eq]

theorem minero_registro_cadena (me wallet : Int) (s s2 : SharedMemMiner) (espera : Bool)
    (h : minero_registro me wallet s = some (s2, espera)) : MismaCadena s s2 := by
  unfold minero_registro at h
  by_cases hreg : esta_registrado me s = true
  · simp only [hreg, if_true, Option.some.injEq, Prod.mk.injEq] at h
    rw [← h.1]
    exact mismaCadena_refl s
  · simp only [hreg, Bool.false_eq_true, if_false, Option.bind_eq_bind, Option.bind_eq_some,
      sem_wait_eq_some, Option.pure_def] at h
    obtain ⟨m, _, h⟩ := h
    by_cases hcan : s.can_enter = true
    · simp only [hcan, if_true, Option.some.injEq, Prod.mk.injEq] at h
      rw [← h.1]
      refine ⟨?_, ?_, ?_⟩ <;> simp only [ocupar_hueco_actual, ocupar_hueco_anterior]
    · simp only [hcan, Bool.false_eq_true, if_false, Option.some.injEq, Prod.mk.injEq] at h
      rw [← h.1]
      exact ⟨rfl, rfl, rfl⟩

theorem minero_despertar_cadena (me wallet : Int) (s s2 : SharedMemMiner)
    (h : minero_despertar me wallet s = some s2) : MismaCadena s s2 := by
  unfold minero_despertar at h
  simp only [Option.bind_eq_bind, Option.bind_eq_some, sem_wait_eq_some, Option.pure_def,
    Option.some.injEq] at h
  obtain ⟨m, _, h⟩ := h
  rw [← h]
  refine ⟨?_, ?_, ?_⟩ <;> simp only [ocupar_hueco_actual, ocupar_hueco_anterior]

theorem minero_cerrar_entrada_cadena (s s2 : SharedMemMiner)
    (h : minero_cerrar_entrada s = some s2) : MismaCadena s s2 := by
  unfold minero_cerrar_entrada at h
  simp only [Option.bind_eq_bind, Option.bind_eq_some, sem_wait_eq_some, Option.pure_def,
    Option.some.injEq] at h
  obtain ⟨m, _, h⟩ := h
  rw [← h]
  exact ⟨rfl, rfl, rfl⟩

theorem minero_abrir_entrada_cadena (s s2 : SharedMemMiner)
    (h : minero_abrir_entrada s = some s2) : MismaCadena s s2 := by
  unfold minero_abrir_entrada at h
  simp only [Option.bind_eq_bind, Option.bind_eq_some, sem_wait_eq_some, Option.pure_def,
    Option.some.injEq] at h
  obtain ⟨m, _, h⟩ := h
  rw [← h]
  exact ⟨rfl, rfl, rfl⟩

theorem tomar_ganador_cadena (s s2 : SharedMemMiner)
    (h : tomar_ganador s = some s2) : MismaCadena s s2 := by
  unfold tomar_ganador at h
  simp only [Option.bind_eq_bind, Option.bind_eq_some, sem_wait_eq_some, Option.pure_def,
    Option.some.injEq] at h
  obtain ⟨m, _, h⟩ := h
  rw [← h]
  exact ⟨rfl, rfl, rfl⟩

set_option maxRecDepth 20000 in
theorem ganador_anunciar_cadena (me solucion : Int) (s s2 : SharedMemMiner)
    (h : ganador_anunciar me solucion s = some s2) : MismaCadena s s2 := by
  unfold ganador_anunciar at h
  simp only [Option.bind_eq_bind, Option.bind_eq_some, sem_wait_eq_some, Option.pure_def,
    Option.some.injEq] at h
  obtain ⟨m, _, h⟩ := h
  rw [← h]
  refine ⟨?_, ?_, ?_⟩ <;>
    simp only [marcar_voto_actual, marcar_voto_anterior, limpiar_votos_actual,
      limpiar_votos_anterior]

theorem perdedor_votar_cadena (pow_hash : Int → Int) (me : Int) (s s2 : SharedMemMiner)
    (h : perdedor_votar pow_hash me s = some s2) : MismaCadena s s2 := by
  unfold perdedor_votar at h
  simp only [Option.bind_eq_bind, Option.bind_eq_some, sem_wait_eq_some, Option.pure_def,
    Option.some.injEq] at h
  obtain ⟨m, _, h⟩ := h
  rw [← h]
  split <;> (refine ⟨?_, ?_, ?_⟩ <;> simp only [marcar_voto_actual, marcar_voto_anterior])

theorem salir_cadena (me : Int) (s s2 : SharedMemMiner) (m : Option Bloque)
    (h : salir me s = some (s2, m)) : MismaCadena s s2 := by
  by_cases hm : s.semaforos.mutex = 0
  · unfold salir at h
    have h0 : sem_wait s.semaforos.mutex = none := by rw [hm]; rfl
    rw [h0] at h
    exact Option.noConfusion h
  · rw [salir_some me s hm] at h
    simp only [Option.some.injEq, Prod.mk.injEq] at h
    rw [← h.1]
    refine ⟨?_, ?_, ?_⟩ <;> simp only [salir_borrar_actual, salir_borrar_anterior]

set_option maxRecDepth 20000 in
/-- A failed send leaves the chain alone: the tally does not touch the id, the target
or the previous block, and the rotation does not take place. -/
theorem ganador_cerrar_fallo_cadena (pow_hash : Int → Int) (me mineros wallet : Int)
    (s : SharedMemMiner) (c : Cierre)
    (h : ganador_cerrar pow_hash me mineros wallet false s = some c) :
    MismaCadena s c.segmento := by
  by_cases hm : s.semaforos.mutex = 0
  · rw [ganador_cerrar_none pow_hash me mineros wallet false s hm] at h
    exact Option.noConfusion h
  · rw [ganador_cerrar_some pow_hash me mineros wallet false s hm] at h
    simp only [Bool.false_eq_true, if_false, Option.some.injEq] at h
    rw [← h]
    obtain ⟨_, _, _, h4, h5, _, _, _, h9, _⟩ := ganador_recuento_campos me mineros
      { s with semaforos := { s.semaforos with mutex := s.semaforos.mutex - 1 } } wallet
    exact ⟨h4, h5, h9⟩

set_option maxRecDepth 20000 in
/-- A successful send: the message carries the id, the target and the solution of the
current block, the previous block becomes the tallied current block and the new
current block continues it. -/
theorem ganador_cerrar_exito_cadena (pow_hash : Int → Int) (me mineros wallet : Int)
    (s : SharedMemMiner) (c : Cierre)
    (h : ganador_cerrar pow_hash me mineros wallet true s = some c) :
    c.envio.id = s.bloque_actual.id ∧
    c.envio.objetivo = s.bloque_actual.objetivo ∧
    c.envio.solucion = s.bloque_actual.solucion ∧
    MismoContenido c.segmento.bloque_anterior c.envio ∧
    c.segmento.bloque_actual.id = c.segmento.bloque_anterior.id + 1 ∧
    c.segmento.bloque_actual.objetivo = c.segmento.bloque_anterior.solucion := by
  by_cases hm : s.semaforos.mutex = 0
  · rw [ganador_cerrar_none pow_hash me mineros wallet true s hm] at h
    exact Option.noConfusion h
  · rw [ganador_cerrar_some pow_hash me mineros wallet true s hm] at h
    rw [if_pos rfl] at h
    simp only [Option.some.injEq] at h
    rw [← h]
    obtain ⟨_, _, _, h4, h5, h6, _⟩ := ganador_recuento_campos me mineros
      { s with semaforos := { s.semaforos with mutex := s.semaforos.mutex - 1 } } wallet
    obtain ⟨e1, e2, e3, e4, e5, e6, _⟩ := ganador_envio_campos (ganador_recuento me mineros
      { s with semaforos := { s.semaforos with mutex := s.semaforos.mutex - 1 } } wallet).1
    obtain ⟨r1, r2, r3, _⟩ := ganador_rotar_campos pow_hash me (ganador_recuento me mineros
      { s with semaforos := { s.semaforos with mutex := s.semaforos.mutex - 1 } } wallet).1
    refine ⟨e1.trans h4, e2.trans h5, e3.trans h6, ?_, ?_, ?_⟩
    · show MismoContenido (ganador_rotar pow_hash me _).bloque_anterior _
      rw [r1]
      exact ⟨e1.symm, e2.symm, e3.symm, e4.symm, e5.symm, e6.symm⟩
    · show (ganador_rotar pow_hash me _).bloque_actual.id
        = (ganador_rotar pow_hash me _).bloque_anterior.id + 1
      rw [r1, r2]
    · show (ganador_rotar pow_hash me _).bloque_actual.objetivo
        = (ganador_rotar pow_hash me _).bloque_anterior.solucion
      rw [r1, r3]
/-! ## The chain along the steps of the network -/

theorem encadenado_inicio (s0 : SharedMemMiner) : Encadenado (primer_minero s0) [] := by
  refine ⟨List.chain'_nil, ?_, ?_, ?_⟩
  · intro b hb
    simp at hb
  · intro _
    rfl
  · intro b hb
    simp at hb

theorem encadenado_misma (s s2 : SharedMemMiner) (l : List Bloque)
    (h : Encadenado s l) (hm : MismaCadena s s2) : Encadenado s2 l := by
  obtain ⟨h1, h2, h3, h4⟩ := h
  obtain ⟨m1, m2, m3⟩ := hm
  refine ⟨h1, h2, ?_, ?_⟩
  · intro hl
    rw [m1]
    exact h3 hl
  · intro b hb
    rw [m1, m2, m3]
    exact h4 b hb

theorem encadenado_envio (pow_hash : Int → Int) (me mineros wallet : Int)
    (s : SharedMemMiner) (l : List Bloque) (c : Cierre) (h : Encadenado s l)
    (hc : ganador_cerrar pow_hash me mineros wallet true s = some c) :
    Encadenado c.segmento (l ++ [c.envio]) := by
  obtain ⟨h1, h2, h3, h4⟩ := h
  obtain ⟨e1, e2, e3, e4, e5, e6⟩ :=
    ganador_cerrar_exito_cadena pow_hash me mineros wallet s c hc
  refine ⟨?_, ?_, ?_, ?_⟩
  · refine List.Chain'.append h1 (List.chain'_singleton _) ?_
    intro x hx y hy
    simp only [List.head?_cons, Option.mem_def, Option.some.injEq] at hy
    subst hy
    obtain ⟨hcont, hid, hobj⟩ := h4 x hx
    exact ⟨by rw [e2, hobj, hcont.2.2.1], by rw [e1, hid, hcont.1]⟩
  · intro b hb
    cases l with
    | nil =>
      simp only [List.nil_append, List.head?_cons, Option.some.injEq] at hb
      subst hb
      rw [e1]
      exact h3 rfl
    | cons a resto =>
      simp only [List.cons_append, List.head?_cons, Option.some.injEq] at hb
      subst hb
      exact h2 _ rfl
  · intro hl
    simp at hl
  · intro b hb
    simp only [List.getLast?_append, List.getLast?_singleton] at hb
    have hb2 : some c.envio = some b := hb
    simp only [Option.some.injEq] at hb2
    subst hb2
    exact ⟨e4, e5, e6⟩

/-- An assignment of the registration loop leaves both block records and the
semaphores as they were. -/
theorem registro_asignar_marco (me wallet : Int) (i : Fin MAX_MINERS) (a : Asignacion)
    (s : SharedMemMiner) :
    (registro_asignar me wallet i a s).bloque_actual = s.bloque_actual ∧
    (registro_asignar me wallet i a s).bloque_anterior = s.bloque_anterior ∧
    (registro_asignar me wallet i a s).semaforos = s.semaforos := by
  cases a <;> exact ⟨rfl, rfl, rfl⟩

theorem registro_asignar_cadena (me wallet : Int) (i : Fin MAX_MINERS) (a : Asignacion)
    (s : SharedMemMiner) : MismaCadena s (registro_asignar me wallet i a s) := by
  obtain ⟨h1, h2, _⟩ := registro_asignar_marco me wallet i a s
  exact ⟨by rw [h1], by rw [h1], h2⟩

/-- Every reachable state of the network satisfies the invariant of the chain. -/
theorem alcanzable_encadenado (pow_hash : Int → Int) (s : SharedMemMiner) (l : List Bloque)
    (h : Alcanzable pow_hash s l) : Encadenado s l := by
  induction h with
  | inicio s0 => exact encadenado_inicio s0
  | registro s s2 l me wallet espera _ hstep ih =>
    exact encadenado_misma s s2 l ih (minero_registro_cadena me wallet s s2 espera hstep)
  | despertar s s2 l me wallet _ hstep ih =>
    exact encadenado_misma s s2 l ih (minero_despertar_cadena me wallet s s2 hstep)
  | escribir s l me wallet i a _ ih =>
    exact encadenado_misma s _ l ih (registro_asignar_cadena me wallet i a s)
  | cerrar_entrada s s2 l _ hstep ih =>
    exact encadenado_misma s s2 l ih (minero_cerrar_entrada_cadena s s2 hstep)
  | abrir_entrada s s2 l _ hstep ih =>
    exact encadenado_misma s s2 l ih (minero_abrir_entrada_cadena s s2 hstep)
  | tomar s s2 l _ hstep ih =>
    exact encadenado_misma s s2 l ih (tomar_ganador_cadena s s2 hstep)
  | soltar s l _ ih =>
    exact encadenado_misma s _ l ih ⟨rfl, rfl, rfl⟩
  | anunciar s s2 l me solucion _ hstep ih =>
    exact encadenado_misma s s2 l ih (ganador_anunciar_cadena me solucion s s2 hstep)
  | contar s l _ ih =>
    exact encadenado_misma s _ l ih ⟨rfl, rfl, rfl⟩
  | cerrar s l me mineros wallet c _ hstep ih =>
    exact encadenado_envio pow_hash me mineros wallet s l c ih hstep
  | cerrar_fallo s l me mineros wallet c _ hstep ih =>
    exact encadenado_misma s _ l ih
      (ganador_cerrar_fallo_cadena pow_hash me mineros wallet s c hstep)
  | votar s s2 l me _ hstep ih =>
    exact encadenado_misma s s2 l ih (perdedor_votar_cadena pow_hash me s s2 hstep)
  | salida s s2 l me m _ hstep ih =>
    exact encadenado_misma s s2 l ih (salir_cadena me s s2 m hstep)

/-- A whole run of `ganador` whose send succeeds is three steps of the network. -/
theorem alcanzable_ganador (pow_hash : Int → Int) (s : SharedMemMiner) (l : List Bloque)
    (me solucion wallet : Int) (c : Cierre) (h : Alcanzable pow_hash s l)
    (hg : ganador pow_hash me solucion wallet true s = some c) :
    Alcanzable pow_hash c.segmento (l ++ [c.envio]) := by
  unfold ganador at hg
  simp only [Option.bind_eq_bind, Option.bind_eq_some] at hg
  obtain ⟨s1, hs1, hc⟩ := hg
  exact Alcanzable.cerrar _ l me _ wallet c
    (Alcanzable.contar s1 l (Alcanzable.anunciar s s1 l me solucion h hs1)) hc

/-! ## Bounds on the votes of a message -/

/-- The votes of the message when the winner counted in `s` and tallies in `t`. -/
theorem votos_cotas (pow_hash : Int → Int) (me wallet : Int) (s t : SharedMemMiner)
    (hm : t.semaforos.mutex ≠ 0) (hcons : RosterConsistente t)
    (huno : ∀ i, (t.votos_mineros i).voto = 1 → t.pid i ≠ -1)
    (hreg : ∀ i, t.pid i ≠ -1 → (t.votos_mineros i).voto ≠ -1 → s.pid i ≠ -1) :
    ∃ c, ganador_cerrar pow_hash me (ganador_contar s).2 wallet true t = some c ∧
      c.retorno = true ∧
      c.envio.votos_positivos ≤ c.envio.total_votos ∧
      c.envio.total_votos ≤ (ganador_contar s).2 ∧
      c.envio.votos_positivos = (aprobaciones t : Int) ∧
      c.envio.total_votos = (votos_emitidos t : Int) ∧
      (ganador_contar s).2 = (registrados s : Int) := by
  have hcount : (ganador_contar s).2 = (registrados s : Int) := contar_mineros_eq s
  have h1 : aprobaciones t ≤ votos_emitidos t := by
    apply Finset.card_le_card
    intro i hi
    simp only [Finset.mem_filter, Finset.mem_univ, true_and] at hi ⊢
    refine ⟨?_, by rw [hi]; decide⟩
    rw [(hcons i).1]
    exact huno i hi
  have h2 : votos_emitidos t ≤ registrados s := by
    apply Finset.card_le_card
    intro i hi
    simp only [Finset.mem_filter, Finset.mem_univ, true_and] at hi ⊢
    refine hreg i ?_ hi.2
    rw [← (hcons i).1]
    exact hi.1
  refine ⟨_, ganador_cerrar_some pow_hash me _ wallet true _ hm, ?_⟩
  rw [if_pos rfl]
  obtain ⟨_, _, _, _, e5, e6, _⟩ := ganador_envio_campos (ganador_recuento me
    (ganador_contar s).2 { t with
      semaforos := { t.semaforos with mutex := t.semaforos.mutex - 1 } } wallet).1
  obtain ⟨r1, r2, _⟩ := ganador_recuento_campos me (ganador_contar s).2
    { t with semaforos := { t.semaforos with mutex := t.semaforos.mutex - 1 } } wallet
  have hvp : (ganador_envio (ganador_recuento me (ganador_contar s).2
      { t with semaforos := { t.semaforos with mutex := t.semaforos.mutex - 1 } }
        wallet).1).votos_positivos = (aprobaciones t : Int) := by
    rw [e6, r1]
    rfl
  have htv : (ganador_envio (ganador_recuento me (ganador_contar s).2
      { t with semaforos := { t.semaforos with mutex := t.semaforos.mutex - 1 } }
        wallet).1).total_votos = (votos_emitidos t : Int) := by
    rw [e5, r2]
    rfl
  refine ⟨rfl, ?_, ?_, hvp, htv, hcount⟩
  · rw [hvp, htv]
    exact_mod_cast h1
  · rw [htv, hcount]
    exact_mod_cast h2
/-! ## The roster along the steps of the network -/

theorem mismoRoster_trans (s t u : SharedMemMiner) (h1 : MismoRoster s t)
    (h2 : MismoRoster t u) : MismoRoster s u :=
  ⟨h2.1.trans h1.1, fun i => (h2.2.1 i).trans (h1.2.1 i), fun i => (h2.2.2 i).trans (h1.2.2 i)⟩

theorem rosterConsistente_mismo (s s2 : SharedMemMiner) (h : RosterConsistente s)
    (hm : MismoRoster s s2) : RosterConsistente s2 := by
  intro i
  rw [hm.1, hm.2.1 i, hm.2.2 i]
  exact h i

theorem ocupar_hueco_consistente (me wallet : Int) (s : SharedMemMiner)
    (h : RosterConsistente s) : RosterConsistente (ocupar_hueco me wallet s) := by
  rcases ocupar_hueco_casos me wallet s with ⟨_, hr⟩ | ⟨i, _, _, hr⟩
  · rw [hr]; exact h
  · rw [hr]
    intro k
    show (Function.update s.votos_mineros i _ k).pid = Function.update s.pid i me k ∧
      (Function.update s.monedas_mineros i _ k).pid = Function.update s.pid i me k
    by_cases hk : k = i
    · subst hk; simp only [Function.update_same, and_self]
    · simp only [Function.update_noteq hk]; exact h k

theorem salir_borrar_consistente (me : Int) (s : SharedMemMiner)
    (h : RosterConsistente s) : RosterConsistente (salir_borrar me s) := by
  rcases salir_borrar_casos me s with ⟨_, hr⟩ | ⟨i, _, _, hr⟩
  · rw [hr]; exact h
  · rw [hr]
    intro k
    show (Function.update s.votos_mineros i _ k).pid = Function.update s.pid i (-1) k ∧
      (Function.update s.monedas_mineros i _ k).pid = Function.update s.pid i (-1) k
    by_cases hk : k = i
    · subst hk; simp only [Function.update_same, and_self]
    · simp only [Function.update_noteq hk]; exact h k

theorem primer_minero_tablas (s0 : SharedMemMiner) (i : Fin MAX_MINERS) :
    (primer_minero s0).pid i = -1 ∧
    (primer_minero s0).votos_mineros i = { pid := -1, voto := -1 } ∧
    (primer_minero s0).monedas_mineros i = { pid := -1, monedas := -1 } := by
  have key := para_cada_inv MAX_MINERS (fun i (s : SharedMemMiner) =>
    { s with
      pid := Function.update s.pid i (-1)
      votos_mineros := Function.update s.votos_mineros i { pid := -1, voto := -1 }
      monedas_mineros := Function.update s.monedas_mineros i { pid := -1, monedas := -1 } })
    (fun n t => ∀ k : Fin MAX_MINERS, k.val < n →
      t.pid k = -1 ∧ t.votos_mineros k = { pid := -1, voto := -1 } ∧
      t.monedas_mineros k = { pid := -1, monedas := -1 })
    { s0 with
      semaforos := { mutex := 1 - 1, mutex_ronda := 1, ganador := 1 },
      waiters_count := 0, can_enter := true, entry_mutex := 1, entry_gate := 0 }
    (fun k hk => absurd hk (Nat.not_lt_zero _))
    (fun n hn t ht k hk => by
      by_cases hkn : k = ⟨n, hn⟩
      · subst hkn
        simp only [Function.update_same, and_self]
      · simp only [Function.update_noteq hkn]
        refine ht k ?_
        have : k.val ≠ n := fun e => hkn (Fin.ext e)
        omega)
  exact key i i.isLt

theorem rosterConsistente_inicio (s0 : SharedMemMiner) :
    RosterConsistente (primer_minero s0) := by
  intro i
  obtain ⟨h1, h2, h3⟩ := primer_minero_tablas s0 i
  rw [h1, h2, h3]
  exact ⟨rfl, rfl⟩

/-- A registration that nothing interrupts keeps the three tables in step. -/
theorem minero_registro_consistente (me wallet : Int) (s s2 : SharedMemMiner) (espera : Bool)
    (ih : RosterConsistente s) (hstep : minero_registro me wallet s = some (s2, espera)) :
    RosterConsistente s2 := by
  unfold minero_registro at hstep
  by_cases hreg : esta_registrado me s = true
  · simp only [hreg, if_true, Option.some.injEq, Prod.mk.injEq] at hstep
    rw [← hstep.1]; exact ih
  · simp only [hreg, Bool.false_eq_true, if_false, Option.bind_eq_bind, Option.bind_eq_some,
      sem_wait_eq_some, Option.pure_def] at hstep
    obtain ⟨m, _, hstep⟩ := hstep
    by_cases hcan : s.can_enter = true
    · simp only [hcan, if_true, Option.some.injEq, Prod.mk.injEq] at hstep
      rw [← hstep.1]
      intro i
      exact ocupar_hueco_consistente me wallet { s with entry_mutex := m, can_enter := true }
        (fun k => ih k) i
    · simp only [hcan, Bool.false_eq_true, if_false, Option.some.injEq, Prod.mk.injEq] at hstep
      rw [← hstep.1]; exact ih

/-! ## Search ranges -/

theorem thread_data_start (P N t j : Int) :
    (thread_data P N t j).start = j * Int.tdiv P N := rfl

theorem thread_data_end (P N t j : Int) :
    (thread_data P N t j).end_ = if j = N - 1 then P else (j + 1) * Int.tdiv P N := rfl

theorem rango_mono (r j k : Int) (hr : 0 ≤ r) (h : j ≤ k) : j * r ≤ k * r :=
  mul_le_mul_of_nonneg_right h hr

theorem rango_total (P N : Int) (hP : 0 ≤ P) (hN : 1 ≤ N) :
    0 ≤ Int.tdiv P N ∧ N * Int.tdiv P N ≤ P := by
  have hN0 : 0 ≤ N := by omega
  rw [Int.tdiv_eq_ediv hP hN0]
  exact ⟨Int.ediv_nonneg hP hN0, Int.mul_ediv_self_le (by omega)⟩

/-- A worker's range is well formed and lies inside `[0, POW_LIMIT)`. -/
theorem rango_dentro (P N t j : Int) (hP : 0 ≤ P) (hN : 1 ≤ N) (hj0 : 0 ≤ j) (hjN : j < N) :
    0 ≤ (thread_data P N t j).start ∧
    (thread_data P N t j).start ≤ (thread_data P N t j).end_ ∧
    (thread_data P N t j).end_ ≤ P := by
  obtain ⟨hr, hNr⟩ := rango_total P N hP hN
  rw [thread_data_start, thread_data_end]
  have h1 : j * Int.tdiv P N ≤ (j + 1) * Int.tdiv P N := rango_mono _ _ _ hr (by omega)
  have h2 : (j + 1) * Int.tdiv P N ≤ N * Int.tdiv P N := rango_mono _ _ _ hr (by omega)
  refine ⟨mul_nonneg hj0 hr, ?_, ?_⟩
  · split
    · exact le_trans h1 (le_trans h2 hNr)
    · exact h1
  · split
    · exact le_refl P
    · exact le_trans h2 hNr

/-- Two different workers have disjoint ranges. -/
theorem rango_disjunto (P N t j k x : Int) (hP : 0 ≤ P) (hN : 1 ≤ N) (hjk : j < k)
    (hkN : k < N)
    (hj : (thread_data P N t j).start ≤ x ∧ x < (thread_data P N t j).end_)
    (hk : (thread_data P N t k).start ≤ x ∧ x < (thread_data P N t k).end_) : False := by
  obtain ⟨hr, _⟩ := rango_total P N hP hN
  rw [thread_data_start, thread_data_end] at hj hk
  rw [if_neg (show ¬ j = N - 1 by omega)] at hj
  have h1 : (j + 1) * Int.tdiv P N ≤ k * Int.tdiv P N := rango_mono _ _ _ hr (by omega)
  omega

/-- Every candidate below `POW_LIMIT` lies in the range of some worker. -/
theorem rango_cubre (P N t x : Int) (hN : 1 ≤ N) (hx0 : 0 ≤ x) (hxP : x < P) :
    ∃ j, 0 ≤ j ∧ j < N ∧
      (thread_data P N t j).start ≤ x ∧ x < (thread_data P N t j).end_ := by
  have hP : 0 ≤ P := by omega
  obtain ⟨hr, _⟩ := rango_total P N hP hN
  by_cases hc : 0 < Int.tdiv P N ∧ x / Int.tdiv P N < N - 1
  · obtain ⟨hpos, hlt⟩ := hc
    refine ⟨x / Int.tdiv P N, Int.ediv_nonneg hx0 hr, by omega, ?_, ?_⟩
    · rw [thread_data_start]
      exact Int.ediv_mul_le x (by omega)
    · rw [thread_data_end, if_neg (by omega)]
      exact Int.lt_ediv_add_one_mul_self x hpos
  · refine ⟨N - 1, by omega, by omega, ?_, ?_⟩
    · rw [thread_data_start]
      by_cases hz : Int.tdiv P N = 0
      · rw [hz]; simpa using hx0
      · have hpos : 0 < Int.tdiv P N := by omega
        have hge : N - 1 ≤ x / Int.tdiv P N := by
          by_contra hcon
          exact hc ⟨hpos, by omega⟩
        exact le_trans (rango_mono _ _ _ hr hge) (Int.ediv_mul_le x (by omega))
    · rw [thread_data_end, if_pos rfl]
      exact hxP
/-! ## Worker threads -/

theorem marcar_voto_registrado (me v : Int) (s : SharedMemMiner) (i : Fin MAX_MINERS)
    (hi : (s.votos_mineros i).pid = me) (hotros : ∀ j, j ≠ i → (s.votos_mineros j).pid ≠ me) :
    marcar_voto me v s = { s with
      votos_mineros := Function.update s.votos_mineros i { pid := me, voto := v } } := by
  rcases marcar_voto_casos me v s with ⟨hno, _⟩ | ⟨k, hk, _, hr⟩
  · exact absurd hi (hno i)
  · have hki : k = i := by
      by_contra hne
      exact hotros k hne hk
    subst hki
    rw [hr, ← hi]

theorem perdedor_votar_some (pow_hash : Int → Int) (me : Int) (s : SharedMemMiner)
    (i : Fin MAX_MINERS) (hm : s.semaforos.mutex ≠ 0)
    (hi : (s.votos_mineros i).pid = me) (hotros : ∀ j, j ≠ i → (s.votos_mineros j).pid ≠ me) :
    perdedor_votar pow_hash me s = some { s with
      votos_mineros := Function.update s.votos_mineros i
        { pid := me,
          voto := if s.bloque_actual.objetivo = pow_hash s.bloque_actual.solucion then 1
            else 0 } } := by
  unfold perdedor_votar
  rw [sem_wait_pos s.semaforos.mutex hm]
  simp only [Option.bind_eq_bind, Option.some_bind, Option.pure_def, Option.some.injEq]
  have hmm : sem_post (s.semaforos.mutex - 1) = s.semaforos.mutex := by
    unfold sem_post
    omega
  by_cases hh : s.bloque_actual.objetivo = pow_hash s.bloque_actual.solucion
  · rw [if_pos hh, if_pos hh]
    rw [marcar_voto_registrado me 1
      { s with semaforos := { s.semaforos with mutex := s.semaforos.mutex - 1 } } i hi hotros]
    simp only [hmm]
  · rw [if_neg hh, if_neg hh]
    rw [marcar_voto_registrado me 0
      { s with semaforos := { s.semaforos with mutex := s.semaforos.mutex - 1 } } i hi hotros]
    simp only [hmm]
/-! ## A new region and its first round -/

set_option maxRecDepth 20000 in
theorem primer_minero_eq (s0 : SharedMemMiner) :
    primer_minero s0 =
      { pid := fun _ => -1
        votos_mineros := fun _ => { pid := -1, voto := -1 }
        monedas_mineros := fun _ => { pid := -1, monedas := -1 }
        bloque_anterior := { s0.bloque_anterior with
          id := -1, objetivo := 0, solucion := 0, ganador := -1,
          total_votos := -1, votos_positivos := -1 }
        bloque_actual := { s0.bloque_actual with
          id := 1, objetivo := 0, solucion := 0, ganador := -1,
          total_votos := -1, votos_positivos := -1 }
        semaforos := { mutex := 1, mutex_ronda := 0, ganador := 1 }
        entry_mutex := 1
        entry_gate := 0
        waiters_count := 0
        can_enter := true } := by
  have key := para_cada_inv MAX_MINERS (fun i (s : SharedMemMiner) =>
    { s with
      pid := Function.update s.pid i (-1)
      votos_mineros := Function.update s.votos_mineros i { pid := -1, voto := -1 }
      monedas_mineros := Function.update s.monedas_mineros i { pid := -1, monedas := -1 } })
    (fun n t => t =
      { s0 with
        semaforos := { mutex := 1 - 1, mutex_ronda := 1, ganador := 1 },
        waiters_count := 0, can_enter := true, entry_mutex := 1, entry_gate := 0,
        pid := fun k => if k.val < n then -1 else s0.pid k,
        votos_mineros := fun k =>
          if k.val < n then { pid := -1, voto := -1 } else s0.votos_mineros k,
        monedas_mineros := fun k =>
          if k.val < n then { pid := -1, monedas := -1 } else s0.monedas_mineros k })
    { s0 with
      semaforos := { mutex := 1 - 1, mutex_ronda := 1, ganador := 1 },
      waiters_count := 0, can_enter := true, entry_mutex := 1, entry_gate := 0 }
    (by simp only [Nat.not_lt_zero, if_false])
    (fun n hn t ht => by
      subst ht
      simp only
      rw [update_hasta s0.pid (fun _ => -1) n hn (-1) rfl,
        update_hasta s0.votos_mineros (fun _ => { pid := -1, voto := -1 }) n hn _ rfl,
        update_hasta s0.monedas_mineros (fun _ => { pid := -1, monedas := -1 }) n hn _ rfl])
  simp only at key
  unfold primer_minero
  simp only
  rw [key]
  simp only [hasta_todo]
  rfl

theorem card_unico {N : Nat} (p : Fin N → Prop) [DecidablePred p] (i : Fin N) (hi : p i)
    (ho : ∀ j, j ≠ i → ¬ p j) : (Finset.univ.filter p).card = 1 := by
  have hset : Finset.univ.filter p = {i} := by
    ext j
    simp only [Finset.mem_filter, Finset.mem_univ, true_and, Finset.mem_singleton]
    constructor
    · intro hj
      by_contra hne
      exact ho j hne hj
    · intro hj
      rw [hj]
      exact hi
  rw [hset, Finset.card_singleton]

set_option maxRecDepth 20000 in
theorem ganador_anunciar_registrado (me solucion : Int) (s : SharedMemMiner)
    (i : Fin MAX_MINERS) (hm : s.semaforos.mutex ≠ 0)
    (hi : (s.votos_mineros i).pid = me) (hotros : ∀ j, j ≠ i → (s.votos_mineros j).pid ≠ me) :
    ganador_anunciar me solucion s = some { s with
      bloque_actual := { s.bloque_actual with solucion := solucion, ganador := me }
      votos_mineros := Function.update
        (fun j => ({ (s.votos_mineros j) with voto := 0 } : Voto)) i
        { pid := me, voto := 1 } } := by
  have hmm : s.semaforos.mutex - 1 + 1 = s.semaforos.mutex := by omega
  have e0 : ganador_anunciar me solucion s = some
      ((fun r : SharedMemMiner =>
          { r with semaforos := { r.semaforos with mutex := r.semaforos.mutex + 1 } })
        (marcar_voto me 1
          ((fun r : SharedMemMiner =>
              { r with bloque_actual := { r.bloque_actual with
                  solucion := solucion, ganador := me } })
            (limpiar_votos
              { s with semaforos := { s.semaforos with mutex := s.semaforos.mutex - 1 } })))) := by
    unfold ganador_anunciar
    rw [sem_wait_pos s.semaforos.mutex hm]
    rfl
  rw [e0, limpiar_votos_eq]
  have e2 := marcar_voto_registrado me 1
    { s with
      semaforos := { s.semaforos with mutex := s.semaforos.mutex - 1 }
      votos_mineros := fun j => { (s.votos_mineros j) with voto := 0 }
      bloque_actual := { s.bloque_actual with solucion := solucion, ganador := me } }
    i hi hotros
  simp only at e2 ⊢
  rw [e2]
  simp only [hmm]

theorem ganador_rotar_puerta (pow_hash : Int → Int) (me : Int) (s : SharedMemMiner) :
    (ganador_rotar pow_hash me s).entry_mutex = s.entry_mutex ∧
    (ganador_rotar pow_hash me s).entry_gate = s.entry_gate ∧
    (ganador_rotar pow_hash me s).waiters_count = s.waiters_count ∧
    (ganador_rotar pow_hash me s).can_enter = s.can_enter := by
  rw [ganador_rotar_eq]
  exact ⟨rfl, rfl, rfl, rfl⟩

set_option maxRecDepth 20000 in
/-- What the second critical section of `ganador` leaves when the send succeeds. -/
theorem ganador_cerrar_campos (pow_hash : Int → Int) (me mineros wallet : Int)
    (t : SharedMemMiner) (hm : t.semaforos.mutex ≠ 0) :
    ∃ c, ganador_cerrar pow_hash me mineros wallet true t = some c ∧
      c.retorno = true ∧
      c.envio.id = t.bloque_actual.id ∧
      c.envio.objetivo = t.bloque_actual.objetivo ∧
      c.envio.solucion = t.bloque_actual.solucion ∧
      c.envio.ganador = t.bloque_actual.ganador ∧
      c.envio.total_votos = (votos_emitidos t : Int) ∧
      c.envio.votos_positivos = (aprobaciones t : Int) ∧
      (∀ j, c.envio.monedas_mineros j =
        if (t.votos_mineros j).voto ≠ -1 then
          (if (aprobaciones t : Int) > Int.tdiv mineros 2 ∧ (t.monedas_mineros j).pid = me then
            { (t.monedas_mineros j) with monedas := (t.monedas_mineros j).monedas + 1 }
          else t.monedas_mineros j)
        else { pid := 0, monedas := 0 }) ∧
      c.wallet = (if (aprobaciones t : Int) > Int.tdiv mineros 2 then
          wallet + ((Finset.univ.filter (fun i => (t.monedas_mineros i).pid = me)).card : Int)
        else wallet) ∧
      c.segmento.bloque_actual.id = t.bloque_actual.id + 1 ∧
      c.segmento.bloque_actual.objetivo = t.bloque_actual.solucion ∧
      c.segmento.semaforos = t.semaforos ∧
      c.segmento.pid = t.pid ∧
      c.segmento.entry_mutex = t.entry_mutex ∧
      c.segmento.entry_gate = t.entry_gate ∧
      c.segmento.waiters_count = t.waiters_count ∧
      c.segmento.can_enter = t.can_enter := by
  refine ⟨_, ganador_cerrar_some pow_hash me mineros wallet true t hm, ?_⟩
  rw [if_pos rfl]
  obtain ⟨e1, e2, e3, e4, e5, e6, _, e8⟩ := ganador_envio_campos (ganador_recuento me
    mineros { t with
      semaforos := { t.semaforos with mutex := t.semaforos.mutex - 1 } } wallet).1
  obtain ⟨r1, r2, _, r4, r5, r6, r7, _, _, r10, r11, _, r13, r14, r15, r16⟩ :=
    ganador_recuento_campos me mineros
      { t with semaforos := { t.semaforos with mutex := t.semaforos.mutex - 1 } } wallet
  obtain ⟨m1, m2⟩ := ganador_recuento_monedas me mineros
    { t with semaforos := { t.semaforos with mutex := t.semaforos.mutex - 1 } } wallet
  obtain ⟨_, q2, q3, _, _, q6, _⟩ := ganador_rotar_campos pow_hash me (ganador_recuento me
    mineros { t with
      semaforos := { t.semaforos with mutex := t.semaforos.mutex - 1 } } wallet).1
  obtain ⟨p1, p2, p3, p4⟩ := ganador_rotar_puerta pow_hash me (ganador_recuento me
    mineros { t with
      semaforos := { t.semaforos with mutex := t.semaforos.mutex - 1 } } wallet).1
  have hmm : t.semaforos.mutex - 1 + 1 = t.semaforos.mutex := by omega
  have ha : aprobaciones
      { t with semaforos := { t.semaforos with mutex := t.semaforos.mutex - 1 } }
      = aprobaciones t := rfl
  have hv : votos_emitidos
      { t with semaforos := { t.semaforos with mutex := t.semaforos.mutex - 1 } }
      = votos_emitidos t := rfl
  rw [ha] at r1 m1 m2
  rw [hv] at r2
  have g1 := e1.trans r4
  have g2 := e2.trans r5
  have g3 := e3.trans r6
  have g4 := e4.trans r7
  have g5 := e5.trans r2
  have g6 := e6.trans r1
  have g9 := q2.trans (congrArg (· + 1) r4)
  have g10 := q3.trans r6
  have g12 := q6.trans r10
  have g13 := p1.trans r13
  have g14 := p2.trans r14
  have g15 := p3.trans r15
  have g16 := p4.trans r16
  have g7 : ∀ j, (ganador_envio (ganador_recuento me mineros
      { t with semaforos := { t.semaforos with mutex := t.semaforos.mutex - 1 } }
        wallet).1).monedas_mineros j =
      if (t.votos_mineros j).voto ≠ -1 then
        (if (aprobaciones t : Int) > Int.tdiv mineros 2 ∧ (t.monedas_mineros j).pid = me then
          { (t.monedas_mineros j) with monedas := (t.monedas_mineros j).monedas + 1 }
        else t.monedas_mineros j)
      else { pid := 0, monedas := 0 } := by
    intro j
    rw [e8 j, r11, m1]
    dsimp only
    by_cases hvj : (t.votos_mineros j).voto = -1
    · simp only [hvj, ne_eq, not_true_eq_false, if_false]
    · by_cases hap : (aprobaciones t : Int) > Int.tdiv mineros 2
      · by_cases hp : (t.monedas_mineros j).pid = me
        · simp only [hvj, hap, hp, ne_eq, not_false_eq_true, if_true, and_self]
        · simp only [hvj, hap, hp, ne_eq, not_false_eq_true, if_true, if_false, and_false]
      · simp only [hvj, hap, ne_eq, not_false_eq_true, if_true, if_false, false_and]
  clear e1 e2 e3 e4 e5 e6 e8 r1 r2 r4 r5 r6 r7 r10 r11 r13 r14 r15 r16 m1 q2 q3 q6 p1 p2 p3 p4
  dsimp only at g1 g2 g3 g4 g5 g6 g7 g9 g10 g12 g13 g14 g15 g16 m2 ⊢
  rw [hmm]
  exact ⟨rfl, g1, g2, g3, g4, g5, g6, g7, m2, g9, g10, rfl, g12, g13, g14, g15, g16⟩

set_option maxRecDepth 20000 in
/-- The first registration in a new region takes slot 0. -/
theorem registro_inicial (s0 : SharedMemMiner) (me wallet : Int) (hme : me ≠ -1) :
    ∃ s1, minero_registro me wallet (primer_minero s0) = some (s1, false) ∧
      RegistradoEn s1 me 0 ∧
      (∀ j, j ≠ 0 → s1.pid j = -1 ∧ (s1.votos_mineros j).pid = -1 ∧
        s1.monedas_mineros j = { pid := -1, monedas := -1 }) ∧
      s1.monedas_mineros 0 = { pid := me, monedas := wallet } ∧
      s1.bloque_actual.id = 1 ∧ s1.bloque_actual.objetivo = 0 ∧
      s1.semaforos = { mutex := 1, mutex_ronda := 0, ganador := 1 } ∧
      s1.entry_mutex = 1 ∧ s1.entry_gate = 0 ∧ s1.waiters_count = 0 ∧
      s1.can_enter = true := by
  have hno : ∀ i, (primer_minero s0).pid i ≠ me := by
    intro i
    rw [(primer_minero_tablas s0 i).1]
    exact fun h => hme h.symm
  have hem : (primer_minero s0).entry_mutex ≠ 0 := by
    rw [primer_minero_eq]
    exact Nat.one_ne_zero
  have hcan : (primer_minero s0).can_enter = true := by
    rw [primer_minero_eq]
  have h := minero_registro_some me wallet (primer_minero s0) hno hem
  rw [if_pos hcan] at h
  refine ⟨_, h, ?_⟩
  · rcases ocupar_hueco_casos me wallet
      { (primer_minero s0) with entry_mutex := (primer_minero s0).entry_mutex - 1 } with
      ⟨hfull, _⟩ | ⟨i, hi, hmin, hr⟩
    · exact absurd (primer_minero_tablas s0 0).1 (hfull 0)
    · have hi0 : i = 0 := by
        by_contra hne
        have hlt : (0 : Fin MAX_MINERS) < i := by
          rw [Fin.lt_def]
          have : i.val ≠ 0 := fun h => hne (Fin.ext h)
          simp only [Fin.val_zero]
          omega
        exact hmin 0 hlt (primer_minero_tablas s0 0).1
      subst hi0
      rw [hr]
      unfold RegistradoEn
      rw [primer_minero_eq]
      dsimp only
      refine ⟨⟨?_, ?_, ?_, ?_⟩, ?_, ?_, rfl, rfl, rfl, rfl, rfl, rfl, rfl⟩
      · rw [Function.update_same]
      · rw [Function.update_same]
      · rw [Function.update_same]
      · intro j hj
        rw [Function.update_noteq hj, Function.update_noteq hj, Function.update_noteq hj]
        exact ⟨fun h => hme h.symm, fun h => hme h.symm, fun h => hme h.symm⟩
      · intro j hj
        rw [Function.update_noteq hj, Function.update_noteq hj, Function.update_noteq hj]
        exact ⟨rfl, rfl, rfl⟩
      · rw [Function.update_same]

set_option maxRecDepth 20000 in
/-- A round won by the only registered miner. -/
theorem ganador_unico (pow_hash : Int → Int) (me solucion wallet : Int) (s : SharedMemMiner)
    (i : Fin MAX_MINERS) (hme : me ≠ -1) (hm : s.semaforos.mutex ≠ 0)
    (hreg : RegistradoEn s me i)
    (hsolo : ∀ j, j ≠ i → s.pid j = -1 ∧ (s.votos_mineros j).pid = -1) :
    ∃ sa c, ganador_anunciar me solucion s = some sa ∧
      (∀ j, (sa.votos_mineros j).voto = if j = i then 1 else 0) ∧
      sa.bloque_actual.solucion = solucion ∧ sa.bloque_actual.ganador = me ∧
      ganador pow_hash me solucion wallet true s = some c ∧
      c.retorno = true ∧
      c.envio.id = s.bloque_actual.id ∧
      c.envio.objetivo = s.bloque_actual.objetivo ∧
      c.envio.solucion = solucion ∧
      c.envio.ganador = me ∧
      c.envio.total_votos = 1 ∧
      c.envio.votos_positivos = 1 ∧
      c.envio.monedas_mineros i
        = { pid := me, monedas := (s.monedas_mineros i).monedas + 1 } ∧
      (∀ j, j ≠ i → c.envio.monedas_mineros j = s.monedas_mineros j) ∧
      c.wallet = wallet + 1 ∧
      c.segmento.bloque_actual.id = s.bloque_actual.id + 1 ∧
      c.segmento.bloque_actual.objetivo = solucion := by
  have hsa := ganador_anunciar_registrado me solucion s i hm hreg.2.1
    (fun j hj => (hreg.2.2.2 j hj).2.1)
  obtain ⟨c, hc, c1, c2, c3, c4, c5, c6, c7, c8, c9, c10, c11, _⟩ :=
    ganador_cerrar_campos pow_hash me
      (contar_mineros { s with
        bloque_actual := { s.bloque_actual with solucion := solucion, ganador := me }
        votos_mineros := Function.update
          (fun j => ({ (s.votos_mineros j) with voto := 0 } : Voto)) i
          { pid := me, voto := 1 } })
      wallet
      { s with
        bloque_actual := { s.bloque_actual with solucion := solucion, ganador := me }
        votos_mineros := Function.update
          (fun j => ({ (s.votos_mineros j) with voto := 0 } : Voto)) i
          { pid := me, voto := 1 }
        semaforos := { s.semaforos with ganador := sem_post s.semaforos.ganador } }
      hm
  have hg : ganador pow_hash me solucion wallet true s = some c := by
    unfold ganador
    rw [hsa]
    exact hc
  have hmin : contar_mineros { s with
        bloque_actual := { s.bloque_actual with solucion := solucion, ganador := me }
        votos_mineros := Function.update
          (fun j => ({ (s.votos_mineros j) with voto := 0 } : Voto)) i
          { pid := me, voto := 1 } } = 1 := by
    rw [contar_mineros_eq]
    have := card_unico (fun j => s.pid j ≠ -1) i (by show s.pid i ≠ -1; rw [hreg.1]; exact hme)
      (fun j hj => not_not.mpr (hsolo j hj).1)
    exact_mod_cast this
  have hap : aprobaciones { s with
        bloque_actual := { s.bloque_actual with solucion := solucion, ganador := me }
        votos_mineros := Function.update
          (fun j => ({ (s.votos_mineros j) with voto := 0 } : Voto)) i
          { pid := me, voto := 1 }
        semaforos := { s.semaforos with ganador := sem_post s.semaforos.ganador } } = 1 := by
    unfold aprobaciones
    apply card_unico _ i
    · dsimp only
      rw [Function.update_same]
    · intro j hj
      dsimp only
      rw [Function.update_noteq hj]
      show ¬ (0 : Int) = 1
      decide
  have hve : votos_emitidos { s with
        bloque_actual := { s.bloque_actual with solucion := solucion, ganador := me }
        votos_mineros := Function.update
          (fun j => ({ (s.votos_mineros j) with voto := 0 } : Voto)) i
          { pid := me, voto := 1 }
        semaforos := { s.semaforos with ganador := sem_post s.semaforos.ganador } } = 1 := by
    unfold votos_emitidos
    apply card_unico _ i
    · dsimp only
      rw [Function.update_same]
      exact ⟨hme, show (1 : Int) ≠ -1 by decide⟩
    · intro j hj
      dsimp only
      rw [Function.update_noteq hj]
      intro h
      exact h.1 (hsolo j hj).2
  rw [hap, hmin] at c8 c9
  rw [hap] at c7
  rw [hve] at c6
  have hgt : ((1 : Nat) : Int) > Int.tdiv 1 2 := by decide
  rw [if_pos hgt, registradoEn_card s me i hreg] at c9
  refine ⟨_, c, hsa, ?_, rfl, rfl, hg, c1, c2, c3, c4, c5, ?_, ?_, ?_, ?_, ?_, c10, c11⟩
  · intro j
    dsimp only
    by_cases hj : j = i
    · subst hj
      rw [Function.update_same, if_pos rfl]
    · rw [Function.update_noteq hj, if_neg hj]
  · exact_mod_cast c6
  · exact_mod_cast c7
  · have h := c8 i
    dsimp only at h
    rw [Function.update_same] at h
    rw [h, if_pos (show (1 : Int) ≠ -1 by decide), if_pos ⟨hgt, hreg.2.2.1⟩, hreg.2.2.1]
  · intro j hj
    have h := c8 j
    dsimp only at h
    rw [Function.update_noteq hj] at h
    rw [h, if_pos (show (0 : Int) ≠ -1 by decide), if_neg (fun hh => (hreg.2.2.2 j hj).2.2 hh.2)]
  · exact_mod_cast c9
/-! ## The gate and the semaphores along a round -/

theorem mismaPuerta_refl (s : SharedMemMiner) : MismaPuerta s s := ⟨rfl, rfl, rfl, rfl⟩

theorem mismaPuerta_trans (s t u : SharedMemMiner) (h1 : MismaPuerta s t)
    (h2 : MismaPuerta t u) : MismaPuerta s u :=
  ⟨h2.1.trans h1.1, h2.2.1.trans h1.2.1, h2.2.2.1.trans h1.2.2.1, h2.2.2.2.trans h1.2.2.2⟩

theorem marcar_voto_marco (me v : Int) (s : SharedMemMiner) :
    MismaPuerta s (marcar_voto me v s) ∧ (marcar_voto me v s).semaforos = s.semaforos := by
  rcases marcar_voto_casos me v s with ⟨_, hr⟩ | ⟨i, _, _, hr⟩
  · rw [hr]; exact ⟨mismaPuerta_refl s, rfl⟩
  · rw [hr]; exact ⟨⟨rfl, rfl, rfl, rfl⟩, rfl⟩

theorem perdedor_votar_marco (pow_hash : Int → Int) (me : Int) (s s2 : SharedMemMiner)
    (h : perdedor_votar pow_hash me s = some s2) :
    MismaPuerta s s2 ∧ s2.semaforos = s.semaforos := by
  unfold perdedor_votar at h
  simp only [Option.bind_eq_bind, Option.bind_eq_some, sem_wait_eq_some, Option.pure_def,
    Option.some.injEq] at h
  obtain ⟨m, ⟨hm0, hm⟩, h⟩ := h
  have hmm : sem_post m = s.semaforos.mutex := by
    unfold sem_post
    omega
  rw [← h]
  split
  · obtain ⟨a, b⟩ := marcar_voto_marco me 1
      { s with semaforos := { s.semaforos with mutex := m } }
    refine ⟨a, ?_⟩
    dsimp only
    rw [b]
    dsimp only
    rw [hmm]
  · obtain ⟨a, b⟩ := marcar_voto_marco me 0
      { s with semaforos := { s.semaforos with mutex := m } }
    refine ⟨a, ?_⟩
    dsimp only
    rw [b]
    dsimp only
    rw [hmm]

theorem perdedor_votar_existe (pow_hash : Int → Int) (me : Int) (s : SharedMemMiner)
    (hm : s.semaforos.mutex ≠ 0) : ∃ s2, perdedor_votar pow_hash me s = some s2 := by
  unfold perdedor_votar
  rw [sem_wait_pos s.semaforos.mutex hm]
  exact ⟨_, rfl⟩

set_option maxRecDepth 20000 in
theorem ganador_anunciar_marco (me solucion : Int) (s s2 : SharedMemMiner)
    (h : ganador_anunciar me solucion s = some s2) :
    MismaPuerta s s2 ∧ s2.semaforos = s.semaforos := by
  unfold ganador_anunciar at h
  simp only [Option.bind_eq_bind, Option.bind_eq_some, sem_wait_eq_some, Option.pure_def,
    Option.some.injEq] at h
  obtain ⟨m, ⟨hm0, hm⟩, h⟩ := h
  have hmm : sem_post m = s.semaforos.mutex := by
    unfold sem_post
    omega
  rw [← h, limpiar_votos_eq]
  obtain ⟨a, b⟩ := marcar_voto_marco me 1
    { s with
      semaforos := { s.semaforos with mutex := m }
      votos_mineros := fun j => { (s.votos_mineros j) with voto := 0 }
      bloque_actual := { s.bloque_actual with solucion := solucion, ganador := me } }
  refine ⟨a, ?_⟩
  dsimp only at b ⊢
  rw [b, hmm]

theorem ganador_anunciar_existe (me solucion : Int) (s : SharedMemMiner)
    (hm : s.semaforos.mutex ≠ 0) : ∃ s2, ganador_anunciar me solucion s = some s2 := by
  unfold ganador_anunciar
  rw [sem_wait_pos s.semaforos.mutex hm]
  exact ⟨_, rfl⟩

set_option maxRecDepth 20000 in
theorem ganador_cerrar_marco (pow_hash : Int → Int) (me mineros wallet : Int)
    (mq_send_ok : Bool) (s : SharedMemMiner) (c : Cierre)
    (h : ganador_cerrar pow_hash me mineros wallet mq_send_ok s = some c) :
    MismaPuerta s c.segmento ∧ c.segmento.semaforos.ganador = s.semaforos.ganador ∧
    c.retorno = mq_send_ok ∧ (mq_send_ok = true → c.segmento.semaforos = s.semaforos) := by
  by_cases hm : s.semaforos.mutex = 0
  · rw [ganador_cerrar_none pow_hash me mineros wallet mq_send_ok s hm] at h
    exact Option.noConfusion h
  · rw [ganador_cerrar_some pow_hash me mineros wallet mq_send_ok s hm] at h
    obtain ⟨_, _, _, _, _, _, _, _, _, _, _, r12, r13, r14, r15, r16⟩ :=
      ganador_recuento_campos me mineros
        { s with semaforos := { s.semaforos with mutex := s.semaforos.mutex - 1 } } wallet
    obtain ⟨p1, p2, p3, p4⟩ := ganador_rotar_puerta pow_hash me (ganador_recuento me
      mineros { s with
        semaforos := { s.semaforos with mutex := s.semaforos.mutex - 1 } } wallet).1
    have hmm : s.semaforos.mutex - 1 + 1 = s.semaforos.mutex := by omega
    cases mq_send_ok with
    | true =>
      rw [if_pos rfl] at h
      simp only [Option.some.injEq] at h
      rw [← h]
      dsimp only
      rw [hmm]
      exact ⟨⟨p1.trans r13, p2.trans r14, p3.trans r15, p4.trans r16⟩, rfl, rfl, fun _ => rfl⟩
    | false =>
      simp only [Bool.false_eq_true, if_false, Option.some.injEq] at h
      rw [← h]
      dsimp only
      refine ⟨⟨r13, r14, r15, r16⟩, ?_, rfl, fun hf => Bool.noConfusion hf⟩
      rw [r12]

theorem ganador_marco (pow_hash : Int → Int) (me solucion wallet : Int)
    (mq_send_ok : Bool) (s : SharedMemMiner) (c : Cierre)
    (h : ganador pow_hash me solucion wallet mq_send_ok s = some c) :
    MismaPuerta s c.segmento ∧ c.segmento.semaforos.ganador = s.semaforos.ganador + 1 ∧
    c.retorno = mq_send_ok ∧
    (mq_send_ok = true → c.segmento.semaforos.mutex = s.semaforos.mutex) := by
  unfold ganador at h
  simp only [Option.bind_eq_bind, Option.bind_eq_some] at h
  obtain ⟨s1, hs1, hc⟩ := h
  obtain ⟨a1, a2⟩ := ganador_anunciar_marco me solucion s s1 hs1
  obtain ⟨b1, b2, b3, b4⟩ := ganador_cerrar_marco pow_hash me _ wallet mq_send_ok _ c hc
  refine ⟨mismaPuerta_trans s _ _ (mismaPuerta_trans s s1 _ a1 ⟨rfl, rfl, rfl, rfl⟩) b1,
    ?_, b3, ?_⟩
  · rw [b2]
    show sem_post s1.semaforos.ganador = _
    rw [a2]
    rfl
  · intro hok
    rw [b4 hok]
    show s1.semaforos.mutex = _
    rw [a2]

theorem ganador_existe (pow_hash : Int → Int) (me solucion wallet : Int)
    (mq_send_ok : Bool) (s : SharedMemMiner) (hm : s.semaforos.mutex ≠ 0) :
    ∃ c, ganador pow_hash me solucion wallet mq_send_ok s = some c := by
  obtain ⟨s1, hs1⟩ := ganador_anunciar_existe me solucion s hm
  have h1 : s1.semaforos.mutex ≠ 0 := by
    rw [(ganador_anunciar_marco me solucion s s1 hs1).2]
    exact hm
  unfold ganador
  rw [hs1]
  exact ⟨_, ganador_cerrar_some pow_hash me _ wallet mq_send_ok (ganador_contar s1).1 h1⟩

theorem postear_veces (n g0 : Nat) :
    para_cada n (fun _ (g : Nat) => sem_post g) g0 = g0 + n := by
  have key := para_cada_inv n (fun _ (g : Nat) => sem_post g) (fun k g => g = g0 + k) g0 rfl
    (fun k _ t ht => by
      subst ht
      show sem_post (g0 + k) = g0 + (k + 1)
      unfold sem_post
      omega)
  exact key

theorem minero_abrir_entrada_some (s : SharedMemMiner) (h : s.entry_mutex ≠ 0) :
    minero_abrir_entrada s = some { s with
      can_enter := true
      entry_gate := s.entry_gate + s.waiters_count.toNat
      waiters_count := 0 } := by
  unfold minero_abrir_entrada
  rw [sem_wait_pos s.entry_mutex h]
  simp only [Option.bind_eq_bind, Option.some_bind, Option.pure_def, Option.some.injEq,
    postear_veces]
  have hmm : sem_post (s.entry_mutex - 1) = s.entry_mutex := by
    unfold sem_post
    omega
  rw [hmm]

theorem minero_abrir_entrada_none (s : SharedMemMiner) (h : s.entry_mutex = 0) :
    minero_abrir_entrada s = none := by
  unfold minero_abrir_entrada
  rw [h, sem_wait_cero]
  rfl

theorem perdedor_apagado (pow_hash : Int → Int) (me : Int) (s : SharedMemMiner) :
    perdedor pow_hash me true false s = some (s, false) := rfl

theorem perdedor_despierto (pow_hash : Int → Int) (me : Int) (s : SharedMemMiner) :
    perdedor pow_hash me false false s
      = (perdedor_votar pow_hash me s).map (fun s2 => (s2, true)) := rfl

/-- The gate after the common tail of `minero` (lines 752-778). -/
theorem minero_cola_efecto (pow_hash : Int → Int) (me : Int) (l : Lecturas) (wallet : Int)
    (envio : Option Bloque) (s : SharedMemMiner) (f : Final)
    (h : minero_cola pow_hash me l wallet envio s = some f) :
    f.wallet = wallet ∧ f.envio = envio ∧ f.segmento.semaforos = s.semaforos ∧
    ((f.retorno = 0 ∧ l.apagado_752 = false) →
      f.segmento.can_enter = true ∧
      f.segmento.entry_gate = s.entry_gate + s.waiters_count.toNat ∧
      f.segmento.waiters_count = 0) ∧
    (¬ (f.retorno = 0 ∧ l.apagado_752 = false) → MismaPuerta s f.segmento) := by
  unfold minero_cola at h
  by_cases h752 : l.apagado_752 = true
  · rw [if_pos h752] at h
    simp only [Option.some.injEq] at h
    rw [← h]
    refine ⟨rfl, rfl, rfl, fun hc => ?_, fun _ => mismaPuerta_refl s⟩
    rw [h752] at hc
    exact absurd hc.2 (by decide)
  · rw [if_neg h752] at h
    have h752f : l.apagado_752 = false := by
      cases hb : l.apagado_752
      · rfl
      · exact absurd hb h752
    have abre : ∀ (t : SharedMemMiner), MismaPuerta s t → t.semaforos = s.semaforos →
        Option.map (fun s2 => Final.mk s2 wallet envio 0) (minero_abrir_entrada t) = some f →
        f.wallet = wallet ∧ f.envio = envio ∧ f.segmento.semaforos = s.semaforos ∧
        ((f.retorno = 0 ∧ l.apagado_752 = false) →
          f.segmento.can_enter = true ∧
          f.segmento.entry_gate = s.entry_gate + s.waiters_count.toNat ∧
          f.segmento.waiters_count = 0) ∧
        (¬ (f.retorno = 0 ∧ l.apagado_752 = false) → MismaPuerta s f.segmento) := by
      intro t ht hsem ha
      by_cases hem : t.entry_mutex = 0
      · rw [minero_abrir_entrada_none t hem] at ha
        exact Option.noConfusion ha
      · rw [minero_abrir_entrada_some t hem] at ha
        simp only [Option.map_some', Option.some.injEq] at ha
        rw [← ha]
        refine ⟨rfl, rfl, hsem, fun _ => ⟨rfl, ?_, rfl⟩, fun hc => absurd ⟨rfl, h752f⟩ hc⟩
        show t.entry_gate + t.waiters_count.toNat = _
        rw [ht.2.1, ht.2.2.1]
    by_cases h758 : l.usr2_758 = true
    · rw [if_pos h758] at h
      cases h760 : l.apagado_760 with
      | true =>
        rw [h760, perdedor_apagado] at h
        simp only [Option.some.injEq] at h
        rw [← h]
        exact ⟨rfl, rfl, rfl, fun hc => absurd hc.1 (show ¬ (1 : Int) = 0 by decide),
          fun _ => mismaPuerta_refl s⟩
      | false =>
        rw [h760, perdedor_despierto] at h
        cases hv : perdedor_votar pow_hash me s with
        | none =>
          rw [hv] at h
          exact Option.noConfusion h
        | some s2 =>
          rw [hv] at h
          obtain ⟨a, b⟩ := perdedor_votar_marco pow_hash me s s2 hv
          exact abre s2 a b h
    · rw [if_neg h758] at h
      exact abre s (mismaPuerta_refl s) rfl h

theorem minero_cola_existe (pow_hash : Int → Int) (me : Int) (l : Lecturas) (wallet : Int)
    (envio : Option Bloque) (s : SharedMemMiner) (hm : s.semaforos.mutex ≠ 0)
    (hem : s.entry_mutex ≠ 0) :
    ∃ f, minero_cola pow_hash me l wallet envio s = some f := by
  unfold minero_cola
  by_cases h752 : l.apagado_752 = true
  · rw [if_pos h752]
    exact ⟨_, rfl⟩
  · rw [if_neg h752]
    by_cases h758 : l.usr2_758 = true
    · rw [if_pos h758]
      cases h760 : l.apagado_760 with
      | true =>
        rw [perdedor_apagado]
        exact ⟨_, rfl⟩
      | false =>
        rw [perdedor_despierto]
        obtain ⟨s2, hv⟩ := perdedor_votar_existe pow_hash me s hm
        rw [hv]
        have he2 : s2.entry_mutex ≠ 0 := by
          rw [(perdedor_votar_marco pow_hash me s s2 hv).1.1]
          exact hem
        show ∃ f, Option.map _ (minero_abrir_entrada s2) = some f
        rw [minero_abrir_entrada_some s2 he2]
        exact ⟨_, rfl⟩
    · rw [if_neg h758]
      rw [minero_abrir_entrada_some s hem]
      exact ⟨_, rfl⟩

theorem tomar_ganador_marco (s s2 : SharedMemMiner) (h : tomar_ganador s = some s2) :
    MismaPuerta s s2 ∧ s2.semaforos.mutex = s.semaforos.mutex ∧
    s2.semaforos.ganador = s.semaforos.ganador - 1 ∧ s.semaforos.ganador ≠ 0 := by
  unfold tomar_ganador at h
  simp only [Option.bind_eq_bind, Option.bind_eq_some, sem_wait_eq_some, Option.pure_def,
    Option.some.injEq] at h
  obtain ⟨m, ⟨hm0, hm⟩, h⟩ := h
  rw [← h]
  exact ⟨⟨rfl, rfl, rfl, rfl⟩, rfl, hm, hm0⟩

theorem tomar_ganador_existe (s : SharedMemMiner) (h : s.semaforos.ganador ≠ 0) :
    ∃ s2, tomar_ganador s = some s2 := by
  unfold tomar_ganador
  rw [sem_wait_pos s.semaforos.ganador h]
  exact ⟨_, rfl⟩

/-- The gate at the end of a run of `minero` that starts at line 722. -/
theorem minero_final_efecto (pow_hash : Int → Int) (me found solution wallet : Int)
    (mq_send_ok : Bool) (l : Lecturas) (s : SharedMemMiner) (f : Final)
    (h : minero_final pow_hash me found solution wallet mq_send_ok l s = some f) :
    ((f.retorno = 0 ∧ l.apagado_722 = false ∧ l.apagado_752 = false) →
      f.segmento.can_enter = true ∧
      f.segmento.entry_gate = s.entry_gate + s.waiters_count.toNat ∧
      f.segmento.waiters_count = 0) ∧
    (¬ (f.retorno = 0 ∧ l.apagado_722 = false ∧ l.apagado_752 = false) →
      MismaPuerta s f.segmento) := by
  have desde : ∀ (t : SharedMemMiner) (w : Int) (e : Option Bloque), MismaPuerta s t →
      l.apagado_722 = false → minero_cola pow_hash me l w e t = some f →
      ((f.retorno = 0 ∧ l.apagado_722 = false ∧ l.apagado_752 = false) →
        f.segmento.can_enter = true ∧
        f.segmento.entry_gate = s.entry_gate + s.waiters_count.toNat ∧
        f.segmento.waiters_count = 0) ∧
      (¬ (f.retorno = 0 ∧ l.apagado_722 = false ∧ l.apagado_752 = false) →
        MismaPuerta s f.segmento) := by
    intro t w e ht h722 hc
    obtain ⟨_, _, _, c4, c5⟩ := minero_cola_efecto pow_hash me l w e t f hc
    constructor
    · intro hcond
      obtain ⟨d1, d2, d3⟩ := c4 ⟨hcond.1, hcond.2.2⟩
      refine ⟨d1, ?_, d3⟩
      rw [d2, ht.2.1, ht.2.2.1]
    · intro hcond
      exact mismaPuerta_trans s t _ ht (c5 (fun hh => hcond ⟨hh.1, h722, hh.2⟩))
  have uno : ∀ (t : SharedMemMiner) (w : Int) (e : Option Bloque), MismaPuerta s t →
      f = { segmento := t, wallet := w, envio := e, retorno := 1 } →
      ((f.retorno = 0 ∧ l.apagado_722 = false ∧ l.apagado_752 = false) →
        f.segmento.can_enter = true ∧
        f.segmento.entry_gate = s.entry_gate + s.waiters_count.toNat ∧
        f.segmento.waiters_count = 0) ∧
      (¬ (f.retorno = 0 ∧ l.apagado_722 = false ∧ l.apagado_752 = false) →
        MismaPuerta s f.segmento) := by
    intro t w e ht hf
    rw [hf]
    exact ⟨fun hc => absurd hc.1 (show ¬ (1 : Int) = 0 by decide), fun _ => ht⟩
  unfold minero_final at h
  by_cases h722 : l.apagado_722 = true
  · rw [if_pos h722] at h
    simp only [Option.some.injEq] at h
    rw [← h]
    refine ⟨fun hc => ?_, fun _ => mismaPuerta_refl s⟩
    rw [h722] at hc
    exact absurd hc.2.1 (by decide)
  · rw [if_neg h722] at h
    have h722f : l.apagado_722 = false := by
      cases hb : l.apagado_722
      · rfl
      · exact absurd hb h722
    by_cases hfound : found ≠ 0
    · rw [if_pos hfound] at h
      cases ht : tomar_ganador s with
      | none =>
        rw [ht] at h
        exact Option.noConfusion h
      | some s1 =>
        rw [ht] at h
        dsimp only at h
        obtain ⟨p1, _⟩ := tomar_ganador_marco s s1 ht
        by_cases h731 : l.usr2_731 = true
        · rw [if_pos h731] at h
          cases h734 : l.apagado_734 with
          | true =>
            rw [h734, perdedor_apagado] at h
            simp only [Option.some.injEq] at h
            exact uno (soltar_ganador s1) wallet none p1 h.symm
          | false =>
            rw [h734, perdedor_despierto] at h
            cases hv : perdedor_votar pow_hash me (soltar_ganador s1) with
            | none =>
              rw [hv] at h
              exact Option.noConfusion h
            | some s2 =>
              rw [hv] at h
              obtain ⟨a, _⟩ := perdedor_votar_marco pow_hash me (soltar_ganador s1) s2 hv
              exact desde (soltar_ganador s2) wallet none
                (mismaPuerta_trans s s1 _ p1 a) h722f h
        · rw [if_neg h731] at h
          cases hg : ganador pow_hash me solution wallet mq_send_ok s1 with
          | none =>
            rw [hg] at h
            exact Option.noConfusion h
          | some c =>
            rw [hg] at h
            dsimp only at h
            obtain ⟨g1, _⟩ := ganador_marco pow_hash me solution wallet mq_send_ok s1 c hg
            by_cases hret : c.retorno = true
            · rw [if_pos hret] at h
              exact desde (soltar_ganador c.segmento) c.wallet (some c.envio)
                (mismaPuerta_trans s s1 _ p1 g1) h722f h
            · rw [if_neg hret] at h
              simp only [Option.some.injEq] at h
              exact uno (soltar_ganador c.segmento) c.wallet (some c.envio)
                (mismaPuerta_trans s s1 _ p1 g1) h.symm
    · rw [if_neg hfound] at h
      exact desde s wallet none (mismaPuerta_refl s) h722f h

theorem minero_cola_retorno (pow_hash : Int → Int) (me : Int) (l : Lecturas) (wallet : Int)
    (envio : Option Bloque) (s : SharedMemMiner) (f : Final) (h760 : l.apagado_760 = false)
    (h : minero_cola pow_hash me l wallet envio s = some f) : f.retorno = 0 := by
  unfold minero_cola at h
  by_cases h752 : l.apagado_752 = true
  · rw [if_pos h752] at h
    simp only [Option.some.injEq] at h
    rw [← h]
  · rw [if_neg h752] at h
    have abre : ∀ (t : SharedMemMiner),
        Option.map (fun s2 => Final.mk s2 wallet envio 0) (minero_abrir_entrada t) = some f →
        f.retorno = 0 := by
      intro t ha
      cases hab : minero_abrir_entrada t with
      | none =>
        rw [hab] at ha
        exact Option.noConfusion ha
      | some t2 =>
        rw [hab] at ha
        simp only [Option.map_some', Option.some.injEq] at ha
        rw [← ha]
    by_cases h758 : l.usr2_758 = true
    · rw [if_pos h758, h760, perdedor_despierto] at h
      cases hv : perdedor_votar pow_hash me s with
      | none =>
        rw [hv] at h
        exact Option.noConfusion h
      | some s2 =>
        rw [hv] at h
        exact abre s2 h
    · rw [if_neg h758] at h
      exact abre s h

/-- Without a shutdown signal and with a send that succeeds, every run of `minero`
that gets past the search reaches its last line and returns 0: the winner, the miner
that votes and the miner that found nothing alike. -/
theorem minero_final_retorno (pow_hash : Int → Int) (me found solution wallet : Int)
    (l : Lecturas) (s : SharedMemMiner) (f : Final)
    (h734 : l.apagado_734 = false) (h760 : l.apagado_760 = false)
    (h : minero_final pow_hash me found solution wallet true l s = some f) :
    f.retorno = 0 := by
  unfold minero_final at h
  by_cases h722 : l.apagado_722 = true
  · rw [if_pos h722] at h
    simp only [Option.some.injEq] at h
    rw [← h]
  · rw [if_neg h722] at h
    by_cases hfound : found ≠ 0
    · rw [if_pos hfound] at h
      cases ht : tomar_ganador s with
      | none =>
        rw [ht] at h
        exact Option.noConfusion h
      | some s1 =>
        rw [ht] at h
        dsimp only at h
        by_cases h731 : l.usr2_731 = true
        · rw [if_pos h731, h734, perdedor_despierto] at h
          cases hv : perdedor_votar pow_hash me (soltar_ganador s1) with
          | none =>
            rw [hv] at h
            exact Option.noConfusion h
          | some s2 =>
            rw [hv] at h
            exact minero_cola_retorno pow_hash me l wallet none _ f h760 h
        · rw [if_neg h731] at h
          cases hg : ganador pow_hash me solution wallet true s1 with
          | none =>
            rw [hg] at h
            exact Option.noConfusion h
          | some c =>
            rw [hg] at h
            dsimp only at h
            obtain ⟨_, _, g3, _⟩ := ganador_marco pow_hash me solution wallet true s1 c hg
            rw [if_pos g3] at h
            exact minero_cola_retorno pow_hash me l c.wallet (some c.envio) _ f h760 h
    · rw [if_neg hfound] at h
      exact minero_cola_retorno pow_hash me l wallet none s f h760 h

/-- With the three semaphores free a run of `minero` from line 722 returns. -/
theorem minero_final_existe (pow_hash : Int → Int) (me found solution wallet : Int)
    (mq_send_ok : Bool) (l : Lecturas) (s : SharedMemMiner)
    (hg : s.semaforos.ganador ≠ 0) (hm : s.semaforos.mutex ≠ 0) (hem : s.entry_mutex ≠ 0) :
    ∃ f, minero_final pow_hash me found solution wallet mq_send_ok l s = some f := by
  unfold minero_final
  by_cases h722 : l.apagado_722 = true
  · rw [if_pos h722]
    exact ⟨_, rfl⟩
  · rw [if_neg h722]
    by_cases hfound : found ≠ 0
    · rw [if_pos hfound]
      obtain ⟨s1, ht⟩ := tomar_ganador_existe s hg
      obtain ⟨p1, p2, _⟩ := tomar_ganador_marco s s1 ht
      rw [ht]
      dsimp only
      by_cases h731 : l.usr2_731 = true
      · rw [if_pos h731]
        cases h734 : l.apagado_734 with
        | true =>
          rw [perdedor_apagado]
          exact ⟨_, rfl⟩
        | false =>
          rw [perdedor_despierto]
          obtain ⟨s2, hv⟩ := perdedor_votar_existe pow_hash me (soltar_ganador s1)
            (by show s1.semaforos.mutex ≠ 0; rw [p2]; exact hm)
          obtain ⟨a, b⟩ := perdedor_votar_marco pow_hash me (soltar_ganador s1) s2 hv
          rw [hv]
          exact minero_cola_existe pow_hash me l wallet none (soltar_ganador s2)
            (by show s2.semaforos.mutex ≠ 0; rw [b]; show s1.semaforos.mutex ≠ 0; rw [p2]; exact hm)
            (by show s2.entry_mutex ≠ 0; rw [a.1]; show s1.entry_mutex ≠ 0; rw [p1.1]; exact hem)
      · rw [if_neg h731]
        obtain ⟨c, hc⟩ := ganador_existe pow_hash me solution wallet mq_send_ok s1
          (by rw [p2]; exact hm)
        obtain ⟨g1, _, g3, g4⟩ := ganador_marco pow_hash me solution wallet mq_send_ok s1 c hc
        rw [hc]
        dsimp only
        by_cases hret : c.retorno = true
        · rw [if_pos hret]
          exact minero_cola_existe pow_hash me l c.wallet (some c.envio)
            (soltar_ganador c.segmento)
            (by show c.segmento.semaforos.mutex ≠ 0; rw [g4 (g3.symm.trans hret), p2]; exact hm)
            (by show c.segmento.entry_mutex ≠ 0; rw [g1.1, p1.1]; exact hem)
        · rw [if_neg hret]
          exact ⟨_, rfl⟩
    · rw [if_neg hfound]
      exact minero_cola_existe pow_hash me l wallet none s hm hem

/-- The election latch at the end of a run of `minero` in which the search ended with
`found ≠ 0` and no shutdown signal is read before the election is over: one wait
(line 730) and two posts (lines 404 and 749, or 733 and 749, or 404 and 745). -/
theorem minero_final_latch (pow_hash : Int → Int) (me found solution wallet : Int)
    (mq_send_ok : Bool) (l : Lecturas) (s : SharedMemMiner) (f : Final)
    (hfound : found ≠ 0) (h722 : l.apagado_722 = false) (h734 : l.apagado_734 = false)
    (h : minero_final pow_hash me found solution wallet mq_send_ok l s = some f) :
    f.segmento.semaforos.ganador = s.semaforos.ganador + 1 := by
  unfold minero_final at h
  rw [h722] at h
  rw [if_neg (by decide), if_pos hfound] at h
  cases ht : tomar_ganador s with
  | none =>
    rw [ht] at h
    exact Option.noConfusion h
  | some s1 =>
    rw [ht] at h
    dsimp only at h
    obtain ⟨_, _, p3, p4⟩ := tomar_ganador_marco s s1 ht
    have hs1 : s1.semaforos.ganador + 1 = s.semaforos.ganador := by omega
    by_cases h731 : l.usr2_731 = true
    · rw [if_pos h731, h734, perdedor_despierto] at h
      cases hv : perdedor_votar pow_hash me (soltar_ganador s1) with
      | none =>
        rw [hv] at h
        exact Option.noConfusion h
      | some s2 =>
        rw [hv] at h
        obtain ⟨_, b⟩ := perdedor_votar_marco pow_hash me (soltar_ganador s1) s2 hv
        obtain ⟨_, _, c3, _⟩ := minero_cola_efecto pow_hash me l wallet none _ f h
        rw [c3]
        show sem_post s2.semaforos.ganador = _
        rw [b]
        show sem_post (sem_post s1.semaforos.ganador) = _
        unfold sem_post
        omega
    · rw [if_neg h731] at h
      cases hg : ganador pow_hash me solution wallet mq_send_ok s1 with
      | none =>
        rw [hg] at h
        exact Option.noConfusion h
      | some c =>
        rw [hg] at h
        dsimp only at h
        obtain ⟨_, g2, _⟩ := ganador_marco pow_hash me solution wallet mq_send_ok s1 c hg
        by_cases hret : c.retorno = true
        · rw [if_pos hret] at h
          obtain ⟨_, _, c3, _⟩ := minero_cola_efecto pow_hash me l c.wallet (some c.envio) _ f h
          rw [c3]
          show sem_post c.segmento.semaforos.ganador = _
          rw [g2]
          unfold sem_post
          omega
        · rw [if_neg hret] at h
          simp only [Option.some.injEq] at h
          rw [← h]
          show sem_post c.segmento.semaforos.ganador = _
          rw [g2]
          unfold sem_post
          omega

/-! ## The verdict and the message -/

theorem ganador_cerrar_envio (pow_hash : Int → Int) (me mineros wallet : Int)
    (mq_send_ok : Bool) (s : SharedMemMiner) (c : Cierre)
    (h : ganador_cerrar pow_hash me mineros wallet mq_send_ok s = some c) :
    c.envio = ganador_envio (ganador_recuento me mineros
      { s with semaforos := { s.semaforos with mutex := s.semaforos.mutex - 1 } } wallet).1 := by
  by_cases hm : s.semaforos.mutex = 0
  · rw [ganador_cerrar_none pow_hash me mineros wallet mq_send_ok s hm] at h
    exact Option.noConfusion h
  · rw [ganador_cerrar_some pow_hash me mineros wallet mq_send_ok s hm] at h
    cases mq_send_ok with
    | true =>
      rw [if_pos rfl] at h
      simp only [Option.some.injEq] at h
      rw [← h]
    | false =>
      simp only [Bool.false_eq_true, if_false, Option.some.injEq] at h
      rw [← h]

theorem ganador_cerrar_sin_veredicto (pow_hash : Int → Int) (me mineros wallet : Int)
    (mq_send_ok : Bool) (s : SharedMemMiner) (c : Cierre)
    (h : ganador_cerrar pow_hash me mineros wallet mq_send_ok s = some c) :
    c.envio.correcto = false := by
  rw [ganador_cerrar_envio pow_hash me mineros wallet mq_send_ok s c h]
  exact (ganador_envio_campos _).2.2.2.2.2.2.1

theorem ganador_sin_veredicto (pow_hash : Int → Int) (me solucion wallet : Int)
    (mq_send_ok : Bool) (s : SharedMemMiner) (c : Cierre)
    (h : ganador pow_hash me solucion wallet mq_send_ok s = some c) :
    c.envio.correcto = false := by
  unfold ganador at h
  simp only [Option.bind_eq_bind, Option.bind_eq_some] at h
  obtain ⟨s1, _, hc⟩ := h
  exact ganador_cerrar_sin_veredicto pow_hash me _ wallet mq_send_ok _ c hc

theorem verificado_sin_veredicto (pow_hash : Int → Int) (recibido : Bloque) (v : Bool) :
    verificado pow_hash { recibido with correcto := v } = verificado pow_hash recibido := rfl

theorem comprobador_insertar_sin_veredicto (pow_hash : Int → Int) (recibido : Bloque)
    (v : Bool) (segmento : SharedMem) :
    comprobador_insertar pow_hash { recibido with correcto := v } segmento
      = comprobador_insertar pow_hash recibido segmento := by
  by_cases he : segmento.semaforos.sem_empty = 0
  · rw [comprobador_insertar_none pow_hash _ segmento (Or.inl he),
      comprobador_insertar_none pow_hash _ segmento (Or.inl he)]
  · by_cases hm : segmento.semaforos.mutex = 0
    · rw [comprobador_insertar_none pow_hash _ segmento (Or.inr hm),
        comprobador_insertar_none pow_hash _ segmento (Or.inr hm)]
    · rw [comprobador_insertar_some pow_hash _ segmento he hm,
        comprobador_insertar_some pow_hash _ segmento he hm, verificado_sin_veredicto]

theorem monitor_extraer_bloque (segmento s : SharedMem) (b : Bloque)
    (h : monitor_extraer segmento = some (s, b)) : b = segmento.bloques segmento.out := by
  by_cases hf : segmento.semaforos.sem_fill = 0
  · rw [monitor_extraer_none segmento (Or.inl hf)] at h
    exact Option.noConfusion h
  · by_cases hm : segmento.semaforos.mutex = 0
    · rw [monitor_extraer_none segmento (Or.inr hm)] at h
      exact Option.noConfusion h
    · rw [monitor_extraer_some segmento hf hm] at h
      simp only [Option.some.injEq, Prod.mk.injEq] at h
      exact h.2.symm

/-! ## A send that fails -/

set_option maxRecDepth 20000 in
/-- Every field of the region after the second critical section of `ganador` when
`mq_send` fails. -/
theorem ganador_cerrar_fallo_campos (pow_hash : Int → Int) (me mineros wallet : Int)
    (t : SharedMemMiner) (hm : t.semaforos.mutex ≠ 0) :
    ∃ c, ganador_cerrar pow_hash me mineros wallet false t = some c ∧
      c.retorno = false ∧
      c.segmento.semaforos = { t.semaforos with mutex := t.semaforos.mutex - 1 } ∧
      c.segmento.bloque_actual.id = t.bloque_actual.id ∧
      c.segmento.bloque_actual.objetivo = t.bloque_actual.objetivo ∧
      c.segmento.bloque_actual.solucion = t.bloque_actual.solucion ∧
      c.segmento.bloque_actual.ganador = t.bloque_actual.ganador ∧
      c.segmento.bloque_anterior = t.bloque_anterior ∧
      c.segmento.bloque_actual.votos_positivos = (aprobaciones t : Int) ∧
      c.segmento.bloque_actual.total_votos = (votos_emitidos t : Int) ∧
      c.segmento.bloque_actual.correcto
        = decide ((aprobaciones t : Int) > Int.tdiv mineros 2) ∧
      c.segmento.monedas_mineros
        = (if (aprobaciones t : Int) > Int.tdiv mineros 2 then
            (fun i =>
              if (t.monedas_mineros i).pid = me then
                { (t.monedas_mineros i) with monedas := (t.monedas_mineros i).monedas + 1 }
              else t.monedas_mineros i)
          else t.monedas_mineros) ∧
      c.segmento.bloque_actual.monedas_mineros = c.segmento.monedas_mineros ∧
      c.wallet = (if (aprobaciones t : Int) > Int.tdiv mineros 2 then
          wallet + ((Finset.univ.filter (fun i => (t.monedas_mineros i).pid = me)).card : Int)
        else wallet) ∧
      c.segmento.pid = t.pid ∧
      c.segmento.votos_mineros = t.votos_mineros ∧
      MismaPuerta t c.segmento := by
  obtain ⟨r1, r2, r3, r4, r5, r6, r7, r8, r9, r10, r11, r12, r13, r14, r15, r16⟩ :=
    ganador_recuento_campos me mineros
      { t with semaforos := { t.semaforos with mutex := t.semaforos.mutex - 1 } } wallet
  obtain ⟨m1, m2⟩ := ganador_recuento_monedas me mineros
      { t with semaforos := { t.semaforos with mutex := t.semaforos.mutex - 1 } } wallet
  have ha : aprobaciones
      { t with semaforos := { t.semaforos with mutex := t.semaforos.mutex - 1 } }
      = aprobaciones t := rfl
  have hv : votos_emitidos
      { t with semaforos := { t.semaforos with mutex := t.semaforos.mutex - 1 } }
      = votos_emitidos t := rfl
  rw [ha] at r1 r3 m1 m2
  rw [hv] at r2
  refine ⟨_, ganador_cerrar_some pow_hash me mineros wallet false t hm, ?_⟩
  simp only [Bool.false_eq_true, if_false]
  dsimp only at r1 r2 r3 r4 r5 r6 r7 r8 r9 r10 r11 r12 r13 r14 r15 r16 m1 m2 ⊢
  exact ⟨trivial, r12, r4, r5, r6, r7, r9, r1, r2, r3, m1, r8, m2, r10, r11,
    ⟨r13, r14, r15, r16⟩⟩

theorem mismaCadena_trans (a b c : SharedMemMiner) (h1 : MismaCadena a b)
    (h2 : MismaCadena b c) : MismaCadena a c :=
  ⟨h2.1.trans h1.1, h2.2.1.trans h1.2.1, h2.2.2.trans h1.2.2⟩

theorem ganador_anunciar_none (me solucion : Int) (s : SharedMemMiner)
    (hm : s.semaforos.mutex = 0) : ganador_anunciar me solucion s = none := by
  unfold ganador_anunciar
  rw [hm, sem_wait_cero]
  rfl

theorem perdedor_votar_none (pow_hash : Int → Int) (me : Int) (s : SharedMemMiner)
    (hm : s.semaforos.mutex = 0) : perdedor_votar pow_hash me s = none := by
  unfold perdedor_votar
  rw [hm, sem_wait_cero]
  rfl

theorem salir_none (me : Int) (s : SharedMemMiner)
    (hm : s.semaforos.mutex = 0) : salir me s = none := by
  unfold salir
  rw [hm, sem_wait_cero]
  rfl

/-- The whole of `ganador` when `mq_send` fails: `false` is returned, `mutex` is one
below its value at the call, the latch has the post of line 404, the chain and the
gate are as they were. -/
theorem ganador_fallo (pow_hash : Int → Int) (me solucion wallet : Int)
    (s : SharedMemMiner) (c : Cierre)
    (h : ganador pow_hash me solucion wallet false s = some c) :
    c.retorno = false ∧ s.semaforos.mutex ≠ 0 ∧
    c.segmento.semaforos.mutex = s.semaforos.mutex - 1 ∧
    c.segmento.semaforos.ganador = s.semaforos.ganador + 1 ∧
    MismaCadena s c.segmento ∧ MismaPuerta s c.segmento := by
  obtain ⟨g1, g2, _, _⟩ := ganador_marco pow_hash me solucion wallet false s c h
  unfold ganador at h
  simp only [Option.bind_eq_bind, Option.bind_eq_some] at h
  obtain ⟨s1, ha, hc⟩ := h
  have hs1 := (ganador_anunciar_marco me solucion s s1 ha).2
  have hm : s.semaforos.mutex ≠ 0 := by
    intro h0
    rw [ganador_anunciar_none me solucion s h0] at ha
    exact Option.noConfusion ha
  have hm1 : (ganador_contar s1).1.semaforos.mutex ≠ 0 := by
    show s1.semaforos.mutex ≠ 0
    rw [hs1]
    exact hm
  obtain ⟨c2, e, k1, k2, _⟩ := ganador_cerrar_fallo_campos pow_hash me
    (ganador_contar s1).2 wallet (ganador_contar s1).1 hm1
  rw [hc] at e
  simp only [Option.some.injEq] at e
  rw [← e] at k1 k2
  have hcad := mismaCadena_trans s s1 c.segmento (ganador_anunciar_cadena me solucion s s1 ha)
    (ganador_cerrar_fallo_cadena pow_hash me (ganador_contar s1).2 wallet
      (ganador_contar s1).1 c hc)
  refine ⟨k1, hm, ?_, g2, hcad, g1⟩
  rw [k2]
  show s1.semaforos.mutex - 1 = _
  rw [hs1]

/-- The end of `minero` when the miner is the winner and `mq_send` fails (lines
740-747): 1 is returned, `mutex` is still held, the latch has the posts of lines 404
and 745, the chain and the gate are as they were. -/
theorem minero_final_fallo (pow_hash : Int → Int) (me found solution wallet : Int)
    (l : Lecturas) (s : SharedMemMiner) (f : Final)
    (h722 : l.apagado_722 = false) (hfound : found ≠ 0) (h731 : l.usr2_731 = false)
    (h : minero_final pow_hash me found solution wallet false l s = some f) :
    f.retorno = 1 ∧ s.semaforos.mutex ≠ 0 ∧
    f.segmento.semaforos.mutex = s.semaforos.mutex - 1 ∧
    f.segmento.semaforos.ganador = s.semaforos.ganador - 1 + 1 + 1 ∧
    MismaCadena s f.segmento ∧ MismaPuerta s f.segmento := by
  unfold minero_final at h
  rw [h722, if_neg (by decide), if_pos hfound] at h
  cases ht : tomar_ganador s with
  | none =>
    rw [ht] at h
    exact Option.noConfusion h
  | some s1 =>
    rw [ht] at h
    dsimp only at h
    rw [h731, if_neg (by decide)] at h
    cases hg : ganador pow_hash me solution wallet false s1 with
    | none =>
      rw [hg] at h
      exact Option.noConfusion h
    | some c =>
      rw [hg] at h
      dsimp only at h
      obtain ⟨k1, k2, k3, k4, k5, k6⟩ := ganador_fallo pow_hash me solution wallet s1 c hg
      obtain ⟨t1, t2, t3, _⟩ := tomar_ganador_marco s s1 ht
      rw [k1, if_neg (by decide)] at h
      simp only [Option.some.injEq] at h
      rw [← h]
      refine ⟨rfl, ?_, ?_, ?_, ?_, ?_⟩
      · rw [← t2]
        exact k2
      · show c.segmento.semaforos.mutex = _
        rw [k3, t2]
      · show sem_post c.segmento.semaforos.ganador = _
        rw [k4, t3]
        rfl
      · exact mismaCadena_trans s s1 _ (tomar_ganador_cadena s s1 ht) k5
      · exact mismaPuerta_trans s s1 _ t1 k6

set_option maxRecDepth 20000 in
/-- Where the verdict of the tally ends up: in the current block when `mq_send`
fails, in the previous block (after the rotation) when it succeeds. -/
theorem ganador_cerrar_veredicto (pow_hash : Int → Int) (me mineros wallet : Int)
    (mq_send_ok : Bool) (t : SharedMemMiner) (c : Cierre)
    (h : ganador_cerrar pow_hash me mineros wallet mq_send_ok t = some c) :
    (if mq_send_ok = true then c.segmento.bloque_anterior.correcto
      else c.segmento.bloque_actual.correcto)
      = decide ((aprobaciones t : Int) > Int.tdiv mineros 2) := by
  by_cases hm : t.semaforos.mutex = 0
  · rw [ganador_cerrar_none pow_hash me mineros wallet mq_send_ok t hm] at h
    exact Option.noConfusion h
  · rw [ganador_cerrar_some pow_hash me mineros wallet mq_send_ok t hm] at h
    have r3 := (ganador_recuento_campos me mineros
      { t with semaforos := { t.semaforos with mutex := t.semaforos.mutex - 1 } }
      wallet).2.2.1
    have ha : aprobaciones
        { t with semaforos := { t.semaforos with mutex := t.semaforos.mutex - 1 } }
        = aprobaciones t := rfl
    rw [ha] at r3
    cases mq_send_ok with
    | true =>
      rw [if_pos rfl] at h
      simp only [Option.some.injEq] at h
      rw [← h, if_pos rfl]
      have r := (ganador_rotar_campos pow_hash me (ganador_recuento me mineros
        { t with semaforos := { t.semaforos with mutex := t.semaforos.mutex - 1 } }
        wallet).1).1
      dsimp only at r r3 ⊢
      rw [r, r3]
    | false =>
      simp only [Bool.false_eq_true, if_false, Option.some.injEq] at h
      rw [← h]
      simp only [Bool.false_eq_true, if_false]
      dsimp only at r3 ⊢
      rw [r3]

/-! ## The wait for the votes -/

theorem ganador_esperar_llena (mineros : Int) (leido : Int → Int)
    (h : ∀ k, 0 ≤ k → k < 500 → leido k < mineros) :
    ∀ (n e : Nat), e ≤ 500 → e + n = 501 →
      ganador_esperar mineros leido n (e : Int) = 500 := by
  intro n
  induction n with
  | zero =>
    intro e he hn
    omega
  | succ n ih =>
    intro e he hn
    unfold ganador_esperar
    by_cases h5 : e = 500
    · rw [if_neg (by rw [h5]; intro hh; exact absurd hh.2 (by decide)), h5]
      rfl
    · have hlt : (e : Int) < 500 := by omega
      rw [if_pos ⟨h e (by omega) hlt, hlt⟩]
      have := ih (e + 1) (by omega) (by omega)
      rw [Nat.cast_add, Nat.cast_one] at this
      exact this

/-- When every read of `total_votos` is below `mineros`, the wait runs its 500
iterations. -/
theorem ganador_espera_llena (mineros : Int) (leido : Int → Int)
    (h : ∀ k, 0 ≤ k → k < 500 → leido k < mineros) :
    ganador_espera mineros leido = 500 := by
  unfold ganador_espera
  exact ganador_esperar_llena mineros leido h 501 0 (by omega) (by omega)

/-- When the first read finds enough votes there is no wait. -/
theorem ganador_espera_nula (mineros : Int) (leido : Int → Int)
    (h : mineros ≤ leido 0) : ganador_espera mineros leido = 0 := by
  unfold ganador_espera ganador_esperar
  rw [if_neg (fun hh => absurd hh.1 (by omega))]

/-! ## The tally field outside the tally -/

theorem ocupar_hueco_semaforos (me wallet : Int) (s : SharedMemMiner) :
    (ocupar_hueco me wallet s).semaforos = s.semaforos := by
  rcases ocupar_hueco_casos me wallet s with ⟨_, hr⟩ | ⟨i, _, _, hr⟩
  · rw [hr]
  · rw [hr]

theorem salir_borrar_semaforos (me : Int) (s : SharedMemMiner) :
    (salir_borrar me s).semaforos = s.semaforos := by
  rcases salir_borrar_casos me s with ⟨_, hr⟩ | ⟨i, _, _, hr⟩
  · rw [hr]
  · rw [hr]

theorem minero_registro_total (me wallet : Int) (s s2 : SharedMemMiner) (espera : Bool)
    (h : minero_registro me wallet s = some (s2, espera)) :
    s2.bloque_actual = s.bloque_actual ∧ s2.semaforos = s.semaforos := by
  unfold minero_registro at h
  by_cases hreg : esta_registrado me s = true
  · simp only [hreg, if_true, Option.some.injEq, Prod.mk.injEq] at h
    rw [← h.1]
    exact ⟨rfl, rfl⟩
  · simp only [hreg, Bool.false_eq_true, if_false, Option.bind_eq_bind, Option.bind_eq_some,
      sem_wait_eq_some, Option.pure_def] at h
    obtain ⟨m, _, h⟩ := h
    by_cases hcan : s.can_enter = true
    · simp only [hcan, if_true, Option.some.injEq, Prod.mk.injEq] at h
      rw [← h.1]
      refine ⟨?_, ?_⟩ <;> simp only [ocupar_hueco_actual, ocupar_hueco_semaforos]
    · simp only [hcan, Bool.false_eq_true, if_false, Option.some.injEq, Prod.mk.injEq] at h
      rw [← h.1]
      exact ⟨rfl, rfl⟩

theorem minero_despertar_total (me wallet : Int) (s s2 : SharedMemMiner)
    (h : minero_despertar me wallet s = some s2) :
    s2.bloque_actual = s.bloque_actual ∧ s2.semaforos = s.semaforos := by
  unfold minero_despertar at h
  simp only [Option.bind_eq_bind, Option.bind_eq_some, sem_wait_eq_some, Option.pure_def,
    Option.some.injEq] at h
  obtain ⟨m, _, h⟩ := h
  rw [← h]
  refine ⟨?_, ?_⟩ <;> simp only [ocupar_hueco_actual, ocupar_hueco_semaforos]

theorem minero_cerrar_entrada_total (s s2 : SharedMemMiner)
    (h : minero_cerrar_entrada s = some s2) :
    s2.bloque_actual = s.bloque_actual ∧ s2.semaforos = s.semaforos := by
  unfold minero_cerrar_entrada at h
  simp only [Option.bind_eq_bind, Option.bind_eq_some, sem_wait_eq_some, Option.pure_def,
    Option.some.injEq] at h
  obtain ⟨m, _, h⟩ := h
  rw [← h]
  exact ⟨rfl, rfl⟩

theorem minero_abrir_entrada_total (s s2 : SharedMemMiner)
    (h : minero_abrir_entrada s = some s2) :
    s2.bloque_actual = s.bloque_actual ∧ s2.semaforos = s.semaforos := by
  unfold minero_abrir_entrada at h
  simp only [Option.bind_eq_bind, Option.bind_eq_some, sem_wait_eq_some, Option.pure_def,
    Option.some.injEq] at h
  obtain ⟨m, _, h⟩ := h
  rw [← h]
  exact ⟨rfl, rfl⟩

theorem tomar_ganador_total (s s2 : SharedMemMiner) (h : tomar_ganador s = some s2) :
    s2.bloque_actual = s.bloque_actual ∧ s2.semaforos.mutex = s.semaforos.mutex := by
  unfold tomar_ganador at h
  simp only [Option.bind_eq_bind, Option.bind_eq_some, sem_wait_eq_some, Option.pure_def,
    Option.some.injEq] at h
  obtain ⟨m, _, h⟩ := h
  rw [← h]
  exact ⟨rfl, rfl⟩

set_option maxRecDepth 20000 in
theorem ganador_anunciar_total (me solucion : Int) (s s2 : SharedMemMiner)
    (h : ganador_anunciar me solucion s = some s2) :
    s2.bloque_actual = { s.bloque_actual with solucion := solucion, ganador := me } ∧
    s2.semaforos = s.semaforos ∧ s.semaforos.mutex ≠ 0 := by
  have hsem := (ganador_anunciar_marco me solucion s s2 h).2
  unfold ganador_anunciar at h
  simp only [Option.bind_eq_bind, Option.bind_eq_some, sem_wait_eq_some, Option.pure_def,
    Option.some.injEq] at h
  obtain ⟨m, ⟨hm, _⟩, h⟩ := h
  refine ⟨?_, hsem, hm⟩
  rw [← h]
  simp only [marcar_voto_actual, limpiar_votos_actual]

theorem perdedor_votar_total (pow_hash : Int → Int) (me : Int) (s s2 : SharedMemMiner)
    (h : perdedor_votar pow_hash me s = some s2) :
    s2.bloque_actual = s.bloque_actual ∧ s2.semaforos = s.semaforos ∧
    s.semaforos.mutex ≠ 0 := by
  have hsem := (perdedor_votar_marco pow_hash me s s2 h).2
  unfold perdedor_votar at h
  simp only [Option.bind_eq_bind, Option.bind_eq_some, sem_wait_eq_some, Option.pure_def,
    Option.some.injEq] at h
  obtain ⟨m, ⟨hm, _⟩, h⟩ := h
  refine ⟨?_, hsem, hm⟩
  rw [← h]
  split <;> simp only [marcar_voto_actual]

theorem salir_total (me : Int) (s s2 : SharedMemMiner) (m : Option Bloque)
    (h : salir me s = some (s2, m)) :
    s2.bloque_actual = s.bloque_actual ∧ s2.semaforos.mutex = s.semaforos.mutex := by
  by_cases hm : s.semaforos.mutex = 0
  · rw [salir_none me s hm] at h
    exact Option.noConfusion h
  · rw [salir_some me s hm] at h
    simp only [Option.some.injEq, Prod.mk.injEq] at h
    rw [← h.1]
    refine ⟨?_, ?_⟩
    · simp only [salir_borrar_actual]
    · simp only [salir_borrar_semaforos]
      omega

set_option maxRecDepth 20000 in
/-- After a successful send the rotation has reset the tally of the new current
block. -/
theorem ganador_cerrar_exito_total (pow_hash : Int → Int) (me mineros wallet : Int)
    (s : SharedMemMiner) (c : Cierre)
    (h : ganador_cerrar pow_hash me mineros wallet true s = some c) :
    c.segmento.bloque_actual.total_votos = 0 ∧
    c.segmento.semaforos.mutex = s.semaforos.mutex := by
  obtain ⟨_, _, _, hsem⟩ := ganador_cerrar_marco pow_hash me mineros wallet true s c h
  refine ⟨?_, by rw [hsem rfl]⟩
  by_cases hm : s.semaforos.mutex = 0
  · rw [ganador_cerrar_none pow_hash me mineros wallet true s hm] at h
    exact Option.noConfusion h
  · rw [ganador_cerrar_some pow_hash me mineros wallet true s hm] at h
    rw [if_pos rfl] at h
    simp only [Option.some.injEq] at h
    rw [← h, ganador_rotar_eq]

/-- Between rounds the tally of the current block is not positive: in every reachable
region `mutex` is at most 1, and while it is free `total_votos` is -1 (new region) or
0 (after a rotation). -/
theorem alcanzable_total_votos (pow_hash : Int → Int) (s : SharedMemMiner) (l : List Bloque)
    (h : Alcanzable pow_hash s l) :
    s.semaforos.mutex ≤ 1 ∧ (s.semaforos.mutex ≠ 0 → s.bloque_actual.total_votos ≤ 0) := by
  induction h with
  | inicio s0 =>
    rw [primer_minero_eq]
    exact ⟨Nat.le_refl 1, fun _ => show (-1 : Int) ≤ 0 by decide⟩
  | registro s s2 l me wallet espera _ hstep ih =>
    obtain ⟨a, b⟩ := minero_registro_total me wallet s s2 espera hstep
    rw [a, b]
    exact ih
  | despertar s s2 l me wallet _ hstep ih =>
    obtain ⟨a, b⟩ := minero_despertar_total me wallet s s2 hstep
    rw [a, b]
    exact ih
  | escribir s l me wallet i a _ ih =>
    obtain ⟨h1, _, h3⟩ := registro_asignar_marco me wallet i a s
    rw [h1, h3]
    exact ih
  | cerrar_entrada s s2 l _ hstep ih =>
    obtain ⟨a, b⟩ := minero_cerrar_entrada_total s s2 hstep
    rw [a, b]
    exact ih
  | abrir_entrada s s2 l _ hstep ih =>
    obtain ⟨a, b⟩ := minero_abrir_entrada_total s s2 hstep
    rw [a, b]
    exact ih
  | tomar s s2 l _ hstep ih =>
    obtain ⟨a, b⟩ := tomar_ganador_total s s2 hstep
    rw [a, b]
    exact ih
  | soltar s l _ ih => exact ih
  | anunciar s s2 l me solucion _ hstep ih =>
    obtain ⟨a, b, _⟩ := ganador_anunciar_total me solucion s s2 hstep
    rw [a, b]
    exact ih
  | contar s l _ ih => exact ih
  | cerrar s l me mineros wallet c _ hstep ih =>
    obtain ⟨a, b⟩ := ganador_cerrar_exito_total pow_hash me mineros wallet s c hstep
    rw [a, b]
    exact ⟨ih.1, fun _ => Int.le_refl 0⟩
  | cerrar_fallo s l me mineros wallet c _ hstep ih =>
    by_cases hm : s.semaforos.mutex = 0
    · rw [ganador_cerrar_none pow_hash me mineros wallet false s hm] at hstep
      exact Option.noConfusion hstep
    · obtain ⟨c2, e, _, k2, _⟩ := ganador_cerrar_fallo_campos pow_hash me mineros wallet s hm
      rw [hstep] at e
      simp only [Option.some.injEq] at e
      rw [← e] at k2
      rw [k2]
      have h1 := ih.1
      constructor
      · show s.semaforos.mutex - 1 ≤ 1
        omega
      · intro hne
        exact absurd (show s.semaforos.mutex - 1 = 0 by omega) hne
  | votar s s2 l me _ hstep ih =>
    obtain ⟨a, b, _⟩ := perdedor_votar_total pow_hash me s s2 hstep
    rw [a, b]
    exact ih
  | salida s s2 l me m _ hstep ih =>
    obtain ⟨a, b⟩ := salir_total me s s2 m hstep
    rw [a, b]
    exact ih

/-! ## The votes after the announcement and after the voters -/

set_option maxRecDepth 20000 in
/-- Closed form of the first critical section of `ganador`, whether the winner has a
vote slot or not. -/
theorem ganador_anunciar_casos (me solucion : Int) (s : SharedMemMiner)
    (hm : s.semaforos.mutex ≠ 0) :
    ((∀ i, (s.votos_mineros i).pid ≠ me) ∧
      ganador_anunciar me solucion s = some { s with
        bloque_actual := { s.bloque_actual with solucion := solucion, ganador := me }
        votos_mineros := fun j => { (s.votos_mineros j) with voto := 0 } }) ∨
    (∃ i, (s.votos_mineros i).pid = me ∧ (∀ k, k < i → (s.votos_mineros k).pid ≠ me) ∧
      ganador_anunciar me solucion s = some { s with
        bloque_actual := { s.bloque_actual with solucion := solucion, ganador := me }
        votos_mineros := Function.update
          (fun j => ({ (s.votos_mineros j) with voto := 0 } : Voto)) i
          { pid := (s.votos_mineros i).pid, voto := 1 } }) := by
  have hmm : s.semaforos.mutex - 1 + 1 = s.semaforos.mutex := by omega
  have e0 : ganador_anunciar me solucion s = some
      ((fun r : SharedMemMiner =>
          { r with semaforos := { r.semaforos with mutex := r.semaforos.mutex + 1 } })
        (marcar_voto me 1
          ((fun r : SharedMemMiner =>
              { r with bloque_actual := { r.bloque_actual with
                  solucion := solucion, ganador := me } })
            (limpiar_votos
              { s with semaforos := { s.semaforos with mutex := s.semaforos.mutex - 1 } })))) := by
    unfold ganador_anunciar
    rw [sem_wait_pos s.semaforos.mutex hm]
    rfl
  rw [e0, limpiar_votos_eq]
  rcases marcar_voto_casos me 1
    { s with
      semaforos := { s.semaforos with mutex := s.semaforos.mutex - 1 }
      votos_mineros := fun j => { (s.votos_mineros j) with voto := 0 }
      bloque_actual := { s.bloque_actual with solucion := solucion, ganador := me } }
    with ⟨hno, e2⟩ | ⟨i, hi, hmin, e2⟩
  · left
    refine ⟨hno, ?_⟩
    simp only at e2 ⊢
    rw [e2]
    simp only [hmm]
  · right
    refine ⟨i, hi, hmin, ?_⟩
    simp only at e2 ⊢
    rw [e2]
    simp only [hmm]

/-- Closed form of the critical section of a voter, whether it has a vote slot or
not. -/
theorem perdedor_votar_casos (pow_hash : Int → Int) (me : Int) (s : SharedMemMiner)
    (hm : s.semaforos.mutex ≠ 0) :
    ((∀ i, (s.votos_mineros i).pid ≠ me) ∧ perdedor_votar pow_hash me s = some s) ∨
    (∃ i, (s.votos_mineros i).pid = me ∧ (∀ k, k < i → (s.votos_mineros k).pid ≠ me) ∧
      perdedor_votar pow_hash me s = some { s with
        votos_mineros := Function.update s.votos_mineros i
          { pid := (s.votos_mineros i).pid,
            voto := if s.bloque_actual.objetivo = pow_hash s.bloque_actual.solucion then 1
              else 0 } }) := by
  have hmm : sem_post (s.semaforos.mutex - 1) = s.semaforos.mutex := by
    unfold sem_post
    omega
  unfold perdedor_votar
  rw [sem_wait_pos s.semaforos.mutex hm]
  simp only [Option.bind_eq_bind, Option.some_bind, Option.pure_def, Option.some.injEq]
  by_cases hh : s.bloque_actual.objetivo = pow_hash s.bloque_actual.solucion
  · rw [if_pos hh, if_pos hh]
    rcases marcar_voto_casos me 1
      { s with semaforos := { s.semaforos with mutex := s.semaforos.mutex - 1 } }
      with ⟨hno, e2⟩ | ⟨i, hi, hmin, e2⟩
    · left
      refine ⟨hno, ?_⟩
      rw [e2]
      simp only [hmm]
    · right
      refine ⟨i, hi, hmin, ?_⟩
      rw [e2]
      simp only [hmm]
  · rw [if_neg hh, if_neg hh]
    rcases marcar_voto_casos me 0
      { s with semaforos := { s.semaforos with mutex := s.semaforos.mutex - 1 } }
      with ⟨hno, e2⟩ | ⟨i, hi, hmin, e2⟩
    · left
      refine ⟨hno, ?_⟩
      rw [e2]
      simp only [hmm]
    · right
      refine ⟨i, hi, hmin, ?_⟩
      rw [e2]
      simp only [hmm]

/-- What the announcement leaves in the tables: the roster and the wallets are
untouched, every vote is 0 except the 1 in the first slot of the winner, if it has
one. -/
theorem ganador_anunciar_votos (me solucion : Int) (s s1 : SharedMemMiner)
    (h : ganador_anunciar me solucion s = some s1) :
    s1.pid = s.pid ∧ s1.monedas_mineros = s.monedas_mineros ∧
    (∀ i, (s1.votos_mineros i).pid = (s.votos_mineros i).pid) ∧
    (∀ i, (s1.votos_mineros i).voto = 0 ∨
      ((s1.votos_mineros i).voto = 1 ∧ (s.votos_mineros i).pid = me)) ∧
    ((∀ i, (s.votos_mineros i).pid ≠ me) → ∀ i, (s1.votos_mineros i).voto = 0) := by
  have hm := (ganador_anunciar_total me solucion s s1 h).2.2
  rcases ganador_anunciar_casos me solucion s hm with ⟨hno, e⟩ | ⟨i, hi, _, e⟩
  · rw [e] at h
    simp only [Option.some.injEq] at h
    rw [← h]
    exact ⟨rfl, rfl, fun _ => rfl, fun _ => Or.inl rfl, fun _ _ => rfl⟩
  · rw [e] at h
    simp only [Option.some.injEq] at h
    rw [← h]
    refine ⟨rfl, rfl, fun k => ?_, fun k => ?_, fun hno => absurd hi (hno i)⟩
    · dsimp only
      by_cases hk : k = i
      · subst hk
        rw [Function.update_same]
      · rw [Function.update_noteq hk]
    · dsimp only
      by_cases hk : k = i
      · subst hk
        rw [Function.update_same]
        exact Or.inr ⟨rfl, hi⟩
      · rw [Function.update_noteq hk]
        exact Or.inl rfl

/-- What a voter leaves: the roster, the wallets, both blocks and the semaphores are
untouched, and no vote becomes -1. -/
theorem perdedor_votar_votos (pow_hash : Int → Int) (me : Int) (s s2 : SharedMemMiner)
    (h : perdedor_votar pow_hash me s = some s2) :
    s2.pid = s.pid ∧ s2.monedas_mineros = s.monedas_mineros ∧
    (∀ i, (s2.votos_mineros i).pid = (s.votos_mineros i).pid) ∧
    (∀ i, (s.votos_mineros i).voto ≠ -1 → (s2.votos_mineros i).voto ≠ -1) := by
  have hm := (perdedor_votar_total pow_hash me s s2 h).2.2
  rcases perdedor_votar_casos pow_hash me s hm with ⟨_, e⟩ | ⟨i, hi, _, e⟩
  · rw [e] at h
    simp only [Option.some.injEq] at h
    rw [← h]
    exact ⟨rfl, rfl, fun _ => rfl, fun _ hv => hv⟩
  · rw [e] at h
    simp only [Option.some.injEq] at h
    rw [← h]
    refine ⟨rfl, rfl, fun k => ?_, fun k hv => ?_⟩
    · dsimp only
      by_cases hk : k = i
      · subst hk
        rw [Function.update_same]
      · rw [Function.update_noteq hk]
    · dsimp only
      by_cases hk : k = i
      · subst hk
        rw [Function.update_same]
        show (if s.bloque_actual.objetivo = pow_hash s.bloque_actual.solucion then (1 : Int)
          else 0) ≠ -1
        split
        · exact show (1 : Int) ≠ -1 by decide
        · exact show (0 : Int) ≠ -1 by decide
      · rw [Function.update_noteq hk]
        exact hv

/-- A voter that rejects and whose slots hold 0 changes nothing. -/
theorem perdedor_votar_rechazo (pow_hash : Int → Int) (me : Int) (s : SharedMemMiner)
    (hm : s.semaforos.mutex ≠ 0)
    (hrej : s.bloque_actual.objetivo ≠ pow_hash s.bloque_actual.solucion)
    (h0 : ∀ i, (s.votos_mineros i).pid = me → (s.votos_mineros i).voto = 0) :
    perdedor_votar pow_hash me s = some s := by
  rcases perdedor_votar_casos pow_hash me s hm with ⟨_, e⟩ | ⟨i, hi, _, e⟩
  · exact e
  · rw [e, if_neg hrej]
    have hv : (Voto.mk (s.votos_mineros i).pid 0) = s.votos_mineros i := by
      have e2 : (Voto.mk (s.votos_mineros i).pid (s.votos_mineros i).voto)
          = s.votos_mineros i := rfl
      rw [h0 i hi] at e2
      exact e2
    rw [hv, Function.update_eq_self]

/-- The voters one after the other: existence and frame. -/
theorem votaciones_existe (pow_hash : Int → Int) (votantes : List Int) (s : SharedMemMiner)
    (hm : s.semaforos.mutex ≠ 0) : ∃ t, votaciones pow_hash votantes s = some t := by
  induction votantes generalizing s with
  | nil => exact ⟨s, rfl⟩
  | cons me votantes ih =>
    obtain ⟨s2, h2⟩ := perdedor_votar_existe pow_hash me s hm
    obtain ⟨_, b, _⟩ := perdedor_votar_total pow_hash me s s2 h2
    obtain ⟨t, ht⟩ := ih s2 (by rw [b]; exact hm)
    refine ⟨t, ?_⟩
    unfold votaciones
    rw [h2]
    exact ht

theorem votaciones_marco (pow_hash : Int → Int) (votantes : List Int) (s t : SharedMemMiner)
    (h : votaciones pow_hash votantes s = some t) :
    t.bloque_actual = s.bloque_actual ∧ t.semaforos = s.semaforos ∧
    t.pid = s.pid ∧ t.monedas_mineros = s.monedas_mineros ∧
    (∀ i, (t.votos_mineros i).pid = (s.votos_mineros i).pid) ∧
    ((∀ i, (s.votos_mineros i).voto ≠ -1) → ∀ i, (t.votos_mineros i).voto ≠ -1) := by
  induction votantes generalizing s with
  | nil =>
    unfold votaciones at h
    simp only [Option.some.injEq] at h
    rw [← h]
    exact ⟨rfl, rfl, rfl, rfl, fun _ => rfl, fun hv => hv⟩
  | cons me votantes ih =>
    unfold votaciones at h
    simp only [Option.bind_eq_some] at h
    obtain ⟨s2, h2, h3⟩ := h
    obtain ⟨a1, a2, _⟩ := perdedor_votar_total pow_hash me s s2 h2
    obtain ⟨b1, b2, b3, b4⟩ := perdedor_votar_votos pow_hash me s s2 h2
    obtain ⟨c1, c2, c3, c4, c5, c6⟩ := ih s2 h3
    exact ⟨c1.trans a1, c2.trans a2, c3.trans b1, c4.trans b2,
      fun i => (c5 i).trans (b3 i), fun hv => c6 (fun i => b4 i (hv i))⟩

/-- When the solution does not hash to the target and the slots of the voters hold 0,
the voters leave the region as it is. -/
theorem votaciones_rechazo (pow_hash : Int → Int) (votantes : List Int) (s : SharedMemMiner)
    (hm : s.semaforos.mutex ≠ 0)
    (hrej : s.bloque_actual.objetivo ≠ pow_hash s.bloque_actual.solucion)
    (h0 : ∀ otro, otro ∈ votantes →
      ∀ i, (s.votos_mineros i).pid = otro → (s.votos_mineros i).voto = 0) :
    votaciones pow_hash votantes s = some s := by
  induction votantes with
  | nil => rfl
  | cons me votantes ih =>
    unfold votaciones
    rw [perdedor_votar_rechazo pow_hash me s hm hrej (h0 me (List.mem_cons_self me votantes))]
    exact ih (fun otro ho => h0 otro (List.mem_cons_of_mem me ho))

set_option maxRecDepth 20000 in
/-- The cast votes of the message are the cast votes of the state the tally runs
on. -/
theorem ganador_cerrar_envio_total (pow_hash : Int → Int) (me mineros wallet : Int)
    (mq_send_ok : Bool) (t : SharedMemMiner) (c : Cierre)
    (h : ganador_cerrar pow_hash me mineros wallet mq_send_ok t = some c) :
    c.envio.total_votos = (votos_emitidos t : Int) ∧
    c.envio.votos_positivos = (aprobaciones t : Int) := by
  have he := ganador_cerrar_envio pow_hash me mineros wallet mq_send_ok t c h
  obtain ⟨_, _, _, _, e5, e6, _⟩ := ganador_envio_campos (ganador_recuento me mineros
    { t with semaforos := { t.semaforos with mutex := t.semaforos.mutex - 1 } } wallet).1
  obtain ⟨r1, r2, _⟩ := ganador_recuento_campos me mineros
    { t with semaforos := { t.semaforos with mutex := t.semaforos.mutex - 1 } } wallet
  rw [he, e5, e6, r1, r2]
  exact ⟨rfl, rfl⟩

/-- When no vote is -1 and the vote table names the roster, the cast votes are the
registered peers. -/
theorem votos_emitidos_registrados (s t : SharedMemMiner)
    (hpid : ∀ i, (t.votos_mineros i).pid = s.pid i)
    (hv : ∀ i, (t.votos_mineros i).voto ≠ -1) :
    votos_emitidos t = registrados s := by
  unfold votos_emitidos registrados
  congr 1
  apply Finset.filter_congr
  intro i _
  rw [hpid i]
  exact ⟨fun hh => hh.1, fun hh => ⟨hh, hv i⟩⟩

/-! ## A full roster -/

theorem registro_paso_comparar (me wallet : Int) (i : Nat) (s : SharedMemMiner) :
    registro_paso me wallet (PuntoRegistro.comparar i) s
      = (if h : i < MAX_MINERS then
          if s.pid ⟨i, h⟩ = -1 then (PuntoRegistro.asignar ⟨i, h⟩ Asignacion.pid, s)
          else (PuntoRegistro.comparar (i + 1), s)
        else (PuntoRegistro.fin, s)) := rfl

theorem salir_paso_comparar (me : Int) (i : Nat) (s : SharedMemMiner) :
    salir_paso me (PuntoSalir.comparar i) s
      = (if h : i < MAX_MINERS then
          if s.pid ⟨i, h⟩ = me then (PuntoSalir.asignar ⟨i, h⟩ Borrado.pid, s)
          else (PuntoSalir.comparar (i + 1), s)
        else (PuntoSalir.fin, s)) := rfl

theorem registro_correr_saltar (me wallet : Int) (s : SharedMemMiner) (m n k : Nat)
    (hk : k + m ≤ MAX_MINERS)
    (h : ∀ j : Fin MAX_MINERS, k ≤ j.val → j.val < k + m → s.pid j ≠ -1) :
    registro_correr me wallet (m + n) (PuntoRegistro.comparar k) s
      = registro_correr me wallet n (PuntoRegistro.comparar (k + m)) s := by
  induction m generalizing k with
  | zero => simp
  | succ m ih =>
    have e : m + 1 + n = (m + n) + 1 := by omega
    have hlt : k < MAX_MINERS := by omega
    have hp : registro_paso me wallet (PuntoRegistro.comparar k) s
        = (PuntoRegistro.comparar (k + 1), s) := by
      rw [registro_paso_comparar, dif_pos hlt, if_neg (h ⟨k, hlt⟩ (le_refl k) (by show k < k + (m + 1); omega))]
    rw [e]
    show registro_correr me wallet (m + n)
      (registro_paso me wallet (PuntoRegistro.comparar k) s).1
      (registro_paso me wallet (PuntoRegistro.comparar k) s).2 = _
    rw [hp]
    show registro_correr me wallet (m + n) (PuntoRegistro.comparar (k + 1)) s = _
    rw [ih (k + 1) (by omega) (fun j hj1 hj2 => h j (by omega) (by omega))]
    congr 2
    omega

/-- The registration loop, run with no other access in between, does what
`ocupar_hueco` does. -/
theorem registro_correr_solo (me wallet : Int) (s : SharedMemMiner) :
    ∃ n, registro_correr me wallet n (PuntoRegistro.comparar 0) s
      = (PuntoRegistro.fin, ocupar_hueco me wallet s) := by
  rcases ocupar_hueco_casos me wallet s with ⟨hno, e⟩ | ⟨i, hi, hmin, e⟩
  · refine ⟨MAX_MINERS + 1, ?_⟩
    rw [registro_correr_saltar me wallet s MAX_MINERS 1 0 (by omega) (fun j _ _ => hno j), e]
    show registro_paso me wallet (PuntoRegistro.comparar (0 + MAX_MINERS)) s = _
    rw [registro_paso_comparar, dif_neg (by simp)]
  · refine ⟨i.val + 6, ?_⟩
    rw [registro_correr_saltar me wallet s i.val 6 0 (by omega)
      (fun j _ hj => hmin j (by rw [Fin.lt_def]; omega)), e]
    have hp : registro_paso me wallet (PuntoRegistro.comparar (0 + i.val)) s
        = (PuntoRegistro.asignar i Asignacion.pid, s) := by
      have hlt : 0 + i.val < MAX_MINERS := by
        rw [Nat.zero_add]
        exact i.isLt
      have ei : (⟨0 + i.val, hlt⟩ : Fin MAX_MINERS) = i := by
        apply Fin.ext
        simp
      rw [registro_paso_comparar, dif_pos hlt, ei, if_pos hi]
    show registro_correr me wallet 5
      (registro_paso me wallet (PuntoRegistro.comparar (0 + i.val)) s).1
      (registro_paso me wallet (PuntoRegistro.comparar (0 + i.val)) s).2 = _
    rw [hp]
    simp only [registro_correr, registro_paso, registro_asignar, Function.update_same,
      Function.update_idem, Prod.mk.injEq, true_and]

theorem salir_correr_saltar (me : Int) (s : SharedMemMiner) (m n k : Nat)
    (hk : k + m ≤ MAX_MINERS)
    (h : ∀ j : Fin MAX_MINERS, k ≤ j.val → j.val < k + m → s.pid j ≠ me) :
    salir_correr me (m + n) (PuntoSalir.comparar k) s
      = salir_correr me n (PuntoSalir.comparar (k + m)) s := by
  induction m generalizing k with
  | zero => simp
  | succ m ih =>
    have e : m + 1 + n = (m + n) + 1 := by omega
    have hlt : k < MAX_MINERS := by omega
    have hp : salir_paso me (PuntoSalir.comparar k) s = (PuntoSalir.comparar (k + 1), s) := by
      rw [salir_paso_comparar, dif_pos hlt, if_neg (h ⟨k, hlt⟩ (le_refl k) (by show k < k + (m + 1); omega))]
    rw [e]
    show salir_correr me (m + n) (salir_paso me (PuntoSalir.comparar k) s).1
      (salir_paso me (PuntoSalir.comparar k) s).2 = _
    rw [hp]
    show salir_correr me (m + n) (PuntoSalir.comparar (k + 1)) s = _
    rw [ih (k + 1) (by omega) (fun j hj1 hj2 => h j (by omega) (by omega))]
    congr 2
    omega

/-- The first loop of `salir`, run with no other access in between, does what
`salir_borrar` does. -/
theorem salir_correr_solo (me : Int) (s : SharedMemMiner) :
    ∃ n, salir_correr me n (PuntoSalir.comparar 0) s = (PuntoSalir.fin, salir_borrar me s) := by
  rcases salir_borrar_casos me s with ⟨hno, e⟩ | ⟨i, hi, hmin, e⟩
  · refine ⟨MAX_MINERS + 1, ?_⟩
    rw [salir_correr_saltar me s MAX_MINERS 1 0 (by omega) (fun j _ _ => hno j), e]
    show salir_paso me (PuntoSalir.comparar (0 + MAX_MINERS)) s = _
    rw [salir_paso_comparar, dif_neg (by simp)]
  · refine ⟨i.val + 6, ?_⟩
    rw [salir_correr_saltar me s i.val 6 0 (by omega)
      (fun j _ hj => hmin j (by rw [Fin.lt_def]; omega)), e]
    have hp : salir_paso me (PuntoSalir.comparar (0 + i.val)) s
        = (PuntoSalir.asignar i Borrado.pid, s) := by
      have hlt : 0 + i.val < MAX_MINERS := by
        rw [Nat.zero_add]
        exact i.isLt
      have ei : (⟨0 + i.val, hlt⟩ : Fin MAX_MINERS) = i := by
        apply Fin.ext
        simp
      rw [salir_paso_comparar, dif_pos hlt, ei, if_pos hi]
    show salir_correr me 5 (salir_paso me (PuntoSalir.comparar (0 + i.val)) s).1
      (salir_paso me (PuntoSalir.comparar (0 + i.val)) s).2 = _
    rw [hp]
    simp only [salir_correr, salir_paso, salir_asignar, Function.update_same,
      Function.update_idem, Prod.mk.injEq, true_and]

/-- Every access of the registration loop is a step of the network: a test changes
nothing and an assignment is the step `escribir`. -/
theorem registro_paso_alcanzable (pow_hash : Int → Int) (me wallet : Int) (p : PuntoRegistro)
    (s : SharedMemMiner) (l : List Bloque) (h : Alcanzable pow_hash s l) :
    Alcanzable pow_hash (registro_paso me wallet p s).2 l := by
  cases p with
  | comparar i =>
    rw [registro_paso_comparar]
    split
    · split
      · exact h
      · exact h
    · exact h
  | asignar i a =>
    cases a with
    | pid => exact Alcanzable.escribir s l me wallet i Asignacion.pid h
    | voto_pid => exact Alcanzable.escribir s l me wallet i Asignacion.voto_pid h
    | voto => exact Alcanzable.escribir s l me wallet i Asignacion.voto h
    | moneda_pid => exact Alcanzable.escribir s l me wallet i Asignacion.moneda_pid h
    | monedas => exact Alcanzable.escribir s l me wallet i Asignacion.monedas h
  | fin => exact h

/-! ## A full roster in the network of processes -/

/-- C4. Checker verdict: an insertion that is not blocked stores at index `in` a block
whose `correcto` is true exactly when `pow_hash(solucion) == objetivo` and whose id,
target, solution, winner, coin table, total votes and approvals are those of the
received message, whatever `correcto` the message carried; hence every block ever
stored in the ring with `correcto = true` satisfies `pow_hash(solucion) == objetivo`. -/
theorem comprobador_veredicto (pow_hash : Int → Int) :
    (∀ (recibido : Bloque) (segmento : SharedMem),
      segmento.semaforos.sem_empty ≠ 0 → segmento.semaforos.mutex ≠ 0 →
      ∃ s, comprobador_insertar pow_hash recibido segmento = some s ∧
        ((s.bloques segmento.in_).correcto = true ↔
          pow_hash recibido.solucion = recibido.objetivo) ∧
        (s.bloques segmento.in_).id = recibido.id ∧
        (s.bloques segmento.in_).objetivo = recibido.objetivo ∧
        (s.bloques segmento.in_).solucion = recibido.solucion ∧
        (s.bloques segmento.in_).ganador = recibido.ganador ∧
        (s.bloques segmento.in_).monedas_mineros = recibido.monedas_mineros ∧
        (s.bloques segmento.in_).total_votos = recibido.total_votos ∧
        (s.bloques segmento.in_).votos_positivos = recibido.votos_positivos) ∧
    (∀ (segmento : SharedMem) (acciones : List Accion) (c : Anillo),
      ejecutar_anillo pow_hash acciones (anillo_inicial segmento) = some c →
      ∀ b ∈ c.insertados, b.correcto = true → pow_hash b.solucion = b.objetivo) := by
  constructor
  · intro recibido segmento he hm
    refine ⟨_, comprobador_insertar_some pow_hash recibido segmento he hm, ?_⟩
    simp [verificado]
  · intro segmento acciones c h b hb hc
    have hins := ejecutar_anillo_insertados pow_hash acciones _ _ h
    simp only [anillo_inicial, List.nil_append] at hins
    rw [hins, List.mem_map] at hb
    obtain ⟨r, _, hr⟩ := hb
    subst hr
    simpa [verificado] using hc

/-- Worked instance of C4: a message that carries `correcto = true` with a solution
that does not hash to its target is stored with `correcto = false`. -/
theorem comprobador_veredicto_witness :
    (∃ s, comprobador_insertar pow_ejemplo (bloque_ejemplo 1 0 3 true)
        (setup_comprobador SharedMem.cero) = some s ∧
      (s.bloques 0).correcto = false ∧ (s.bloques 0).solucion = 3) ∧
    (∃ c, ejecutar_anillo pow_ejemplo acciones_ejemplo (anillo_inicial SharedMem.cero) = some c ∧
      ∀ b ∈ c.insertados, b.correcto = true → pow_ejemplo b.solucion = b.objetivo) := by
  constructor
  · obtain ⟨s, hs, hc, _, _, hsol, _⟩ :=
      (comprobador_veredicto pow_ejemplo).1 (bloque_ejemplo 1 0 3 true)
        (setup_comprobador SharedMem.cero) (by decide) (by decide)
    refine ⟨s, hs, ?_, hsol⟩
    have hin : (setup_comprobador SharedMem.cero).in_ = 0 := rfl
    rw [hin] at hc
    cases hv : (s.bloques 0).correcto with
    | false => rfl
    | true => exact absurd (hc.mp hv) (by decide)
  · have hsome : (ejecutar_anillo pow_ejemplo acciones_ejemplo
        (anillo_inicial SharedMem.cero)).isSome = true := rfl
    obtain ⟨c, hc⟩ := Option.isSome_iff_exists.mp hsome
    exact ⟨c, hc, (comprobador_veredicto pow_ejemplo).2 SharedMem.cero acciones_ejemplo c hc⟩

/-- C5. Ring FIFO: after any sequence of enabled insertions and removals from the
initial ring (`in = out = 0`, `sem_empty = MAX_BLOQUES`, `sem_fill = 0`), the blocks
copied out are a prefix of the blocks inserted, in the same order; the inserted
blocks not yet copied out are exactly the `sem_fill` blocks stored from `out` on, so
none was overwritten; the inserted blocks are the verified messages in the order of
their arrival; and in the state reached an insertion is enabled exactly when
`sem_empty > 0` and a removal exactly when `sem_fill > 0`. -/
theorem anillo_fifo (pow_hash : Int → Int) (segmento : SharedMem) (acciones : List Accion)
    (c : Anillo)
    (h : ejecutar_anillo pow_hash acciones (anillo_inicial segmento) = some c) :
    c.extraidos <+: c.insertados ∧
    c.insertados = c.extraidos ++ pendientes c.segmento ∧
    c.insertados = (recibidos acciones).map (verificado pow_hash) ∧
    (∀ recibido, (paso_anillo pow_hash (Accion.insertar recibido) c).isSome = true ↔
      0 < c.segmento.semaforos.sem_empty) ∧
    ((paso_anillo pow_hash Accion.extraer c).isSome = true ↔
      0 < c.segmento.semaforos.sem_fill) := by
  have hinv := ejecutar_anillo_inv pow_hash segmento acciones c h
  have hins := ejecutar_anillo_insertados pow_hash acciones _ _ h
  simp only [anillo_inicial, List.nil_append] at hins
  refine ⟨⟨pendientes c.segmento, hinv.2.symm⟩, hinv.2, hins, ?_, ?_⟩
  · intro recibido
    by_cases he : c.segmento.semaforos.sem_empty = 0
    · simp [paso_anillo, comprobador_insertar_none pow_hash recibido c.segmento (Or.inl he), he]
    · obtain ⟨s, hs, _⟩ := insertar_inv pow_hash recibido c.segmento hinv.1 he
      simp only [paso_anillo, hs, Option.bind_eq_bind, Option.some_bind, Option.pure_def,
        Option.isSome_some, true_iff]
      omega
  · by_cases hf : c.segmento.semaforos.sem_fill = 0
    · simp [paso_anillo, monitor_extraer_none c.segmento (Or.inl hf), hf]
    · obtain ⟨s, b, hs, _⟩ := extraer_inv c.segmento hinv.1 hf
      simp only [paso_anillo, hs, Option.bind_eq_bind, Option.some_bind, Option.pure_def,
        Option.isSome_some, true_iff]
      omega

/-- Worked instance of C5: nine steps that fill the ring and wrap around. -/
theorem anillo_fifo_witness :
    ∃ c, ejecutar_anillo pow_ejemplo acciones_ejemplo (anillo_inicial SharedMem.cero) = some c ∧
      c.extraidos <+: c.insertados ∧
      c.insertados = c.extraidos ++ pendientes c.segmento ∧
      c.insertados = (recibidos acciones_ejemplo).map (verificado pow_ejemplo) := by
  have hsome : (ejecutar_anillo pow_ejemplo acciones_ejemplo
      (anillo_inicial SharedMem.cero)).isSome = true := rfl
  obtain ⟨c, hc⟩ := Option.isSome_iff_exists.mp hsome
  obtain ⟨h1, h2, h3, _⟩ := anillo_fifo pow_ejemplo SharedMem.cero acciones_ejemplo c hc
  exact ⟨c, hc, h1, h2, h3⟩

/-- C6. Ring discipline: in every state reached from the initial ring by enabled
insertions and removals, `sem_empty + sem_fill = MAX_BLOQUES = 6` and
`0 ≤ sem_fill ≤ MAX_BLOQUES`. -/
theorem anillo_disciplina (pow_hash : Int → Int) (segmento : SharedMem)
    (acciones : List Accion) (c : Anillo)
    (h : ejecutar_anillo pow_hash acciones (anillo_inicial segmento) = some c) :
    c.segmento.semaforos.sem_empty + c.segmento.semaforos.sem_fill = MAX_BLOQUES ∧
    MAX_BLOQUES = 6 ∧
    0 ≤ c.segmento.semaforos.sem_fill ∧
    c.segmento.semaforos.sem_fill ≤ MAX_BLOQUES := by
  have hinv := (ejecutar_anillo_inv pow_hash segmento acciones c h).1
  obtain ⟨_, hsum, _⟩ := hinv
  exact ⟨hsum, rfl, Nat.zero_le _, by omega⟩

/-- Worked instance of C6. -/
theorem anillo_disciplina_witness :
    ∃ c, ejecutar_anillo pow_ejemplo acciones_ejemplo (anillo_inicial SharedMem.cero) = some c ∧
      c.segmento.semaforos.sem_empty + c.segmento.semaforos.sem_fill = MAX_BLOQUES ∧
      MAX_BLOQUES = 6 ∧
      0 ≤ c.segmento.semaforos.sem_fill ∧
      c.segmento.semaforos.sem_fill ≤ MAX_BLOQUES := by
  have hsome : (ejecutar_anillo pow_ejemplo acciones_ejemplo
      (anillo_inicial SharedMem.cero)).isSome = true := rfl
  obtain ⟨c, hc⟩ := Option.isSome_iff_exists.mp hsome
  exact ⟨c, hc, anillo_disciplina pow_ejemplo SharedMem.cero acciones_ejemplo c hc⟩

/-- C7, as stated, fails: after six insertions the ring is full, `in = out = 0` and
`sem_fill = 6`, so `(in - out) mod MAX_BLOQUES = 0` while `sem_fill = 6`. -/
theorem anillo_indices_counterexample :
    (ejecutar_anillo pow_ejemplo (List.replicate 6 (Accion.insertar Bloque.cero))
        (anillo_inicial SharedMem.cero)).map
      (fun c => ((((c.segmento.in_.val : Int) - (c.segmento.out.val : Int)) % (MAX_BLOQUES : Int)),
        c.segmento.semaforos.sem_fill))
      = some (0, 6) := by
  rfl

/-- C7, amended. Ring index invariant: in every state reached from the initial ring
by enabled insertions and removals, `(in - out) mod MAX_BLOQUES` equals
`sem_fill mod MAX_BLOQUES`: it equals `sem_fill` as long as the ring is not full, and
when the ring is full (`sem_fill = MAX_BLOQUES`) `in = out`. -/
theorem anillo_indices (pow_hash : Int → Int) (segmento : SharedMem)
    (acciones : List Accion) (c : Anillo)
    (h : ejecutar_anillo pow_hash acciones (anillo_inicial segmento) = some c) :
    ((c.segmento.in_.val : Int) - (c.segmento.out.val : Int)) % (MAX_BLOQUES : Int)
      = (c.segmento.semaforos.sem_fill : Int) % (MAX_BLOQUES : Int) ∧
    (c.segmento.semaforos.sem_fill < MAX_BLOQUES →
      ((c.segmento.in_.val : Int) - (c.segmento.out.val : Int)) % (MAX_BLOQUES : Int)
        = (c.segmento.semaforos.sem_fill : Int)) ∧
    (c.segmento.semaforos.sem_fill = MAX_BLOQUES → c.segmento.in_ = c.segmento.out) := by
  have hinv := (ejecutar_anillo_inv pow_hash segmento acciones c h).1
  obtain ⟨_, hsum, hin⟩ := hinv
  have ho := c.segmento.out.isLt
  have hi := c.segmento.in_.isLt
  simp only [MAX_BLOQUES] at *
  refine ⟨by omega, fun _ => by omega, fun hf => Fin.ext (by omega)⟩

/-- Worked instance of the amended C7. -/
theorem anillo_indices_witness :
    ∃ c, ejecutar_anillo pow_ejemplo acciones_ejemplo (anillo_inicial SharedMem.cero) = some c ∧
      ((c.segmento.in_.val : Int) - (c.segmento.out.val : Int)) % (MAX_BLOQUES : Int)
        = (c.segmento.semaforos.sem_fill : Int) % (MAX_BLOQUES : Int) := by
  have hsome : (ejecutar_anillo pow_ejemplo acciones_ejemplo
      (anillo_inicial SharedMem.cero)).isSome = true := rfl
  obtain ⟨c, hc⟩ := Option.isSome_iff_exists.mp hsome
  exact ⟨c, hc, (anillo_indices pow_ejemplo SharedMem.cero acciones_ejemplo c hc).1⟩

/-- C8. Terminator handling: for every queue that holds a block with
`solucion == COD_SALIDA` and every schedule of the Checker and the Printer, the
Checker has inserted a prefix of the verified messages up to and including the first
terminator and the Printer has printed a prefix of the verified messages before it;
a schedule has at most two steps per message up to the terminator; and when neither
process can step any more, both have left their loops, the Checker has inserted
exactly the messages up to and including the first terminator and received nothing
after it, and the Printer has printed exactly the messages before it, in order. -/
theorem manejo_terminador (pow_hash : Int → Int) (segmento : SharedMem) (cola : List Bloque)
    (hex : ∃ b ∈ cola, b.solucion = COD_SALIDA) (ps : List Proceso) (m : Monitores)
    (h : ejecutar_monitores pow_hash ps (monitores_inicial segmento cola) = some m) :
    m.insertados <+: (hasta_el_terminador cola).map (verificado pow_hash) ∧
    m.impresos <+: (antes_del_terminador cola).map (verificado pow_hash) ∧
    ps.length ≤ 2 * ((antes_del_terminador cola).length + 1) ∧
    ((comprobador_iteracion pow_hash m = none ∧ monitor_iteracion m = none) →
      (m.comprobador_fin = true ∧ m.monitor_fin = true ∧
        m.insertados = (hasta_el_terminador cola).map (verificado pow_hash) ∧
        m.impresos = (antes_del_terminador cola).map (verificado pow_hash) ∧
        m.cola = tras_el_terminador cola ∧
        ps.length = 2 * ((antes_del_terminador cola).length + 1))) := by
  obtain ⟨hsplit, hne, hdl, hlen, hl⟩ := partir_cola cola hex
  have h0 := monitoresInv_inicial pow_hash (hasta_el_terminador cola)
    (tras_el_terminador cola) hne segmento
  rw [← hsplit] at h0
  obtain ⟨i, j, hinv, hsum⟩ := ejecutar_monitores_inv pow_hash (hasta_el_terminador cola)
    (tras_el_terminador cola) hl ps _ m 0 0 h0 h
  have hinv0 := hinv
  obtain ⟨hji, hil, hring, hcola, hcf, hmf, hins, hpend, himp⟩ := hinv
  rw [hdl] at himp
  refine ⟨hins ▸ List.take_prefix _ _, himp ▸ List.take_prefix _ _, by omega, ?_⟩
  rintro ⟨hc, hm⟩
  obtain ⟨hi, hj⟩ := monitores_bloqueo pow_hash _ _ m i j hinv0 hc hm
  refine ⟨by simp [hcf, hi], by simp [hmf, hj], ?_, ?_, ?_, by omega⟩
  · rw [hins, hi, List.take_of_length_le (by simp)]
  · rw [himp, hj, List.take_of_length_le (by simp [hlen])]
  · rw [hcola, hi]
    simp

/-- Worked instance of C8: two blocks, the terminator and a trailing block; after six
steps neither process can step, the two blocks were printed and the trailing block
is still in the queue. -/
theorem manejo_terminador_witness :
    ∃ m, ejecutar_monitores pow_ejemplo turnos_ejemplo
        (monitores_inicial SharedMem.cero cola_ejemplo) = some m ∧
      m.comprobador_fin = true ∧ m.monitor_fin = true ∧
      m.impresos = [verificado pow_ejemplo (bloque_ejemplo 1 0 2 false),
        verificado pow_ejemplo (bloque_ejemplo 2 2 5 false)] ∧
      m.cola = [bloque_ejemplo 3 5 3 false] := by
  have hsome : (ejecutar_monitores pow_ejemplo turnos_ejemplo
      (monitores_inicial SharedMem.cero cola_ejemplo)).isSome = true := rfl
  have hm := Option.some_get hsome
  have hex : ∃ b ∈ cola_ejemplo, b.solucion = COD_SALIDA :=
    ⟨{ Bloque.cero with solucion := COD_SALIDA }, by simp [cola_ejemplo], rfl⟩
  obtain ⟨_, _, _, hfin⟩ := manejo_terminador pow_ejemplo SharedMem.cero cola_ejemplo hex
    turnos_ejemplo _ hm.symm
  obtain ⟨h1, h2, _, h4, h5, _⟩ := hfin ⟨rfl, rfl⟩
  exact ⟨_, hm.symm, h1, h2, h4, h5⟩

/-- C9. Exit (`salir`): with `mutex` free, the first slot of `pid[]` that holds the
exiting miner has its peer id, vote and coin fields set to -1 in the three tables and
every other slot is unchanged (no slot changes when the miner holds none); the block
records, the semaphores and the gate are unchanged; a terminator is handed to
`mq_send` if and only if afterwards every `pid[i]` is -1, and the terminator has
`solucion = COD_SALIDA` and every other field zero. -/
theorem salir_efecto (me : Int) (s : SharedMemMiner) (hm : s.semaforos.mutex ≠ 0) :
    ∃ s2 m, salir me s = some (s2, m) ∧
      (∀ i, s.pid i = me → (∀ k, k < i → s.pid k ≠ me) →
        s2.pid i = -1 ∧
        s2.votos_mineros i = { pid := -1, voto := -1 } ∧
        s2.monedas_mineros i = { pid := -1, monedas := -1 } ∧
        ∀ j, j ≠ i → s2.pid j = s.pid j ∧ s2.votos_mineros j = s.votos_mineros j ∧
          s2.monedas_mineros j = s.monedas_mineros j) ∧
      ((∀ i, s.pid i ≠ me) →
        s2.pid = s.pid ∧ s2.votos_mineros = s.votos_mineros ∧
        s2.monedas_mineros = s.monedas_mineros) ∧
      (s2.bloque_anterior = s.bloque_anterior ∧ s2.bloque_actual = s.bloque_actual ∧
        s2.semaforos = s.semaforos ∧ s2.entry_mutex = s.entry_mutex ∧
        s2.entry_gate = s.entry_gate ∧ s2.waiters_count = s.waiters_count ∧
        s2.can_enter = s.can_enter) ∧
      ((∃ b, m = some b) ↔ ∀ i, s2.pid i = -1) ∧
      (∀ b, m = some b →
        b.solucion = COD_SALIDA ∧ b.id = 0 ∧ b.objetivo = 0 ∧ b.ganador = 0 ∧
        b.total_votos = 0 ∧ b.votos_positivos = 0 ∧ b.correcto = false ∧
        ∀ i, b.monedas_mineros i = { pid := 0, monedas := 0 }) := by
  have hmu : s.semaforos.mutex - 1 + 1 = s.semaforos.mutex := by omega
  have hsem : ∀ x : Semaforo, x = s.semaforos →
      Semaforo.mk (x.mutex - 1 + 1) x.mutex_ronda x.ganador = s.semaforos := by
    intro x hx
    subst hx
    rw [hmu]
  refine ⟨_, _, salir_some me s hm, ?_, ?_, ?_, ?_, ?_⟩
  · intro i hi hmin
    rcases salir_borrar_casos me { s with
        semaforos := { s.semaforos with mutex := s.semaforos.mutex - 1 } } with
      ⟨hno, _⟩ | ⟨i2, hi2, hmin2, hr⟩
    · exact absurd hi (hno i)
    · have hii : i2 = i := by
        rcases lt_trichotomy i2 i with hlt | heq | hgt
        · exact absurd hi2 (hmin i2 hlt)
        · exact heq
        · exact absurd hi (hmin2 i hgt)
      subst hii
      rw [hr]
      refine ⟨by simp, by simp, by simp, ?_⟩
      intro j hj
      simp [Function.update_noteq hj]
  · intro hno
    rcases salir_borrar_casos me { s with
        semaforos := { s.semaforos with mutex := s.semaforos.mutex - 1 } } with
      ⟨_, hr⟩ | ⟨i2, hi2, _, _⟩
    · rw [hr]
      exact ⟨rfl, rfl, rfl⟩
    · exact absurd hi2 (hno i2)
  · rcases salir_borrar_casos me { s with
        semaforos := { s.semaforos with mutex := s.semaforos.mutex - 1 } } with
      ⟨_, hr⟩ | ⟨i2, _, _, hr⟩
    · rw [hr]
      exact ⟨rfl, rfl, hsem _ rfl, rfl, rfl, rfl, rfl⟩
    · rw [hr]
      exact ⟨rfl, rfl, hsem _ rfl, rfl, rfl, rfl, rfl⟩
  · simp only
    rw [← contar_mineros_cero]
    split <;> simp_all
  · intro b hb
    split at hb
    · simp only [Option.some.injEq] at hb
      subst hb
      exact ⟨rfl, rfl, rfl, rfl, rfl, rfl, rfl, fun _ => rfl⟩
    · exact absurd hb (by simp)

/-- Worked instance of C9: the last of two peers leaves; its slot is freed, the slot
of the peer that left before stays free, and the terminator is handed to `mq_send`. -/
theorem salir_efecto_witness :
    ∃ s2 m, salir 102 (region_ejemplo [-1, 102] [-1, 0] [-1, 3]) = some (s2, m) ∧
      s2.pid 1 = -1 ∧ s2.votos_mineros 1 = { pid := -1, voto := -1 } ∧
      s2.monedas_mineros 1 = { pid := -1, monedas := -1 } ∧
      (∃ b, m = some b) := by
  obtain ⟨s2, m, hs, h1, _, _, h4, _⟩ :=
    salir_efecto 102 (region_ejemplo [-1, 102] [-1, 0] [-1, 3]) (by decide)
  have hslot := h1 1 (by decide) (by
    intro k hk
    have hk0 : k = 0 := by
      apply Fin.ext
      have : k.val < 1 := hk
      simp only [Fin.val_zero]
      omega
    subst hk0
    decide)
  refine ⟨s2, m, hs, hslot.1, hslot.2.1, hslot.2.2.1, h4.mpr ?_⟩
  intro i
  by_cases hi : i = 1
  · rw [hi]; exact hslot.1
  · rw [(hslot.2.2.2 i hi).1]
    simp only [region_ejemplo]
    have hv : i.val ≠ 1 := fun hc => hi (Fin.ext hc)
    rcases Nat.lt_or_ge i.val 1 with h0 | h2
    · have : i.val = 0 := by omega
      simp [this]
    · have : 2 ≤ i.val := by omega
      rw [List.getD_eq_default]
      simp only [List.length_cons, List.length_nil]
      omega

/-- C10. Registration with the admission gate (`minero`, lines 607-646), for a miner
that finds `entry_mutex` free.  (a) Not in `pid[]`, gate open: the lowest free slot
`i` gets `pid[i] = votos_mineros[i].pid = monedas_mineros[i].pid = getpid()`, vote -1
and the miner's wallet; every other slot, `waiters_count` and the rest of the region
are unchanged.  (b) Not in `pid[]`, gate closed: `waiters_count` rises by exactly 1,
no slot changes, and the miner is left waiting on `entry_gate`, where its next step
is blocked as long as the gate counter is 0.  (c) Already in `pid[]`: nothing
changes. -/
theorem registro_efecto (me wallet : Int) (s : SharedMemMiner) :
    ((∀ i, s.pid i ≠ me) → s.entry_mutex ≠ 0 → s.can_enter = true →
      ∀ i, s.pid i = -1 → (∀ k, k < i → s.pid k ≠ -1) →
      ∃ s2, minero_registro me wallet s = some (s2, false) ∧
        s2.pid i = me ∧
        s2.votos_mineros i = { pid := me, voto := -1 } ∧
        s2.monedas_mineros i = { pid := me, monedas := wallet } ∧
        (∀ j, j ≠ i → s2.pid j = s.pid j ∧ s2.votos_mineros j = s.votos_mineros j ∧
          s2.monedas_mineros j = s.monedas_mineros j) ∧
        s2.waiters_count = s.waiters_count ∧
        s2.can_enter = s.can_enter ∧ s2.entry_gate = s.entry_gate ∧
        s2.entry_mutex = s.entry_mutex ∧ s2.semaforos = s.semaforos ∧
        s2.bloque_actual = s.bloque_actual ∧ s2.bloque_anterior = s.bloque_anterior) ∧
    ((∀ i, s.pid i ≠ me) → s.entry_mutex ≠ 0 → s.can_enter = false →
      ∃ s2, minero_registro me wallet s = some (s2, true) ∧
        s2.waiters_count = s.waiters_count + 1 ∧
        s2.pid = s.pid ∧ s2.votos_mineros = s.votos_mineros ∧
        s2.monedas_mineros = s.monedas_mineros ∧
        s2.entry_gate = s.entry_gate ∧
        (∀ t : SharedMemMiner, t.entry_gate = 0 → minero_despertar me wallet t = none)) ∧
    ((∃ i, s.pid i = me) → minero_registro me wallet s = some (s, false)) := by
  refine ⟨?_, ?_, minero_registro_presente me wallet s⟩
  · intro hno hm hcan i hi hmin
    have hmu : s.entry_mutex - 1 + 1 = s.entry_mutex := by omega
    refine ⟨_, by rw [minero_registro_some me wallet s hno hm, if_pos hcan], ?_⟩
    rcases ocupar_hueco_casos me wallet { s with entry_mutex := s.entry_mutex - 1 } with
      ⟨hfull, _⟩ | ⟨i2, hi2, hmin2, hr⟩
    · exact absurd hi (hfull i)
    · have hii : i2 = i := by
        rcases lt_trichotomy i2 i with hlt | heq | hgt
        · exact absurd hi2 (hmin i2 hlt)
        · exact heq
        · exact absurd hi (hmin2 i hgt)
      subst hii
      rw [hr]
      refine ⟨by simp, by simp, by simp, ?_, rfl, rfl, rfl, hmu, rfl, rfl, rfl⟩
      intro j hj
      simp [Function.update_noteq hj]
  · intro hno hm hcan
    have hmu : s.entry_mutex - 1 + 1 = s.entry_mutex := by omega
    have hcan2 : ¬ s.can_enter = true := by simp [hcan]
    refine ⟨{ s with waiters_count := s.waiters_count + 1,
                     entry_mutex := s.entry_mutex - 1 + 1 },
      by rw [minero_registro_some me wallet s hno hm, if_neg hcan2],
      rfl, rfl, rfl, rfl, rfl, ?_⟩
    intro t ht
    simp [minero_despertar, ht, sem_wait]

/-- Worked instance of C10: pid 104 joins a roster whose slot 1 is the lowest free
one; with the gate closed it is counted as a waiter instead; pid 103, already in the
roster, changes nothing. -/
theorem registro_efecto_witness :
    (∃ s2, minero_registro 104 5 (region_ejemplo [101, -1, 103] [0, -1, 0] [2, -1, 0])
        = some (s2, false) ∧
      s2.pid 1 = 104 ∧ s2.votos_mineros 1 = { pid := 104, voto := -1 } ∧
      s2.monedas_mineros 1 = { pid := 104, monedas := 5 } ∧ s2.waiters_count = 0) ∧
    (∃ s2, minero_registro 104 5
        { region_ejemplo [101, -1, 103] [0, -1, 0] [2, -1, 0] with can_enter := false }
        = some (s2, true) ∧
      s2.waiters_count = 1 ∧ s2.pid 1 = -1) ∧
    minero_registro 103 0 (region_ejemplo [101, -1, 103] [0, -1, 0] [2, -1, 0])
      = some (region_ejemplo [101, -1, 103] [0, -1, 0] [2, -1, 0], false) := by
  have hno : ∀ i : Fin MAX_MINERS,
      (region_ejemplo [101, -1, 103] [0, -1, 0] [2, -1, 0]).pid i ≠ 104 := by
    intro i
    simp only [region_ejemplo]
    rcases Nat.lt_or_ge i.val 3 with h | h
    · interval_cases hv : i.val <;> simp
    · rw [List.getD_eq_default _ _ (by simpa using h)]
      decide
  have hmin : ∀ k : Fin MAX_MINERS, k < 1 →
      (region_ejemplo [101, -1, 103] [0, -1, 0] [2, -1, 0]).pid k ≠ -1 := by
    intro k hk
    have hk0 : k = 0 := by
      apply Fin.ext
      have : k.val < 1 := hk
      simp only [Fin.val_zero]
      omega
    subst hk0
    decide
  refine ⟨?_, ?_, ?_⟩
  · obtain ⟨s2, hs, h1, h2, h3, _, h5, _⟩ :=
      (registro_efecto 104 5 (region_ejemplo [101, -1, 103] [0, -1, 0] [2, -1, 0])).1
        hno (by decide) rfl 1 (by decide) hmin
    exact ⟨s2, hs, h1, h2, h3, h5⟩
  · obtain ⟨s2, hs, h1, h2, _⟩ :=
      (registro_efecto 104 5
        { region_ejemplo [101, -1, 103] [0, -1, 0] [2, -1, 0] with can_enter := false }).2.1
        hno (by decide) rfl
    refine ⟨s2, hs, h1, ?_⟩
    rw [h2]
    decide
  · exact (registro_efecto 103 0 (region_ejemplo [101, -1, 103] [0, -1, 0] [2, -1, 0])).2.2
      ⟨2, by decide⟩
/-- C2. Approval rule: in the tally of `ganador` (lines 412-440), for a winner
registered in exactly one slot `i` and `mineros` the count the winner took, with
`approvals` the number of vote slots holding 1: if `approvals > mineros / 2` (C
integer division) the winner's wallet slot and its local `wallet` rise by exactly 1
and `bloque_actual.correcto` is set to true; otherwise both are unchanged and
`correcto` is set to false; in both cases no other wallet slot changes.  The second
critical section of `ganador` leaves the wallets and the local `wallet` as the tally
computed them. -/
theorem recuento_aprobacion (pow_hash : Int → Int) (me mineros : Int) (s : SharedMemMiner)
    (wallet : Int) (i : Fin MAX_MINERS) (hreg : RegistradoEn s me i) :
    (ganador_recuento me mineros s wallet).1.bloque_actual.votos_positivos
      = (aprobaciones s : Int) ∧
    ((aprobaciones s : Int) > Int.tdiv mineros 2 →
      ((ganador_recuento me mineros s wallet).1.monedas_mineros i).monedas
        = (s.monedas_mineros i).monedas + 1 ∧
      ((ganador_recuento me mineros s wallet).1.monedas_mineros i).pid = me ∧
      (ganador_recuento me mineros s wallet).2 = wallet + 1 ∧
      (ganador_recuento me mineros s wallet).1.bloque_actual.correcto = true) ∧
    (¬ (aprobaciones s : Int) > Int.tdiv mineros 2 →
      (ganador_recuento me mineros s wallet).1.monedas_mineros i = s.monedas_mineros i ∧
      (ganador_recuento me mineros s wallet).2 = wallet ∧
      (ganador_recuento me mineros s wallet).1.bloque_actual.correcto = false) ∧
    (∀ j, j ≠ i →
      (ganador_recuento me mineros s wallet).1.monedas_mineros j = s.monedas_mineros j) ∧
    (∀ (mq_send_ok : Bool), s.semaforos.mutex ≠ 0 →
      ∃ c, ganador_cerrar pow_hash me mineros wallet mq_send_ok s = some c ∧
        c.segmento.monedas_mineros = (ganador_recuento me mineros s wallet).1.monedas_mineros ∧
        c.wallet = (ganador_recuento me mineros s wallet).2) := by
  obtain ⟨hvp, _, hcor, _⟩ := ganador_recuento_campos me mineros s wallet
  obtain ⟨hmon, hw⟩ := ganador_recuento_monedas me mineros s wallet
  have hcard := registradoEn_card s me i hreg
  refine ⟨hvp, ?_, ?_, ?_, ?_⟩
  · intro h
    rw [hmon, hw, hcor, if_pos h, if_pos h, hcard]
    simp only [hreg.2.2.1, if_true, Nat.cast_one, decide_eq_true_eq]
    exact ⟨trivial, trivial, trivial, h⟩
  · intro h
    rw [hmon, hw, hcor, if_neg h, if_neg h]
    exact ⟨rfl, rfl, decide_eq_false h⟩
  · intro j hj
    rw [hmon]
    have hne := (hreg.2.2.2 j hj).2.2
    by_cases h : (aprobaciones s : Int) > Int.tdiv mineros 2
    · rw [if_pos h]
      simp only [hne, if_false]
    · rw [if_neg h]
  · intro mq_send_ok hm
    refine ⟨_, ganador_cerrar_some pow_hash me mineros wallet mq_send_ok s hm, ?_, ?_⟩
    · have h1 := (ganador_recuento_monedas me mineros
        { s with semaforos := { s.semaforos with mutex := s.semaforos.mutex - 1 } } wallet).1
      cases mq_send_ok
      · simp only [Bool.false_eq_true, if_false]
        rw [h1, hmon]
        rfl
      · simp only [if_true]
        rw [(ganador_rotar_campos pow_hash me _).2.2.2.2.1, h1, hmon]
        rfl
    · have h2 := (ganador_recuento_monedas me mineros
        { s with semaforos := { s.semaforos with mutex := s.semaforos.mutex - 1 } } wallet).2
      cases mq_send_ok
      · simp only [Bool.false_eq_true, if_false]
        rw [h2, hw]
        rfl
      · simp only [if_true]
        rw [h2, hw]
        rfl

set_option maxRecDepth 100000 in
/-- Worked instances of C2: with 3 peers and 1 approval (1 > 3/2 = 1 is false) the
winner's wallet stays at 0 and `correcto` is false; with 1 peer and 1 approval
(1 > 1/2 = 0) the wallet goes from 0 to 1 and `correcto` is true. -/
theorem recuento_aprobacion_witness :
    ((ganador_recuento 101 3 (region_ejemplo [101, 102, 103] [1, 0, 0] [0, 0, 0]) 0).1.monedas_mineros 0
        = { pid := 101, monedas := 0 } ∧
      (ganador_recuento 101 3 (region_ejemplo [101, 102, 103] [1, 0, 0] [0, 0, 0]) 0).2 = 0 ∧
      (ganador_recuento 101 3
        (region_ejemplo [101, 102, 103] [1, 0, 0] [0, 0, 0]) 0).1.bloque_actual.correcto = false) ∧
    (((ganador_recuento 101 1 (region_ejemplo [101] [1] [0]) 0).1.monedas_mineros 0).monedas = 1 ∧
      (ganador_recuento 101 1 (region_ejemplo [101] [1] [0]) 0).2 = 1 ∧
      (ganador_recuento 101 1 (region_ejemplo [101] [1] [0]) 0).1.bloque_actual.correcto = true) := by
  have hreg3 : RegistradoEn (region_ejemplo [101, 102, 103] [1, 0, 0] [0, 0, 0]) 101 0 := by
    unfold RegistradoEn
    decide
  have hreg1 : RegistradoEn (region_ejemplo [101] [1] [0]) 101 0 := by
    unfold RegistradoEn
    decide
  have h3 : ¬ ((aprobaciones (region_ejemplo [101, 102, 103] [1, 0, 0] [0, 0, 0]) : Int)
      > Int.tdiv 3 2) := by decide
  have h1 : (aprobaciones (region_ejemplo [101] [1] [0]) : Int) > Int.tdiv 1 2 := by decide
  obtain ⟨_, _, hno, _⟩ := recuento_aprobacion pow_ejemplo 101 3
    (region_ejemplo [101, 102, 103] [1, 0, 0] [0, 0, 0]) 0 0 hreg3
  obtain ⟨_, hsi, _⟩ := recuento_aprobacion pow_ejemplo 101 1
    (region_ejemplo [101] [1] [0]) 0 0 hreg1
  obtain ⟨a1, a2, a3⟩ := hno h3
  obtain ⟨b1, _, b3, b4⟩ := hsi h1
  exact ⟨⟨a1, a2, a3⟩, ⟨b1, b3, b4⟩⟩

set_option maxRecDepth 100000 in
/-- C1, as stated, fails on "previous_block equals the block just shipped": after the
round of a single registered miner, which approves its own block, the previous block
holds `correcto = true` while the message that was sent holds `correcto = false`. -/
theorem cadena_counterexample :
    (ganador pow_ejemplo 101 2 0 true (region_ejemplo [101] [-1] [0])).map
      (fun c => (c.segmento.bloque_anterior.correcto, c.envio.correcto,
        c.segmento.bloque_anterior.id, c.envio.id))
      = some (true, false, 1, 1) := by
  decide

/-- C1, amended. Chain linkage: in every state the network reaches from an initialised
region, the blocks sent by the successful runs of `ganador` are linked: each block
after the first has as target the solution of the one before and the next id, and the
first block has id 1; before any block is sent the current block has id 1, and once a
block has been sent the previous block agrees with the last block sent on id, target,
solution, winner, total votes and approvals, `bloque_actual.id = bloque_anterior.id + 1`
and `bloque_actual.objetivo = bloque_anterior.solucion`. -/
theorem cadena_enlazada (pow_hash : Int → Int) (s : SharedMemMiner) (l : List Bloque)
    (h : Alcanzable pow_hash s l) :
    (∀ (k : Nat) (hk : k + 1 < l.length),
      l[k + 1].objetivo = l[k].solucion ∧ l[k + 1].id = l[k].id + 1) ∧
    (∀ (h0 : 0 < l.length), l[0].id = 1) ∧
    (l = [] → s.bloque_actual.id = 1) ∧
    (∀ b, l.getLast? = some b →
      MismoContenido s.bloque_anterior b ∧
      s.bloque_actual.id = s.bloque_anterior.id + 1 ∧
      s.bloque_actual.objetivo = s.bloque_anterior.solucion) := by
  obtain ⟨h1, h2, h3, h4⟩ := alcanzable_encadenado pow_hash s l h
  refine ⟨?_, ?_, h3, h4⟩
  · intro k hk
    have := List.chain'_iff_get.mp h1 k (by omega)
    simpa [Enlace] using this
  · intro h0
    apply h2
    rw [List.head?_eq_head (List.length_pos.mp h0), List.head_eq_getElem]

set_option maxRecDepth 100000 in
/-- Worked instance of the amended C1: a miner registers in a new region and wins two
rounds; the second block has id 2 and its target is the solution of the first. -/
theorem cadena_enlazada_witness :
    ∃ s b1 b2, Alcanzable pow_ejemplo s [b1, b2] ∧
      b1.id = 1 ∧ b2.id = 2 ∧ b2.objetivo = b1.solucion ∧
      s.bloque_actual.id = 3 ∧ s.bloque_anterior.id = 2 := by
  have key : ∀ (s : SharedMemMiner) (b1 b2 : Bloque), Alcanzable pow_ejemplo s [b1, b2] →
      b1.id = 1 ∧ b2.id = 2 ∧ b2.objetivo = b1.solucion ∧
      s.bloque_actual.id = 3 ∧ s.bloque_anterior.id = 2 := by
    intro s b1 b2 h
    obtain ⟨c1, c2, _, c4⟩ := cadena_enlazada pow_ejemplo s [b1, b2] h
    have hl := c1 0 (by simp)
    have hf := c2 (by simp)
    obtain ⟨hcont, hid, _⟩ := c4 b2 rfl
    simp only [List.getElem_cons_zero, List.getElem_cons_succ, zero_add] at hl hf
    have h2 : b2.id = 2 := by rw [hl.2, hf]; rfl
    have h3 : s.bloque_anterior.id = 2 := by rw [hcont.1, h2]
    exact ⟨hf, h2, hl.1, by rw [hid, h3]; rfl, h3⟩
  have h0 : Alcanzable pow_ejemplo (primer_minero SharedMemMiner.cero) [] :=
    Alcanzable.inicio SharedMemMiner.cero
  have hr : (minero_registro 101 0 (primer_minero SharedMemMiner.cero)).isSome = true := rfl
  have h1 := Alcanzable.registro _ _ [] 101 0 _ h0 (Option.some_get hr).symm
  have hg1 : (ganador pow_ejemplo 101 2 0 true
      ((minero_registro 101 0 (primer_minero SharedMemMiner.cero)).get hr).1).isSome = true :=
    rfl
  have h2 := alcanzable_ganador pow_ejemplo _ [] 101 2 0 _ h1 (Option.some_get hg1).symm
  have hg2 : (ganador pow_ejemplo 101 5 1 true
      ((ganador pow_ejemplo 101 2 0 true
        ((minero_registro 101 0 (primer_minero SharedMemMiner.cero)).get hr).1).get
          hg1).segmento).isSome = true :=
    rfl
  have h3 := alcanzable_ganador pow_ejemplo _ _ 101 5 1 _ h2 (Option.some_get hg2).symm
  exact ⟨_, _, _, h3, key _ _ _ h3⟩

/-! ### C15 -/

/-- C15, the code against the claim.  With three arguments, the check of `main` (lines
787-807) calls `exit(EXIT_FAILURE)` exactly when `n_seconds ≤ 0`, whatever the number
of threads: the test of line 802, `n_hilos <= 0 && n_hilos > MAX_THREADS`, is never
true.  So `miner 5 0` and `miner 5 101` pass the check of `main`; the count is only
refused later, inside `minero` (lines 674-682), once the miner has registered in the
roster, waited for the start signal and closed the gate. -/
theorem argumentos_hilos (n_seconds n_hilos : Int) :
    main_argumentos 3 n_seconds n_hilos = decide (n_seconds ≤ 0) ∧
    main_argumentos 3 5 0 = false ∧ main_argumentos 3 5 101 = false ∧
    minero_hilos n_hilos = decide (n_hilos < 1 ∨ n_hilos > 100) := by
  refine ⟨?_, by decide, by decide, ?_⟩
  · unfold main_argumentos
    by_cases hs : n_seconds ≤ 0
    · simp [hs]
    · simp [hs, MAX_THREADS]
      intro h
      omega
  · unfold minero_hilos
    by_cases h1 : n_hilos < 1
    · simp [h1]
    · by_cases h2 : n_hilos > 100
      · simp [h1, h2, MAX_THREADS]
      · simp [h1, h2, MAX_THREADS]

/-! ### C16 -/

/-- C16. Search partition: for `POW_LIMIT ≥ 0` and `N_THREADS ≥ 1` (the bound
`N_THREADS ≤ MAX_THREADS` is not needed), the ranges `[start_j, end_j)` that `minero`
(lines 705-710) gives to the workers `j = 0 .. N_THREADS - 1` start at 0, are
contiguous (`end_j = start_(j+1)`), end at `POW_LIMIT`, are well formed, are pairwise
disjoint, and their union is exactly `[0, POW_LIMIT)`. -/
theorem busqueda_particion (POW_LIMIT N_THREADS target : Int) (hP : 0 ≤ POW_LIMIT)
    (hN : 1 ≤ N_THREADS) :
    (thread_data POW_LIMIT N_THREADS target 0).start = 0 ∧
    (∀ j, 0 ≤ j → j < N_THREADS - 1 →
      (thread_data POW_LIMIT N_THREADS target j).end_
        = (thread_data POW_LIMIT N_THREADS target (j + 1)).start) ∧
    (thread_data POW_LIMIT N_THREADS target (N_THREADS - 1)).end_ = POW_LIMIT ∧
    (∀ j, 0 ≤ j → j < N_THREADS →
      (thread_data POW_LIMIT N_THREADS target j).start
        ≤ (thread_data POW_LIMIT N_THREADS target j).end_) ∧
    (∀ j k x, 0 ≤ j → j < N_THREADS → 0 ≤ k → k < N_THREADS →
      (thread_data POW_LIMIT N_THREADS target j).start ≤ x →
      x < (thread_data POW_LIMIT N_THREADS target j).end_ →
      (thread_data POW_LIMIT N_THREADS target k).start ≤ x →
      x < (thread_data POW_LIMIT N_THREADS target k).end_ → j = k) ∧
    (∀ x, (0 ≤ x ∧ x < POW_LIMIT) ↔
      ∃ j, 0 ≤ j ∧ j < N_THREADS ∧
        (thread_data POW_LIMIT N_THREADS target j).start ≤ x ∧
        x < (thread_data POW_LIMIT N_THREADS target j).end_) := by
  refine ⟨?_, ?_, ?_, ?_, ?_, ?_⟩
  · rw [thread_data_start]; simp
  · intro j _ hj
    rw [thread_data_start, thread_data_end, if_neg (by omega)]
  · rw [thread_data_end, if_pos rfl]
  · intro j hj0 hjN
    exact (rango_dentro POW_LIMIT N_THREADS target j hP hN hj0 hjN).2.1
  · intro j k x _ hjN _ hkN a1 a2 b1 b2
    rcases lt_trichotomy j k with h | h | h
    · exact (rango_disjunto POW_LIMIT N_THREADS target j k x hP hN h hkN ⟨a1, a2⟩
        ⟨b1, b2⟩).elim
    · exact h
    · exact (rango_disjunto POW_LIMIT N_THREADS target k j x hP hN h hjN ⟨b1, b2⟩
        ⟨a1, a2⟩).elim
  · intro x
    constructor
    · rintro ⟨hx0, hxP⟩
      exact rango_cubre POW_LIMIT N_THREADS target x hN hx0 hxP
    · rintro ⟨j, hj0, hjN, a1, a2⟩
      obtain ⟨c1, _, c3⟩ := rango_dentro POW_LIMIT N_THREADS target j hP hN hj0 hjN
      exact ⟨by omega, by omega⟩

/-- Worked instance of C16: `POW_LIMIT = 10` and three workers give `[0,3)`, `[3,6)`
and `[6,10)`; candidate 7 belongs to a worker and to one only. -/
theorem busqueda_particion_witness :
    (thread_data 10 3 0 0).start = 0 ∧ (thread_data 10 3 0 0).end_ = 3 ∧
    (thread_data 10 3 0 1).start = 3 ∧ (thread_data 10 3 0 1).end_ = 6 ∧
    (thread_data 10 3 0 2).start = 6 ∧ (thread_data 10 3 0 2).end_ = 10 ∧
    (∃ j, 0 ≤ j ∧ j < 3 ∧ (thread_data 10 3 0 j).start ≤ 7 ∧ 7 < (thread_data 10 3 0 j).end_) ∧
    (∀ j k x, 0 ≤ j → j < 3 → 0 ≤ k → k < 3 →
      (thread_data 10 3 0 j).start ≤ x → x < (thread_data 10 3 0 j).end_ →
      (thread_data 10 3 0 k).start ≤ x → x < (thread_data 10 3 0 k).end_ → j = k) := by
  obtain ⟨h1, _, h3, _, h5, h6⟩ :=
    busqueda_particion 10 3 0 (by decide) (by decide)
  exact ⟨h1, by decide, by decide, by decide, by decide, h3,
    (h6 7).mp ⟨by decide, by decide⟩, h5⟩

/-! ### C18 -/

/-- C18. Voter protocol (`perdedor`, lines 496-542), for a miner registered in exactly
one slot `i`, with `mutex` free.  Once SIGUSR2 has arrived and no shutdown flag is
set, `perdedor` returns true and writes into the vote of slot `i` 1 if
`pow_hash(bloque_actual.solucion)` equals `bloque_actual.objetivo` and 0 otherwise;
the pid of that slot, every other vote slot, the wallets, the roster, both block
records (`total_votos` included), the semaphores and the admission gate are
unchanged.  With a shutdown flag set it returns false and the region is unchanged. -/
theorem perdedor_efecto (pow_hash : Int → Int) (me : Int) (s : SharedMemMiner)
    (i : Fin MAX_MINERS) (hm : s.semaforos.mutex ≠ 0) (hreg : RegistradoEn s me i) :
    (∃ s2, perdedor pow_hash me false false s = some (s2, true) ∧
      (s2.votos_mineros i).voto
        = (if pow_hash s.bloque_actual.solucion = s.bloque_actual.objetivo then 1 else 0) ∧
      (s2.votos_mineros i).pid = me ∧
      (∀ j, j ≠ i → s2.votos_mineros j = s.votos_mineros j) ∧
      s2.monedas_mineros = s.monedas_mineros ∧ s2.pid = s.pid ∧
      s2.bloque_actual = s.bloque_actual ∧ s2.bloque_anterior = s.bloque_anterior ∧
      s2.semaforos = s.semaforos ∧ s2.entry_mutex = s.entry_mutex ∧
      s2.entry_gate = s.entry_gate ∧ s2.waiters_count = s.waiters_count ∧
      s2.can_enter = s.can_enter) ∧
    (∀ got_signal_SIGINT got_signal_SIGALARM : Bool,
      (got_signal_SIGINT || got_signal_SIGALARM) = true →
      perdedor pow_hash me got_signal_SIGINT got_signal_SIGALARM s = some (s, false)) := by
  constructor
  · refine ⟨{ s with
        votos_mineros := Function.update s.votos_mineros i
          { pid := me,
            voto := if s.bloque_actual.objetivo = pow_hash s.bloque_actual.solucion then 1
              else 0 } }, ?_, ?_, ?_, ?_, rfl, rfl, rfl, rfl, rfl, rfl, rfl, rfl, rfl⟩
    · unfold perdedor
      rw [perdedor_votar_some pow_hash me s i hm hreg.2.1 (fun j hj => (hreg.2.2.2 j hj).2.1)]
      rfl
    · show (Function.update s.votos_mineros i _ i).voto = _
      rw [Function.update_same]
      by_cases hh : s.bloque_actual.objetivo = pow_hash s.bloque_actual.solucion
      · rw [if_pos hh, if_pos hh.symm]
      · rw [if_neg hh, if_neg (fun e => hh e.symm)]
    · show (Function.update s.votos_mineros i _ i).pid = _
      rw [Function.update_same]
    · intro j hj
      show Function.update s.votos_mineros i _ j = _
      rw [Function.update_noteq hj]
  · intro a b hab
    unfold perdedor
    rw [if_pos hab]

set_option maxRecDepth 100000 in
/-- Worked instance of C18 with the hash `x ↦ (3x + 1) mod 7`: three peers, the
current block has target 0 and solution 2 (which hashes to 0); the voter 102 of slot
1 writes 1 into its slot and the slots of 101 and 103 keep their votes. -/
theorem perdedor_efecto_witness :
    ∃ s2, perdedor pow_ejemplo 102 false false
        { (region_ejemplo [101, 102, 103] [1, 0, 0] [0, 0, 0]) with
          bloque_actual := bloque_ejemplo 1 0 2 false } = some (s2, true) ∧
      (s2.votos_mineros 1).voto = 1 ∧ (s2.votos_mineros 0).voto = 1 ∧
      (s2.votos_mineros 2).voto = 0 ∧ s2.bloque_actual.total_votos = 0 := by
  obtain ⟨⟨s2, h1, h2, _, h4, _, _, h7, _⟩, _⟩ := perdedor_efecto pow_ejemplo 102
    { (region_ejemplo [101, 102, 103] [1, 0, 0] [0, 0, 0]) with
      bloque_actual := bloque_ejemplo 1 0 2 false } 1 (by decide)
    (by unfold RegistradoEn; decide)
  refine ⟨s2, h1, ?_, ?_, ?_, ?_⟩
  · rw [h2]; decide
  · rw [h4 0 (by decide)]; decide
  · rw [h4 2 (by decide)]; decide
  · rw [h7]; decide

/-! ### C19 -/

/-- C19. Solo round: in a new region (`primer_minero`) where one miner `me` (a pid,
so not -1) has registered with wallet 0, it holds slot 0.  The first critical section
of `ganador` sets every vote to 0, writes the solution and `me` into the current
block and sets the vote of slot 0 to 1.  The block that `ganador` then sends has id 1,
target 0, the solution, winner `me`, one cast vote, one approval, and coins where
slot 0 is `me` with 1 coin (every other slot is free: pid -1, coins -1); the local
wallet is 1; the next block has id 2 and the sent solution as its target. -/
theorem ronda_solitaria (pow_hash : Int → Int) (s0 : SharedMemMiner) (me solucion : Int)
    (hme : me ≠ -1) :
    ∃ s1 sa c, minero_registro me 0 (primer_minero s0) = some (s1, false) ∧
      (∀ j, ((limpiar_votos s1).votos_mineros j).voto = 0) ∧
      ganador_anunciar me solucion s1 = some sa ∧
      (∀ j, (sa.votos_mineros j).voto = if j = 0 then 1 else 0) ∧
      sa.bloque_actual.solucion = solucion ∧ sa.bloque_actual.ganador = me ∧
      ganador pow_hash me solucion 0 true s1 = some c ∧
      c.retorno = true ∧
      c.envio.id = 1 ∧ c.envio.objetivo = 0 ∧ c.envio.solucion = solucion ∧
      c.envio.ganador = me ∧ c.envio.total_votos = 1 ∧ c.envio.votos_positivos = 1 ∧
      c.envio.monedas_mineros 0 = { pid := me, monedas := 1 } ∧
      (∀ j, j ≠ 0 → c.envio.monedas_mineros j = { pid := -1, monedas := -1 }) ∧
      c.wallet = 1 ∧
      c.segmento.bloque_actual.id = 2 ∧
      c.segmento.bloque_actual.objetivo = solucion := by
  obtain ⟨s1, hr, hreg, hlibres, hmon, hid, hobj, hsem, _⟩ := registro_inicial s0 me 0 hme
  have hm : s1.semaforos.mutex ≠ 0 := by
    rw [hsem]
    exact Nat.one_ne_zero
  obtain ⟨sa, c, a1, a2, a3, a4, a5, a6, a7, a8, a9, a10, a11, a12, a13, a14, a15, a16, a17⟩ :=
    ganador_unico pow_hash me solucion 0 s1 0 hme hm hreg
      (fun j hj => ⟨(hlibres j hj).1, (hlibres j hj).2.1⟩)
  refine ⟨s1, sa, c, hr, ?_, a1, a2, a3, a4, a5, a6, ?_, ?_, a9, a10, a11, a12, ?_, ?_, ?_,
    ?_, a17⟩
  · intro j
    rw [limpiar_votos_eq]
  · rw [a7, hid]
  · rw [a8, hobj]
  · rw [a13, hmon]
    rfl
  · intro j hj
    rw [a14 j hj, (hlibres j hj).2.2]
  · rw [a15]
    rfl
  · rw [a16, hid]
    rfl

/-- Worked instance of C19 with the hash `x ↦ (3x + 1) mod 7`: pid 101 registers in a
new region and wins the first round with solution 2. -/
theorem ronda_solitaria_witness :
    ∃ s1 c, minero_registro 101 0 (primer_minero SharedMemMiner.cero) = some (s1, false) ∧
      ganador pow_ejemplo 101 2 0 true s1 = some c ∧
      c.envio.id = 1 ∧ c.envio.objetivo = 0 ∧ c.envio.solucion = 2 ∧
      c.envio.ganador = 101 ∧ c.envio.total_votos = 1 ∧ c.envio.votos_positivos = 1 ∧
      c.envio.monedas_mineros 0 = { pid := 101, monedas := 1 } ∧
      c.segmento.bloque_actual.objetivo = 2 := by
  obtain ⟨s1, _, c, h1, _, _, _, _, _, h7, _, h9, h10, h11, h12, h13, h14, h15, _, _, _, h19⟩ :=
    ronda_solitaria pow_ejemplo SharedMemMiner.cero 101 2 (by decide)
  exact ⟨s1, c, h1, h7, h9, h10, h11, h12, h13, h14, h15, h19⟩

/-! ### C12 -/

/-- C12, the code against the claim.  In a run of `minero` whose search ended with
`found ≠ 0` (1 for a solution, -1 for an interrupted search: line 729 tests
`if (found)`) and in which no shutdown signal is read up to the election, the miner
waits once on `semaforos.ganador` (line 730) and posts it twice: lines 404 and 749
for the winner, lines 733 and 749 for a miner that finds SIGUSR2 set, lines 404 and
745 when the send fails.  Whatever the path, the counter ends one above the value it
had when the run began, so after the first round it is 2, not 1. -/
theorem latch_eleccion (pow_hash : Int → Int) (me found solution wallet : Int)
    (mq_send_ok : Bool) (l : Lecturas) (s : SharedMemMiner) (f : Final)
    (hfound : found ≠ 0) (h722 : l.apagado_722 = false) (h734 : l.apagado_734 = false)
    (h : minero_final pow_hash me found solution wallet mq_send_ok l s = some f) :
    f.segmento.semaforos.ganador = s.semaforos.ganador + 1 :=
  minero_final_latch pow_hash me found solution wallet mq_send_ok l s f hfound h722 h734 h

set_option maxRecDepth 100000 in
/-- The failing input of C12 with the hash `x ↦ (3x + 1) mod 7`: pid 101 alone in a
new region finds solution 2 and wins; pid 102 finds a solution but SIGUSR2 is set at
line 731; pid 102 is interrupted by SIGUSR2.  Each run ends with the latch at 2. -/
theorem latch_eleccion_witness :
    (∃ f, minero_final pow_ejemplo 101 1 2 0 true lecturas_tranquilas
        (region_ejemplo [101] [-1] [0]) = some f ∧
      f.retorno = 0 ∧ f.segmento.semaforos.ganador = 2) ∧
    (∃ f, minero_final pow_ejemplo 102 1 2 0 true lecturas_votante
        (region_ejemplo [101, 102] [1, 0] [0, 0]) = some f ∧
      f.retorno = 0 ∧ f.segmento.semaforos.ganador = 2) ∧
    (∃ f, minero_final pow_ejemplo 102 (-1) (-1) 0 true lecturas_votante
        (region_ejemplo [101, 102] [1, 0] [0, 0]) = some f ∧
      f.retorno = 0 ∧ f.segmento.semaforos.ganador = 2) := by
  refine ⟨?_, ?_, ?_⟩
  · obtain ⟨f, hf⟩ := minero_final_existe pow_ejemplo 101 1 2 0 true lecturas_tranquilas
      (region_ejemplo [101] [-1] [0]) (by decide) (by decide) (by decide)
    exact ⟨f, hf, minero_final_retorno pow_ejemplo 101 1 2 0 _ _ f rfl rfl hf,
      latch_eleccion pow_ejemplo 101 1 2 0 true lecturas_tranquilas _ f (by decide) rfl rfl hf⟩
  · obtain ⟨f, hf⟩ := minero_final_existe pow_ejemplo 102 1 2 0 true lecturas_votante
      (region_ejemplo [101, 102] [1, 0] [0, 0]) (by decide) (by decide) (by decide)
    exact ⟨f, hf, minero_final_retorno pow_ejemplo 102 1 2 0 _ _ f rfl rfl hf,
      latch_eleccion pow_ejemplo 102 1 2 0 true lecturas_votante _ f (by decide) rfl rfl hf⟩
  · obtain ⟨f, hf⟩ := minero_final_existe pow_ejemplo 102 (-1) (-1) 0 true lecturas_votante
      (region_ejemplo [101, 102] [1, 0] [0, 0]) (by decide) (by decide) (by decide)
    exact ⟨f, hf, minero_final_retorno pow_ejemplo 102 (-1) (-1) 0 _ _ f rfl rfl hf,
      latch_eleccion pow_ejemplo 102 (-1) (-1) 0 true lecturas_votante _ f (by decide) rfl rfl
        hf⟩

/-! ### C13 -/

set_option maxRecDepth 1000000 in
set_option maxHeartbeats 4000000 in
/-- C13, the code against the claim, on a schedule of two miners (pids 101 and 102)
with the hash `x ↦ (3x + 1) mod 7`.  Round 1 is regular: 101 wins, 102 votes, block 1
is sent.  It leaves the election latch at 3 (see C12), so in round 2, where both
searches end together, both miners pass the wait of line 730 and both read
`got_signal_SIGUSR2 = 0` at line 731: both stand at the entry of `ganador`.  Both
then run it: 102 overwrites the solution and the winner 101 had announced, 101 sends
block 2 with winner 102, and 102 sends a block 3 made of the placeholder solution the
rotation wrote.  Two rounds, three blocks, two senders in round 2. -/
theorem ganador_doble :
    (ejecutar_red pow_ejemplo turnos_dos_ganadores
        (red_inicial SharedMemMiner.cero 101 [102])).map
      (fun r => (r.mineros.map (fun m =>
          decide (m.punto = Punto.ganador_1 ∧ m.got_signal_SIGUSR2 = false)),
        r.enviados.map (fun e => (e.1, e.2.id, e.2.ganador))))
      = some ([true, true], [(101, 1, 101)]) ∧
    (ejecutar_red pow_ejemplo (turnos_dos_ganadores ++ turnos_dos_cierres)
        (red_inicial SharedMemMiner.cero 101 [102])).map
      (fun r => r.enviados.map (fun e => (e.1, e.2.id, e.2.ganador, e.2.solucion)))
      = some [(101, 1, 101, 2), (101, 2, 102, 5), (102, 3, 101, 2)] := by
  constructor
  · decide
  · decide

/-! ### C14 -/

set_option maxRecDepth 1000000 in
set_option maxHeartbeats 4000000 in
/-- C14, the code against the claim, on a schedule of three processes (pids 101, 102
and 103) with the hash `x ↦ (3x + 1) mod 7`.  After it, process 101 has closed the
gate of round 2 and is searching, and `can_enter` is true: 102, which entered round 2
with SIGUSR2 still set from round 1, has voted and run lines 767-773.  One more step
and 103, which had not registered, claims slot 2 of the roster while 101 is still
searching. -/
theorem puerta_abierta_minando :
    (ejecutar_red pow_ejemplo turnos_puerta_abierta
        (red_inicial SharedMemMiner.cero 101 [102, 103])).map
      (fun r => (r.segmento.can_enter, r.segmento.pid 2,
        r.mineros.map (fun m => decide (m.punto = Punto.minando))))
      = some (true, -1, [true, false, false]) ∧
    (ejecutar_red pow_ejemplo (turnos_puerta_abierta ++ [turno 2])
        (red_inicial SharedMemMiner.cero 101 [102, 103])).map
      (fun r => (r.segmento.can_enter, r.segmento.pid 2,
        r.mineros.map (fun m => decide (m.punto = Punto.minando))))
      = some (true, 103, [true, false, false]) := by
  constructor
  · decide
  · decide

/-! ### C20 -/

set_option maxRecDepth 100000 in
/-- C20, as stated, fails on "a miner that ends the round as a voter, or that found
no solution, leaves `can_enter`, `entry_gate` and `waiters_count` unchanged": with
the gate closed and two miners waiting, the voter 102 (interrupted by SIGUSR2) and a
miner whose search found nothing both return 0 without having sent a block, and
leave `can_enter = true`, `entry_gate = 2`, `waiters_count = 0`. -/
theorem puerta_reapertura_counterexample :
    (minero_final pow_ejemplo 102 (-1) (-1) 0 true lecturas_votante
        { (region_ejemplo [101, 102] [1, 0] [0, 0]) with
          can_enter := false, waiters_count := 2 }).map
      (fun f => (f.retorno, f.envio.isSome, f.segmento.can_enter, f.segmento.entry_gate,
        f.segmento.waiters_count)) = some (0, false, true, 2, 0) ∧
    (minero_final pow_ejemplo 102 0 (-1) 0 true lecturas_tranquilas
        { (region_ejemplo [101, 102] [1, 0] [0, 0]) with
          can_enter := false, waiters_count := 2 }).map
      (fun f => (f.retorno, f.envio.isSome, f.segmento.can_enter, f.segmento.entry_gate,
        f.segmento.waiters_count)) = some (0, false, true, 2, 0) := by
  constructor
  · decide
  · decide

/-- C20, amended. Gate reopening: the gate is opened by every run of `minero` that
reaches line 767, whatever the role of the miner in the round.  For a run from the
end of the search (line 722): (a) if it returns 0 and no shutdown flag was read at
lines 722 and 752, it has set `can_enter = true`, posted `entry_gate` exactly
`waiters_count` times (the value at the start of the run) and reset `waiters_count`
to 0; any other run (a shutdown flag read, `perdedor` or `ganador` returning false)
leaves the three as they were; (b) when the send succeeds and no shutdown flag is
read inside `perdedor`, the run returns 0, be it the run of the winner, of a voter or
of a miner that found nothing; (c) with the three semaphores free the run
returns. -/
theorem puerta_reapertura (pow_hash : Int → Int) (me found solution wallet : Int)
    (mq_send_ok : Bool) (l : Lecturas) (s : SharedMemMiner) :
    (∀ f, minero_final pow_hash me found solution wallet mq_send_ok l s = some f →
      ((f.retorno = 0 ∧ l.apagado_722 = false ∧ l.apagado_752 = false) →
        f.segmento.can_enter = true ∧
        f.segmento.entry_gate = s.entry_gate + s.waiters_count.toNat ∧
        f.segmento.waiters_count = 0) ∧
      (¬ (f.retorno = 0 ∧ l.apagado_722 = false ∧ l.apagado_752 = false) →
        f.segmento.can_enter = s.can_enter ∧ f.segmento.entry_gate = s.entry_gate ∧
        f.segmento.waiters_count = s.waiters_count)) ∧
    (mq_send_ok = true → l.apagado_734 = false → l.apagado_760 = false →
      ∀ f, minero_final pow_hash me found solution wallet mq_send_ok l s = some f →
        f.retorno = 0) ∧
    (s.semaforos.ganador ≠ 0 → s.semaforos.mutex ≠ 0 → s.entry_mutex ≠ 0 →
      ∃ f, minero_final pow_hash me found solution wallet mq_send_ok l s = some f) := by
  refine ⟨fun f hf => ?_, fun hok h734 h760 f hf => ?_, fun hg hm hem => ?_⟩
  · obtain ⟨a, b⟩ := minero_final_efecto pow_hash me found solution wallet mq_send_ok l s f hf
    exact ⟨a, fun hc => ⟨(b hc).2.2.2, (b hc).2.1, (b hc).2.2.1⟩⟩
  · subst hok
    exact minero_final_retorno pow_hash me found solution wallet l s f h734 h760 hf
  · exact minero_final_existe pow_hash me found solution wallet mq_send_ok l s hg hm hem

set_option maxRecDepth 100000 in
/-- Worked instance of the amended C20: with the gate closed and two miners waiting,
the winner 101 returns 0 and leaves `can_enter = true`, `entry_gate = 2` and
`waiters_count = 0`. -/
theorem puerta_reapertura_witness :
    ∃ f, minero_final pow_ejemplo 101 1 2 0 true lecturas_tranquilas
        { (region_ejemplo [101, 102] [0, 0] [0, 0]) with
          can_enter := false, waiters_count := 2 } = some f ∧
      f.retorno = 0 ∧ f.segmento.can_enter = true ∧ f.segmento.entry_gate = 2 ∧
      f.segmento.waiters_count = 0 := by
  obtain ⟨h1, h2, h3⟩ := puerta_reapertura pow_ejemplo 101 1 2 0 true lecturas_tranquilas
    { (region_ejemplo [101, 102] [0, 0] [0, 0]) with can_enter := false, waiters_count := 2 }
  obtain ⟨f, hf⟩ := h3 (by decide) (by decide) (by decide)
  have hr := h2 rfl rfl rfl f hf
  obtain ⟨a, b, c⟩ := (h1 f hf).1 ⟨hr, rfl, rfl⟩
  exact ⟨f, hf, hr, a, b, c⟩

/-! ### C21 -/

/-- C21. The message carries no verdict.  Whatever state `t` the second critical
section of `ganador` finds (whatever the voters wrote) and whether `mq_send` succeeds
or not, the block handed to `mq_send` has `correcto = false`, while the verdict of
the tally, approvals > `mineros` / 2, stays in the region (in the previous block
after the rotation, in the current block when the send fails); the same holds for a
whole run of `ganador`.  The message carries the solution and the target of the
current block, and what the Checker stores for it does not depend on the `correcto`
field it receives: the stored verdict is the re-hash of (solution, target), and it is
what the Printer takes out of an empty ring after that insertion. -/
theorem mensaje_sin_veredicto (pow_hash : Int → Int) (me mineros wallet : Int)
    (mq_send_ok : Bool) (t : SharedMemMiner) (c : Cierre)
    (h : ganador_cerrar pow_hash me mineros wallet mq_send_ok t = some c) :
    c.envio.correcto = false ∧
    (if mq_send_ok = true then c.segmento.bloque_anterior.correcto
      else c.segmento.bloque_actual.correcto)
      = decide ((aprobaciones t : Int) > Int.tdiv mineros 2) ∧
    (∀ (solucion : Int) (s : SharedMemMiner) (c2 : Cierre),
      ganador pow_hash me solucion wallet mq_send_ok s = some c2 →
      c2.envio.correcto = false) ∧
    c.envio.solucion = t.bloque_actual.solucion ∧
    c.envio.objetivo = t.bloque_actual.objetivo ∧
    (∀ (v : Bool) (anillo : SharedMem),
      comprobador_insertar pow_hash { c.envio with correcto := v } anillo
        = comprobador_insertar pow_hash c.envio anillo) ∧
    (∀ (anillo a2 : SharedMem), comprobador_insertar pow_hash c.envio anillo = some a2 →
      (a2.bloques anillo.in_).correcto
        = decide (pow_hash t.bloque_actual.solucion = t.bloque_actual.objetivo) ∧
      (anillo.out = anillo.in_ → ∀ (a3 : SharedMem) (b : Bloque),
        monitor_extraer a2 = some (a3, b) →
        b.correcto
          = decide (pow_hash t.bloque_actual.solucion = t.bloque_actual.objetivo))) := by
  have he := ganador_cerrar_envio pow_hash me mineros wallet mq_send_ok t c h
  obtain ⟨_, e2, e3, _⟩ := ganador_envio_campos (ganador_recuento me mineros
    { t with semaforos := { t.semaforos with mutex := t.semaforos.mutex - 1 } } wallet).1
  obtain ⟨_, _, _, _, r5, r6, _⟩ := ganador_recuento_campos me mineros
    { t with semaforos := { t.semaforos with mutex := t.semaforos.mutex - 1 } } wallet
  have hsol : c.envio.solucion = t.bloque_actual.solucion := by
    rw [he, e3, r6]
  have hobj : c.envio.objetivo = t.bloque_actual.objetivo := by
    rw [he, e2, r5]
  have hslot : ∀ (anillo a2 : SharedMem),
      comprobador_insertar pow_hash c.envio anillo = some a2 →
      (a2.bloques anillo.in_).correcto
        = decide (pow_hash t.bloque_actual.solucion = t.bloque_actual.objetivo) := by
    intro anillo a2 hi
    rw [comprobador_insertar_escribe pow_hash c.envio anillo a2 hi]
    show decide (pow_hash c.envio.solucion = c.envio.objetivo) = _
    rw [hsol, hobj]
  refine ⟨ganador_cerrar_sin_veredicto pow_hash me mineros wallet mq_send_ok t c h,
    ganador_cerrar_veredicto pow_hash me mineros wallet mq_send_ok t c h,
    fun solucion s c2 h2 => ganador_sin_veredicto pow_hash me solucion wallet mq_send_ok s c2 h2,
    hsol, hobj,
    fun v anillo => comprobador_insertar_sin_veredicto pow_hash c.envio v anillo, ?_⟩
  intro anillo a2 hi
  refine ⟨hslot anillo a2 hi, ?_⟩
  intro hio a3 b hx
  have hout : a2.out = anillo.out := by
    by_cases hem : anillo.semaforos.sem_empty = 0
    · rw [comprobador_insertar_none pow_hash _ anillo (Or.inl hem)] at hi
      exact Option.noConfusion hi
    · by_cases hm : anillo.semaforos.mutex = 0
      · rw [comprobador_insertar_none pow_hash _ anillo (Or.inr hm)] at hi
        exact Option.noConfusion hi
      · rw [comprobador_insertar_some pow_hash _ anillo hem hm] at hi
        simp only [Option.some.injEq] at hi
        rw [← hi]
  rw [monitor_extraer_bloque a2 a3 b hx, hout, hio]
  exact hslot anillo a2 hi

set_option maxRecDepth 100000 in
/-- Worked instance of C21 with the hash `x ↦ (3x + 1) mod 7`: a lone winner has
announced the solution 3 for the target 0 and approved it.  The tally approves (1 > 0)
and the previous block of the region says so, the message says `correcto = false`,
and the Checker stores `false` because 3 hashes to 3, not to 0. -/
theorem mensaje_sin_veredicto_witness :
    ∃ c, ganador_cerrar pow_ejemplo 101 1 0 true
        { (region_ejemplo [101] [1] [0]) with
          bloque_actual := bloque_ejemplo 1 0 3 false } = some c ∧
      c.envio.correcto = false ∧ c.segmento.bloque_anterior.correcto = true ∧
      ∀ a2, comprobador_insertar pow_ejemplo c.envio (setup_comprobador SharedMem.cero)
          = some a2 → (a2.bloques 0).correcto = false := by
  obtain ⟨c, hc, _⟩ := ganador_cerrar_campos pow_ejemplo 101 1 0
    { (region_ejemplo [101] [1] [0]) with bloque_actual := bloque_ejemplo 1 0 3 false }
    (by decide)
  obtain ⟨h1, h2, _, _, _, _, h7⟩ := mensaje_sin_veredicto pow_ejemplo 101 1 0 true
    { (region_ejemplo [101] [1] [0]) with bloque_actual := bloque_ejemplo 1 0 3 false } c hc
  refine ⟨c, hc, h1, ?_, ?_⟩
  · rw [if_pos rfl] at h2
    rw [h2]
    decide
  · intro a2 ha
    have h := (h7 (setup_comprobador SharedMem.cero) a2 ha).1
    exact h.trans (by decide)

/-! ### C23 -/

/-- C23. A send that fails.  When the second critical section of `ganador` (lines
412-460) runs with `mutex` free and `mq_send` fails, `ganador` returns false and
`mutex` is left one below its value before the wait of line 412: the return of line
459 comes before the post of line 477, so with `mutex` at 1 before the wait every
later critical section (`ganador`, `perdedor`, `salir`) blocks.  The block is not
rotated: id, target, solution and winner of the current block and the whole previous
block are unchanged.  The tally is in the region: approvals, cast votes, the verdict,
and, when the verdict is approval, one more coin in every wallet slot of the winner,
in the copy of the wallets in the current block and in the local `wallet`.  In
`minero` (lines 740-747) the winner then returns 1 with `mutex` still held, the chain
and the admission gate as they were. -/
theorem envio_fallido (pow_hash : Int → Int) (me mineros wallet : Int)
    (t : SharedMemMiner) (hm : t.semaforos.mutex ≠ 0) :
    ∃ c, ganador_cerrar pow_hash me mineros wallet false t = some c ∧
      c.retorno = false ∧
      c.segmento.semaforos.mutex = t.semaforos.mutex - 1 ∧
      (t.semaforos.mutex = 1 → ∀ (otro solucion : Int),
        ganador_anunciar otro solucion c.segmento = none ∧
        perdedor_votar pow_hash otro c.segmento = none ∧
        salir otro c.segmento = none) ∧
      c.segmento.bloque_actual.id = t.bloque_actual.id ∧
      c.segmento.bloque_actual.objetivo = t.bloque_actual.objetivo ∧
      c.segmento.bloque_actual.solucion = t.bloque_actual.solucion ∧
      c.segmento.bloque_actual.ganador = t.bloque_actual.ganador ∧
      c.segmento.bloque_anterior = t.bloque_anterior ∧
      c.segmento.bloque_actual.votos_positivos = (aprobaciones t : Int) ∧
      c.segmento.bloque_actual.total_votos = (votos_emitidos t : Int) ∧
      c.segmento.bloque_actual.correcto
        = decide ((aprobaciones t : Int) > Int.tdiv mineros 2) ∧
      (∀ i, c.segmento.monedas_mineros i
        = if (aprobaciones t : Int) > Int.tdiv mineros 2 ∧ (t.monedas_mineros i).pid = me then
            { (t.monedas_mineros i) with monedas := (t.monedas_mineros i).monedas + 1 }
          else t.monedas_mineros i) ∧
      c.segmento.bloque_actual.monedas_mineros = c.segmento.monedas_mineros ∧
      c.wallet = (if (aprobaciones t : Int) > Int.tdiv mineros 2 then
          wallet + ((Finset.univ.filter (fun i => (t.monedas_mineros i).pid = me)).card : Int)
        else wallet) ∧
      (∀ (found solution : Int) (l : Lecturas) (s : SharedMemMiner) (f : Final),
        l.apagado_722 = false → found ≠ 0 → l.usr2_731 = false →
        minero_final pow_hash me found solution wallet false l s = some f →
        f.retorno = 1 ∧ s.semaforos.mutex ≠ 0 ∧
        f.segmento.semaforos.mutex = s.semaforos.mutex - 1 ∧
        MismaCadena s f.segmento ∧ MismaPuerta s f.segmento) := by
  obtain ⟨c, hc, k1, k2, k3, k4, k5, k6, k7, k8, k9, k10, k11, k12, k13, _⟩ :=
    ganador_cerrar_fallo_campos pow_hash me mineros wallet t hm
  have hmut : c.segmento.semaforos.mutex = t.semaforos.mutex - 1 := by
    rw [k2]
  refine ⟨c, hc, k1, hmut, ?_, k3, k4, k5, k6, k7, k8, k9, k10, ?_, k12, k13, ?_⟩
  · intro h1 otro solucion
    have h0 : c.segmento.semaforos.mutex = 0 := by
      rw [hmut, h1]
    exact ⟨ganador_anunciar_none otro solucion c.segmento h0,
      perdedor_votar_none pow_hash otro c.segmento h0, salir_none otro c.segmento h0⟩
  · intro i
    rw [k11]
    by_cases ha : (aprobaciones t : Int) > Int.tdiv mineros 2
    · rw [if_pos ha]
      by_cases hp : (t.monedas_mineros i).pid = me
      · rw [if_pos (And.intro ha hp)]
        exact if_pos hp
      · rw [if_neg (fun (hh : (aprobaciones t : Int) > Int.tdiv mineros 2 ∧
          (t.monedas_mineros i).pid = me) => hp hh.2)]
        exact if_neg hp
    · rw [if_neg ha, if_neg (fun (hh : (aprobaciones t : Int) > Int.tdiv mineros 2 ∧
        (t.monedas_mineros i).pid = me) => ha hh.1)]
  · intro found solution l s f h722 hfound h731 hf
    obtain ⟨m1, m2, m3, _, m5, m6⟩ :=
      minero_final_fallo pow_hash me found solution wallet l s f h722 hfound h731 hf
    exact ⟨m1, m2, m3, m5, m6⟩

set_option maxRecDepth 100000 in
/-- Worked instance of C23: two peers have approved, the winner 101 holds 5 coins and
the send fails.  `ganador` returns false, `mutex` is at 0, the current block keeps id
1 and target 0, the verdict is approval and the winner has 6 coins in the region and
in its local wallet; a voter then blocks on `mutex`. -/
theorem envio_fallido_witness :
    ∃ c, ganador_cerrar pow_ejemplo 101 2 5 false
        (region_ejemplo [101, 102] [1, 1] [5, 7]) = some c ∧
      c.retorno = false ∧ c.segmento.semaforos.mutex = 0 ∧
      c.segmento.bloque_actual.id = 1 ∧ c.segmento.bloque_actual.objetivo = 0 ∧
      c.segmento.bloque_actual.votos_positivos = 2 ∧
      c.segmento.bloque_actual.correcto = true ∧
      c.segmento.monedas_mineros 0 = { pid := 101, monedas := 6 } ∧
      c.segmento.monedas_mineros 1 = { pid := 102, monedas := 7 } ∧
      c.wallet = 6 ∧
      perdedor_votar pow_ejemplo 102 c.segmento = none := by
  obtain ⟨c, hc, h1, h2, h3, h4, h5, _, _, _, h9, _, h11, h12, _, h14, _⟩ :=
    envio_fallido pow_ejemplo 101 2 5 (region_ejemplo [101, 102] [1, 1] [5, 7]) (by decide)
  refine ⟨c, hc, h1, ?_, ?_, ?_, ?_, ?_, ?_, ?_, ?_, (h3 (by decide) 102 0).2.1⟩
  · rw [h2]; decide
  · rw [h4]; decide
  · rw [h5]; decide
  · rw [h9]; decide
  · rw [h11]; decide
  · rw [h12 0]; decide
  · rw [h12 1]; decide
  · rw [h14]; decide

/-! ### C3 -/

set_option maxRecDepth 1000000 in
set_option maxHeartbeats 4000000 in
/-- C3, the code against the claim, on a schedule of four processes (pids 101 to 104)
with the hash `x ↦ (3x + 1) mod 7`.  In round 2 the winner 101 counts `mineros = 3`
(lines 398-402); before it tallies, the voter 103 opens the gate (lines 767-773), 104
registers, and 102, which passed line 731 before the announcement of 101, runs the
first critical section of `ganador` and sets every vote to 0 (lines 383-385), the
vote of the new slot included.  When 101 is about to tally the three tables are in
step and every vote slot holding 1 belongs to a registered peer; its tally counts
four cast votes and the block of round 2 is sent with `total_votos = 4`, above the
count of three; the block of round 1 was sent with 3 cast votes and 3 approvals. -/
theorem votos_integridad :
    (ejecutar_red pow_ejemplo turnos_cuatro_votos
        (red_inicial SharedMemMiner.cero 101 [102, 103, 104])).map
      (fun r => (decide (∀ i, (r.segmento.votos_mineros i).pid = r.segmento.pid i ∧
          (r.segmento.monedas_mineros i).pid = r.segmento.pid i),
        decide (∀ i, (r.segmento.votos_mineros i).voto = 1 → r.segmento.pid i ≠ -1),
        r.mineros.map (fun m => (decide (m.punto = Punto.ganador_2), m.mineros))))
      = some (true, true, [(true, 3), (true, 4), (false, 0), (false, 0)]) ∧
    (ejecutar_red pow_ejemplo (turnos_cuatro_votos ++ [turno 0])
        (red_inicial SharedMemMiner.cero 101 [102, 103, 104])).map
      (fun r => r.enviados.map (fun e => (e.1, e.2.id, e.2.total_votos, e.2.votos_positivos)))
      = some [(101, 1, 3, 3), (101, 2, 4, 1)] := by
  constructor
  · decide
  · decide

/-! ### C11 -/

set_option maxRecDepth 1000000 in
set_option maxHeartbeats 4000000 in
/-- C11, the code against the claim, with the registration loop and the loop of
`salir` run one access to the region at a time.  (1) Two arrivals without a lock:
101 is registered and searching with the gate closed, 103 and 104 arrive and wait on
`entry_gate`, 101 ends its round and posts the gate twice; both pass line 633 and run
the loop of lines 635-644, which no lock protects; both find slot 1 free before
either writes it, and their assignments alternate.  Both loops end (`break`),
`pid[1]` is 104, `votos_mineros[1].pid` is 103 and `monedas_mineros[1].pid` is 104.
(2) An exit against a registration: `salir` holds `semaforos.mutex`, the registration
holds `entry_mutex` (lines 615-628); 101 frees `pid[0]` (line 80), 103 finds slot 0
free and claims it (lines 619-624), 101 goes on with lines 81-84.  Both loops end,
`pid[0]` is 103, `votos_mineros[0].pid` and `monedas_mineros[0].pid` are -1. -/
theorem roster_consistente :
    ((((ejecutar_red pow_ejemplo turnos_dos_esperas
        (red_inicial SharedMemMiner.cero 101 [103, 104])).bind
        (fun r => minero_pasar_puerta r.segmento)).bind minero_pasar_puerta).map
      (fun s => carrera 103 0 104 0 0 carrera_dos_registros
          { segmento := s, primero := PuntoRegistro.comparar 0,
            segundo := PuntoRegistro.comparar 0, saliente := PuntoSalir.fin })).map
      (fun c =>
        (decide (c.primero = PuntoRegistro.fin ∧ c.segundo = PuntoRegistro.fin),
          c.segmento.pid 0, c.segmento.pid 1, (c.segmento.votos_mineros 1).pid,
          (c.segmento.monedas_mineros 1).pid, c.segmento.entry_gate))
      = some (true, 101, 104, 103, 104, 0) ∧
    (fun c : Carrera =>
      (decide (c.primero = PuntoRegistro.fin ∧ c.saliente = PuntoSalir.fin),
        c.segmento.pid 0, (c.segmento.votos_mineros 0).pid,
        (c.segmento.monedas_mineros 0).pid))
      (carrera 103 0 0 0 101 carrera_salida_registro
        { segmento := { (region_ejemplo [101, 102] [0, 0] [3, 4]) with
            semaforos := { mutex := 0, mutex_ronda := 0, ganador := 1 }
            entry_mutex := 0 },
          primero := PuntoRegistro.comparar 0,
          segundo := PuntoRegistro.fin, saliente := PuntoSalir.comparar 0 })
      = (true, 103, -1, -1) := by
  constructor
  · decide
  · decide

/-! ### C17 -/

set_option maxRecDepth 1000000 in
set_option maxHeartbeats 4000000 in
/-- C22, as stated, fails on "the wait always runs its full 500 iterations" and, in a
region whose tables are out of step, on "the shipped `total_votos` equals the number
of registered peers".  (1) On the schedule of C13 both 101 and 102 run the first
critical section of `ganador` in round 2 and each counts `mineros = 2`; the region
holds `total_votos = 0`.  The tally of 102 (lines 413-440) leaves `total_votos = 2` in
the region, until its rotation or for good if its send fails; the wait of 101 reads
the region without `mutex`, and with three reads before that tally and the next one
after it, it ends after 3 iterations.  (2) In the region that the race of an exit
with a registration leaves (C11: `pid[0] = 103`, `votos_mineros[0].pid = -1`), with
102 in slot 1, no peer registers or exits, 102 wins and counts `mineros = 2`, and its
block is sent with `total_votos = 1`. -/
theorem votos_silenciosos_counterexample :
    ((ejecutar_red pow_ejemplo (turnos_dos_ganadores ++ [turno 0, turno 1])
        (red_inicial SharedMemMiner.cero 101 [102])).bind
      (fun r => (ganador_cerrar pow_ejemplo 102 2 0 false r.segmento).map
        (fun c => (r.mineros.map (fun m => (decide (m.punto = Punto.ganador_2), m.mineros)),
          r.segmento.bloque_actual.total_votos, c.segmento.bloque_actual.total_votos,
          ganador_espera 2 (fun k =>
            if k < 3 then r.segmento.bloque_actual.total_votos
            else c.segmento.bloque_actual.total_votos)))))
      = some ([(true, 2), (true, 2)], 0, 2, 3) ∧
    ((ganador_anunciar 102 2
        (carrera 103 0 0 0 101 carrera_salida_registro
          { segmento := region_ejemplo [101, 102] [0, 0] [3, 4],
            primero := PuntoRegistro.comparar 0,
            segundo := PuntoRegistro.fin,
            saliente := PuntoSalir.comparar 0 }).segmento).bind
      (fun s1 => (ganador_cerrar pow_ejemplo 102 (ganador_contar s1).2 4 true
          (ganador_contar s1).1).map
        (fun c => ((ganador_contar s1).2, c.envio.total_votos))))
      = some (2, 1) := by
  constructor
  · decide
  · decide

/-- C22, amended.  Silent peers count as cast votes.  The winner `me` announces in a
reachable region `s` whose three tables are in step (first critical section of
`ganador`, lines 381-394) and counts the roster (lines 398-402); between the
announcement and the tally only voters step (no peer registers or exits and no other
miner tallies).  Then: every vote slot holds 0 or 1 after the announcement; the count
`mineros` is the number of registered peers; whatever voters have written their vote
before the tally (none of them included), the voters leave the current block as it is
(`total_votos` included) and the message carries `total_votos` equal to the number of
registered peers, whether `mq_send` succeeds or not; when the announced solution does
not hash to the target, the votes of any voters other than the winner leave the
region exactly as it was, so a peer that stayed silent cannot be told from one that
rejected; and when `mineros ≥ 1`, every read of `total_votos` made by the wait of
lines 406-409 in a state the voters have reached is below `mineros`, so the wait runs
its 500 iterations. -/
theorem votos_silenciosos (pow_hash : Int → Int) (s s1 : SharedMemMiner) (l : List Bloque)
    (me solucion wallet : Int) (hal : Alcanzable pow_hash s l) (hros : RosterConsistente s)
    (ha : ganador_anunciar me solucion s = some s1) :
    (∀ i, (s1.votos_mineros i).voto = 0 ∨ (s1.votos_mineros i).voto = 1) ∧
    (ganador_contar s1).2 = (registrados s : Int) ∧
    (∀ (votantes : List Int),
      ∃ t, votaciones pow_hash votantes (ganador_contar s1).1 = some t ∧
        t.bloque_actual = (ganador_contar s1).1.bloque_actual ∧
        t.pid = s.pid ∧
        ∀ (mq_send_ok : Bool),
          ∃ c, ganador_cerrar pow_hash me (ganador_contar s1).2 wallet mq_send_ok t = some c ∧
            c.envio.total_votos = (registrados s : Int)) ∧
    (∀ (votantes : List Int), me ∉ votantes →
      s.bloque_actual.objetivo ≠ pow_hash solucion →
      votaciones pow_hash votantes (ganador_contar s1).1 = some (ganador_contar s1).1) ∧
    (∀ (estado : Int → SharedMemMiner),
      (∀ k, ∃ votantes,
        votaciones pow_hash votantes (ganador_contar s1).1 = some (estado k)) →
      1 ≤ (ganador_contar s1).2 →
      ganador_espera (ganador_contar s1).2
        (fun k => (estado k).bloque_actual.total_votos) = 500) := by
  obtain ⟨t1, t2, hm⟩ := ganador_anunciar_total me solucion s s1 ha
  obtain ⟨v1, _, v3, v4, _⟩ := ganador_anunciar_votos me solucion s s1 ha
  have htot := (alcanzable_total_votos pow_hash s l hal).2 hm
  have hm1 : (ganador_contar s1).1.semaforos.mutex ≠ 0 := by
    show s1.semaforos.mutex ≠ 0
    rw [t2]
    exact hm
  have hvot : ∀ i, ((ganador_contar s1).1.votos_mineros i).voto ≠ -1 := by
    intro i
    show (s1.votos_mineros i).voto ≠ -1
    rcases v4 i with h0 | ⟨h1, _⟩
    · rw [h0]
      exact show (0 : Int) ≠ -1 by decide
    · rw [h1]
      exact show (1 : Int) ≠ -1 by decide
  have hN : (ganador_contar s1).2 = (registrados s : Int) := by
    show contar_mineros s1 = _
    rw [contar_mineros_eq, v1]
    rfl
  refine ⟨fun i => ?_, hN, fun votantes => ?_, fun votantes hme hrej => ?_,
    fun estado hest hN1 => ?_⟩
  · rcases v4 i with h0 | ⟨h1, _⟩
    · exact Or.inl h0
    · exact Or.inr h1
  · obtain ⟨t, ht⟩ := votaciones_existe pow_hash votantes (ganador_contar s1).1 hm1
    obtain ⟨m1, m2, m3, _, m5, m6⟩ :=
      votaciones_marco pow_hash votantes (ganador_contar s1).1 t ht
    refine ⟨t, ht, m1, m3.trans v1, fun mq_send_ok => ?_⟩
    have hmt : t.semaforos.mutex ≠ 0 := by
      rw [m2]
      exact hm1
    obtain ⟨c, hc⟩ : ∃ c, ganador_cerrar pow_hash me (ganador_contar s1).2 wallet
        mq_send_ok t = some c :=
      ⟨_, ganador_cerrar_some pow_hash me (ganador_contar s1).2 wallet mq_send_ok t hmt⟩
    refine ⟨c, hc, ?_⟩
    rw [(ganador_cerrar_envio_total pow_hash me (ganador_contar s1).2 wallet mq_send_ok t c
      hc).1]
    rw [votos_emitidos_registrados s t
      (fun i => ((m5 i).trans (v3 i)).trans (hros i).1) (m6 hvot)]
  · apply votaciones_rechazo pow_hash votantes (ganador_contar s1).1 hm1
    · show s1.bloque_actual.objetivo ≠ pow_hash s1.bloque_actual.solucion
      rw [t1]
      exact hrej
    · intro otro ho i hi
      show (s1.votos_mineros i).voto = 0
      rcases v4 i with h0 | ⟨_, h1⟩
      · exact h0
      · exfalso
        apply hme
        have e : otro = me := by
          rw [← hi]
          show (s1.votos_mineros i).pid = me
          rw [v3 i]
          exact h1
        rw [← e]
        exact ho
  · apply ganador_espera_llena
    intro k _ _
    obtain ⟨votantes, hk⟩ := hest k
    obtain ⟨m1, _⟩ := votaciones_marco pow_hash votantes (ganador_contar s1).1 (estado k) hk
    show (estado k).bloque_actual.total_votos < _
    rw [m1]
    show s1.bloque_actual.total_votos < _
    rw [t1]
    show s.bloque_actual.total_votos < _
    omega

set_option maxRecDepth 1000000 in
set_option maxHeartbeats 4000000 in
/-- Worked instance of C22 with the hash `x ↦ (3x + 1) mod 7`: 101 and 102 register in
a new region, 101 announces the solution 3 for the target 0 (3 hashes to 3).  The
count is 2; with 102 silent the message carries 2 cast votes; the vote of 102, a
rejection, leaves the region as it was; the wait runs 500 iterations. -/
theorem votos_silenciosos_witness :
    ∃ s s1, Alcanzable pow_ejemplo s [] ∧ ganador_anunciar 101 3 s = some s1 ∧
      (ganador_contar s1).2 = 2 ∧
      (∃ c, ganador_cerrar pow_ejemplo 101 (ganador_contar s1).2 0 true
          (ganador_contar s1).1 = some c ∧ c.envio.total_votos = 2) ∧
      votaciones pow_ejemplo [102] (ganador_contar s1).1 = some (ganador_contar s1).1 ∧
      ganador_espera (ganador_contar s1).2
        (fun _ => (ganador_contar s1).1.bloque_actual.total_votos) = 500 := by
  have e : ((minero_registro 101 0 (primer_minero SharedMemMiner.cero)).bind
      (fun r => minero_registro 102 0 r.1)).isSome = true := by decide
  obtain ⟨r2, hr2⟩ := Option.isSome_iff_exists.mp e
  have hobs : ((minero_registro 101 0 (primer_minero SharedMemMiner.cero)).bind
      (fun r => minero_registro 102 0 r.1)).map
      (fun r => (registrados r.1, decide (r.1.semaforos.mutex ≠ 0), r.1.bloque_actual.objetivo))
      = some (2, true, 0) := by decide
  rw [hr2] at hobs
  simp only [Option.map_some', Option.some.injEq, Prod.mk.injEq, decide_eq_true_eq] at hobs
  obtain ⟨o1, o2, o3⟩ := hobs
  obtain ⟨r1, h1, h2⟩ := Option.bind_eq_some.mp hr2
  have hal : Alcanzable pow_ejemplo r2.1 [] :=
    Alcanzable.registro r1.1 r2.1 [] 102 0 r2.2
      (Alcanzable.registro _ r1.1 [] 101 0 r1.2 (Alcanzable.inicio SharedMemMiner.cero) h1) h2
  have hros : RosterConsistente r2.1 :=
    minero_registro_consistente 102 0 r1.1 r2.1 r2.2
      (minero_registro_consistente 101 0 _ r1.1 r1.2
        (rosterConsistente_inicio SharedMemMiner.cero) h1) h2
  obtain ⟨s1, ha⟩ := ganador_anunciar_existe 101 3 r2.1 o2
  obtain ⟨_, c2, c3, c4, c5⟩ := votos_silenciosos pow_ejemplo r2.1 s1 [] 101 3 0 hal hros ha
  have hN : (ganador_contar s1).2 = 2 := by
    rw [c2, o1]
    rfl
  refine ⟨r2.1, s1, hal, ha, hN, ?_, ?_, ?_⟩
  · obtain ⟨t, ht, _, _, hc⟩ := c3 []
    have htt : t = (ganador_contar s1).1 := by
      unfold votaciones at ht
      simp only [Option.some.injEq] at ht
      exact ht.symm
    obtain ⟨c, hc1, hc2⟩ := hc true
    rw [htt] at hc1
    refine ⟨c, hc1, ?_⟩
    rw [hc2, o1]
    rfl
  · apply c4 [102] (by decide)
    rw [o3]
    decide
  · exact c5 (fun _ => (ganador_contar s1).1) (fun _ => ⟨[], rfl⟩) (by rw [hN]; decide)

/-! ### C24 -/

end Blockchain
